import Mathlib

/-! Priority-donating synchronisation primitives (threads/synch.c).

A shallow embedding of the semaphore, lock and condition variable of
`threads/synch.c`.  Threads, locks and wait-cells live in tables indexed by a
natural number that stands for the address of the C object; an intrusive list
of `list_elem`s is the list of the indices of the objects that embed them,
front first.  The current thread (`thread_current ()`) is an explicit argument
`cur` of every operation.

A blocking operation is cut at its suspension point: the part of `sema_down`
that runs at the call and again at each resumption is `sema_down_loop`, and
`lock_acquire` is the donation step `lock_acquire_donate`, the semaphore
`down`, and `lock_acquire_finish`.  `thread_yield ()` writes none of the
modelled fields.  A failed `ASSERT` is the result `none`, as is a step that the
model does not follow: `list_remove` of an entry that is in no list, a walk
deeper than its fuel.

The list utility (lib/kernel/list.c) and the scheduler (threads/thread.c) are
not among the sources; what synch.c calls of them is modelled from the
specification and marked so.
-/

namespace Synch

/-! ## The ordered-queue utility -/

/-- Modelled from the spec: `list_insert_ordered` of the ordered-queue utility
(lib/kernel/list.c is not among the sources).  The entry is put in front of the
first queued entry it is ordered before, so behind every entry it ties with. -/
def list_insert_ordered {α : Type} (less : α → α → Bool) (elem : α) : List α → List α
  | [] => [elem]
  | e :: rest =>
    if less elem e then elem :: e :: rest
    else e :: list_insert_ordered less elem rest

/-- Modelled from the spec: `list_sort` of the ordered-queue utility
(lib/kernel/list.c is not among the sources), a full stable re-sort: the
entries are re-inserted in queue order, so ties keep their queue order. -/
def list_sort {α : Type} (less : α → α → Bool) (l : List α) : List α :=
  l.foldl (fun acc x => list_insert_ordered less x acc) []

/-- Modelled from the spec: `list_insert_ordered` with a comparator that writes
to the state `σ` it reads (as `sort_sem_priority` does); the state is passed
from one comparison to the next. -/
def list_insert_ordered_st {σ α : Type} (less : σ → α → α → σ × Bool) (elem : α) :
    σ → List α → σ × List α
  | s, [] => (s, [elem])
  | s, e :: rest =>
    if (less s elem e).2 then ((less s elem e).1, elem :: e :: rest)
    else
      ((list_insert_ordered_st less elem (less s elem e).1 rest).1,
        e :: (list_insert_ordered_st less elem (less s elem e).1 rest).2)

/-- Modelled from the spec: `list_sort` with a comparator that writes to the
state it reads. -/
def list_sort_st {σ α : Type} (less : σ → α → α → σ × Bool) (s : σ) (l : List α) :
    σ × List α :=
  l.foldl (fun acc x => list_insert_ordered_st less x acc.1 acc.2) (s, [])

/-- Modelled from the spec: `list_remove`, the remove-by-identity of the
ordered-queue utility (lib/kernel/list.c is not among the sources), on the
queue `l` that the entry is in.  The C function is handed the entry alone and
unlinks it through the entry's own links; for an entry that is not in the
queue there is nothing it can rightly unlink, and the model does not follow the
call: `none`. -/
def list_remove {α : Type} [DecidableEq α] (elem : α) (l : List α) : Option (List α) :=
  if elem ∈ l then some (l.erase elem) else none

/-! ## Data model -/

/-- A `struct semaphore`: the unsigned `value` and the queue of the blocked
threads (their `elem`s), front first. -/
structure semaphore where
  value : Nat
  waiters : List Nat
  deriving DecidableEq

/-- A `struct lock`, with the fields this repository added to it.  `holder` is
the owning thread, `none` for `NULL`. -/
structure lock where
  holder : Option Nat
  semaphore : semaphore
  priority : Int
  is_not_null : Int
  isntChain : Int
  deriving DecidableEq

/-- The fields of `struct thread` that synch.c reads and writes.  `neededLock`
is a `struct lock` held by value; `all_locks_held` lists the locks whose
`lock_elem` is in the list; `blocked` is the scheduler's view of the thread. -/
structure thread where
  priority : Int
  orig_priority : Int
  neededLock : lock
  current_dono : Int
  all_locks_held : List Nat
  blocked : Bool
  deriving DecidableEq

/-- A `struct semaphore_elem`: one semaphore in a condition's list. -/
structure semaphore_elem where
  semaphore : semaphore
  deriving DecidableEq

/-- A `struct condition`: the list of the queued wait-cells. -/
structure condition where
  waiters : List Nat
  deriving DecidableEq

/-- The modelled part of the kernel's memory. -/
structure kernel where
  threads : Nat → thread
  locks : Nat → lock
  cells : Nat → semaphore_elem
  conds : Nat → condition

/-- The C type `unsigned` of `sema->value` counts modulo this (32 bits). -/
def UINT_MOD : Nat := 2 ^ 32

/-! ## Scheduler boundary -/

/-- Modelled from the spec: `thread_block ()` suspends the calling thread
(threads/thread.c is not among the sources). -/
def thread_block (threads : Nat → thread) (cur : Nat) : Nat → thread :=
  Function.update threads cur { threads cur with blocked := true }

/-- Modelled from the spec: `thread_unblock (t)` marks the thread runnable
(threads/thread.c is not among the sources). -/
def thread_unblock (threads : Nat → thread) (t : Nat) : Nat → thread :=
  Function.update threads t { threads t with blocked := false }

/-- Modelled from the spec: `thread_get_priority ()` is the caller's current
(effective) priority (threads/thread.c is not among the sources). -/
def thread_get_priority (threads : Nat → thread) (cur : Nat) : Int :=
  (threads cur).priority

/-! ## Semaphore -/

/-- `sema_init`. -/
def sema_init (value : Nat) : semaphore :=
  { value := value, waiters := [] }

/-- `sort_priority`: the first thread's priority is greater than the
second's. -/
def sort_priority (threads : Nat → thread) (first second : Nat) : Bool :=
  decide ((threads first).priority > (threads second).priority)

/-- The `while` of `sema_down` from its test to the suspension or to the
decrement: it runs at the call and again each time the thread is resumed.  The
flag tells whether the down completed (`true`) or the thread blocked. -/
def sema_down_loop (threads : Nat → thread) (cur : Nat) (sema : semaphore) :
    (Nat → thread) × semaphore × Bool :=
  if sema.value = 0 then
    (thread_block threads cur,
      { sema with waiters := list_insert_ordered (sort_priority threads) cur sema.waiters },
      false)
  else
    (threads, { sema with value := (sema.value + UINT_MOD - 1) % UINT_MOD }, true)

/-- `sema_down` at the call: the assertion, then the loop. -/
def sema_down (intr_context : Bool) (threads : Nat → thread) (cur : Nat) (sema : semaphore) :
    Option ((Nat → thread) × semaphore × Bool) :=
  if intr_context then none else some (sema_down_loop threads cur sema)

/-- `sema_try_down`. -/
def sema_try_down (sema : semaphore) : semaphore × Bool :=
  if sema.value > 0 then ({ sema with value := (sema.value + UINT_MOD - 1) % UINT_MOD }, true)
  else (sema, false)

/-- `sema_up`: wake the front of the re-sorted queue, if any, then increment. -/
def sema_up (threads : Nat → thread) (sema : semaphore) : (Nat → thread) × semaphore :=
  if !sema.waiters.isEmpty then
    match list_sort (sort_priority threads) sema.waiters with
    | t :: rest =>
      (thread_unblock threads t, { value := (sema.value + 1) % UINT_MOD, waiters := rest })
    | [] =>
      (threads, { value := (sema.value + 1) % UINT_MOD, waiters := [] })
  else
    (threads, { sema with value := (sema.value + 1) % UINT_MOD })

/-! ## One semaphore under a sequence of calls -/

/-- A call on the semaphore, or the resumption of a thread suspended in
`sema_down`. -/
inductive sema_event where
  | down (t : Nat)
  | resume (t : Nat)
  | try_down
  | up
  deriving DecidableEq

/-- One semaphore and its callers: `in_down` lists the threads that are inside
`sema_down`, suspended at `thread_block ()`; `ups` counts the calls of
`sema_up` and `downs` the completed downs. -/
structure sema_sys where
  threads : Nat → thread
  sema : semaphore
  in_down : List Nat
  ups : Nat
  downs : Nat

/-- The system right after `sema_init (&sema, value)`. -/
def sema_sys_init (threads : Nat → thread) (value : Nat) : sema_sys :=
  { threads := threads, sema := sema_init value, in_down := [], ups := 0, downs := 0 }

/-- The thread leaves or enters `in_down` according to the outcome of its pass
through the loop of `sema_down`. -/
def sema_sys_after_loop (s : sema_sys) (t : Nat)
    (r : (Nat → thread) × semaphore × Bool) : sema_sys :=
  if r.2.2 then
    { s with threads := r.1, sema := r.2.1, in_down := s.in_down.erase t, downs := s.downs + 1 }
  else
    { s with threads := r.1, sema := r.2.1, in_down := t :: s.in_down.erase t }

/-- One event.  A thread calls `sema_down` only while it runs and is not inside
`sema_down` already; it is resumed only after `sema_up` unblocked it. -/
def sema_step (s : sema_sys) : sema_event → Option sema_sys
  | .down t =>
    if (s.threads t).blocked || decide (t ∈ s.in_down) then none
    else (sema_down false s.threads t s.sema).map (sema_sys_after_loop s t)
  | .resume t =>
    if (s.threads t).blocked || !decide (t ∈ s.in_down) then none
    else some (sema_sys_after_loop s t (sema_down_loop s.threads t s.sema))
  | .try_down =>
    if (sema_try_down s.sema).2 then
      some { s with sema := (sema_try_down s.sema).1, downs := s.downs + 1 }
    else some { s with sema := (sema_try_down s.sema).1 }
  | .up =>
    some { s with threads := (sema_up s.threads s.sema).1, sema := (sema_up s.threads s.sema).2,
                  ups := s.ups + 1 }

/-- A sequence of events, `none` when one of them cannot happen. -/
def sema_run (s : sema_sys) : List sema_event → Option sema_sys
  | [] => some s
  | e :: es => (sema_step s e).bind (fun s1 => sema_run s1 es)

/-- Threads of the given priorities, none blocked, waiting for no lock. -/
def mk_thread (priority : Int) : thread :=
  { priority := priority, orig_priority := priority,
    neededLock := { holder := none, semaphore := sema_init 0, priority := 0,
                    is_not_null := 0, isntChain := 1 },
    current_dono := 0, all_locks_held := [], blocked := false }

/-- What a sequence of calls keeps true of the semaphore, for the initial
value `init`. -/
def sema_inv (init : Nat) (s : sema_sys) : Prop :=
  s.sema.value < UINT_MOD ∧ s.sema.value + s.downs ≤ init + s.ups

/-! ## Lock -/

/-- Write a thread's record. -/
def set_thread (k : kernel) (t : Nat) (v : thread) : kernel :=
  { k with threads := Function.update k.threads t v }

/-- Write a lock's record. -/
def set_lock (k : kernel) (l : Nat) (v : lock) : kernel :=
  { k with locks := Function.update k.locks l v }

/-- `lock_init`; `PRI_DEFAULT` is a constant of threads/thread.h, which is not
among the sources. -/
def lock_init (PRI_DEFAULT : Int) : lock :=
  { holder := none, semaphore := sema_init 1, priority := PRI_DEFAULT,
    is_not_null := 0, isntChain := 1 }

/-- `lock_held_by_current_thread`. -/
def lock_held_by_current_thread (k : kernel) (cur l : Nat) : Bool :=
  decide ((k.locks l).holder = some cur)

/-- `sort_lock_priority`: the first lock's priority is greater than the
second's. -/
def sort_lock_priority (locks : Nat → lock) (first second : Nat) : Bool :=
  decide ((locks first).priority > (locks second).priority)

/-- `next_lock_needed`, on the lock it is handed (the lock itself, or the copy
in a holder's `neededLock`): recurse while the holder waits for a lock, then
mark the holder and give it the caller's priority.  `none` when the holder is
`NULL` or the recursion is deeper than the fuel. -/
def next_lock_needed : Nat → (Nat → thread) → Nat → lock → Option (Nat → thread)
  | 0, _, _, _ => none
  | fuel + 1, threads, cur, lk =>
    match lk.holder with
    | none => none
    | some low_lock =>
      match (if (threads low_lock).neededLock.is_not_null = 1 then
              next_lock_needed fuel threads cur (threads low_lock).neededLock
            else some threads) with
      | none => none
      | some threads1 =>
        some (Function.update threads1 low_lock
          { threads1 low_lock with
            current_dono := 1, priority := thread_get_priority threads1 cur })

/-- The donation step of `lock_acquire`: from its assertions to the
`thread_yield ()` before the semaphore is downed. -/
def lock_acquire_donate (fuel : Nat) (intr_context : Bool) (k : kernel) (cur l : Nat) :
    Option kernel :=
  if intr_context || lock_held_by_current_thread k cur l then none
  else
    let k1 :=
      if (k.locks l).holder.isNone then
        set_lock k l { k.locks l with priority := (k.threads cur).priority }
      else k
    match (k1.locks l).holder with
    | none => some k1
    | some holder =>
      if (k1.threads holder).priority < (k1.threads cur).priority then
        let k2 := set_thread k1 cur { k1.threads cur with neededLock := k1.locks l }
        let k3 := set_thread k2 cur
          { k2.threads cur with
            neededLock := { (k2.threads cur).neededLock with is_not_null := 1 } }
        let k4 := set_lock k3 l { k3.locks l with isntChain := 0 }
        match next_lock_needed fuel k4.threads cur (k4.locks l) with
        | none => none
        | some threads5 =>
          let k5 := { k4 with threads := threads5 }
          if (k5.locks l).priority < (k5.threads cur).priority then
            some (set_lock k5 l { k5.locks l with priority := (k5.threads cur).priority })
          else some k5
      else some k1

/-- The end of `lock_acquire`, after `sema_down` returned: take the lock, file
it in the caller's list of held locks, clear the caller's needed lock. -/
def lock_acquire_finish (k : kernel) (cur l : Nat) : kernel :=
  let k1 := set_lock k l { k.locks l with holder := some cur }
  let k2 := set_thread k1 cur
    { k1.threads cur with
      all_locks_held :=
        list_insert_ordered (sort_lock_priority k1.locks) l (k1.threads cur).all_locks_held }
  set_thread k2 cur
    { k2.threads cur with neededLock := { (k2.threads cur).neededLock with is_not_null := 0 } }

/-- The `sema_down` of `lock_acquire` from its loop test, and the end of
`lock_acquire` when the down completes; the flag tells whether `lock_acquire`
returned (`true`) or the caller blocked. -/
def lock_acquire_down (k : kernel) (cur l : Nat) : kernel × Bool :=
  let r := sema_down_loop k.threads cur (k.locks l).semaphore
  let k1 := set_lock { k with threads := r.1 } l { k.locks l with semaphore := r.2.1 }
  if r.2.2 then (lock_acquire_finish k1 cur l, true) else (k1, false)

/-- `lock_acquire` from the call to its return or to the caller's suspension,
when no other thread runs at its `thread_yield ()`. -/
def lock_acquire (fuel : Nat) (intr_context : Bool) (k : kernel) (cur l : Nat) :
    Option (kernel × Bool) :=
  (lock_acquire_donate fuel intr_context k cur l).map (fun k1 => lock_acquire_down k1 cur l)

/-- `lock_try_acquire`. -/
def lock_try_acquire (k : kernel) (cur l : Nat) : Option (kernel × Bool) :=
  if lock_held_by_current_thread k cur l then none
  else
    let r := sema_try_down (k.locks l).semaphore
    let k1 := set_lock k l { k.locks l with semaphore := r.1 }
    if r.2 then some (set_lock k1 l { k1.locks l with holder := some cur }, true)
    else some (k1, false)

/-- The part of `lock_release` that restores the caller's priority: the `if`
on `orig_priority != priority`, after the lock left the caller's list. -/
def lock_release_priority (k : kernel) (cur l : Nat) : kernel :=
  if (k.threads cur).orig_priority ≠ (k.threads cur).priority then
    if (k.threads cur).all_locks_held.isEmpty then
      set_thread k cur
        { k.threads cur with priority := (k.threads cur).orig_priority, current_dono := 0 }
    else
      let ks := set_thread k cur
        { k.threads cur with
          all_locks_held :=
            list_sort (sort_lock_priority k.locks) (k.threads cur).all_locks_held }
      if (ks.locks l).isntChain = 0 then
        match (ks.threads cur).all_locks_held with
        | next_highest_lock :: _ =>
          set_thread ks cur
            { ks.threads cur with priority := (ks.locks next_highest_lock).priority }
        | [] => ks
      else ks
  else k

/-- `lock_release`.  `list_remove (&lock->lock_elem)` names no list: the
`lock_elem` of a lock is put in a list by `lock_acquire` only, in the list of
held locks of the thread that becomes the owner, so for the owner it is in the
caller's list or in none (`held_list_owner`).  When it is in none
(`lock_try_acquire` files nothing) the release is not followed past
`list_remove`, where the owner is already cleared: `none`. -/
def lock_release (k : kernel) (cur l : Nat) : Option kernel :=
  if !lock_held_by_current_thread k cur l then none
  else
    let k1 := set_lock k l { k.locks l with holder := none }
    match list_remove l (k1.threads cur).all_locks_held with
    | none => none
    | some held =>
      let k2 := set_thread k1 cur { k1.threads cur with all_locks_held := held }
      let k3 := lock_release_priority k2 cur l
      let k4 := set_lock k3 l { k3.locks l with isntChain := 1 }
      let r := sema_up k4.threads (k4.locks l).semaphore
      some (set_lock { k4 with threads := r.1 } l { k4.locks l with semaphore := r.2 })

/-- A kernel of threads with the given priorities and freshly initialised
locks, with no condition variable in use. -/
def mk_kernel (priority : Nat → Int) (PRI_DEFAULT : Int) : kernel :=
  { threads := fun t => mk_thread (priority t),
    locks := fun _ => lock_init PRI_DEFAULT,
    cells := fun _ => { semaphore := sema_init 0 },
    conds := fun _ => { waiters := [] } }

/-- Priorities of the scenario threads: L = 1 has 1, M = 2 has 5, H = 3 has 9. -/
def lmh_priority (t : Nat) : Int :=
  if t = 1 then 1 else if t = 2 then 5 else if t = 3 then 9 else 0

/-! ## Locks under a sequence of calls -/

/-- A call of a lock operation by thread `t`, or (`acquire_down`) the part of
`lock_acquire` from the loop test of its `sema_down`, which runs after the
`thread_yield ()` of `lock_acquire` and again each time the thread is
resumed. -/
inductive lock_event where
  | acquire (t l : Nat)
  | acquire_down (t : Nat)
  | try_acquire (t l : Nat)
  | release (t l : Nat)
  deriving DecidableEq

/-- The kernel and, for each thread that is inside `lock_acquire`, the lock it
is acquiring. -/
structure lock_sys where
  k : kernel
  acquiring : Nat → Option Nat

/-- Every lock has just been initialised by `lock_init` and no thread is inside
an operation. -/
def lock_sys_init (k0 : kernel) (PRI_DEFAULT : Int) : lock_sys :=
  { k := { k0 with locks := fun _ => lock_init PRI_DEFAULT }, acquiring := fun _ => none }

/-- One event; `none` when the thread cannot run or call, or an assertion of
the operation fails, or the donation walk does not return within the fuel, or
`lock_release` is handed a lock that is not in the caller's list of held
locks. -/
def lock_step (fuel : Nat) (s : lock_sys) : lock_event → Option lock_sys
  | .acquire t l =>
    if (s.k.threads t).blocked || (s.acquiring t).isSome then none
    else (lock_acquire_donate fuel false s.k t l).map
      (fun k1 => { k := k1, acquiring := Function.update s.acquiring t (some l) })
  | .acquire_down t =>
    match s.acquiring t with
    | none => none
    | some l =>
      if (s.k.threads t).blocked then none
      else if (lock_acquire_down s.k t l).2 then
        some { k := (lock_acquire_down s.k t l).1,
               acquiring := Function.update s.acquiring t none }
      else some { k := (lock_acquire_down s.k t l).1, acquiring := s.acquiring }
  | .try_acquire t l =>
    if (s.k.threads t).blocked || (s.acquiring t).isSome then none
    else (lock_try_acquire s.k t l).map (fun r => { k := r.1, acquiring := s.acquiring })
  | .release t l =>
    if (s.k.threads t).blocked || (s.acquiring t).isSome then none
    else (lock_release s.k t l).map (fun k1 => { k := k1, acquiring := s.acquiring })

/-- A sequence of events, `none` when one of them cannot happen. -/
def lock_run (fuel : Nat) (s : lock_sys) : List lock_event → Option lock_sys
  | [] => some s
  | e :: es => (lock_step fuel s e).bind (fun s1 => lock_run fuel s1 es)

/-- The state the scenario threads reach from freshly initialised locks by the
given events (the initial state if the events cannot happen). -/
def lmh_after (evs : List lock_event) : lock_sys :=
  (lock_run 4 (lock_sys_init (mk_kernel lmh_priority 31) 31) evs).getD
    (lock_sys_init (mk_kernel lmh_priority 31) 31)

/-- The lock is free with count 1, or owned with count 0. -/
def lock_ok (lk : lock) : Prop :=
  (lk.holder = none ∧ lk.semaphore.value = 1) ∨ (lk.holder ≠ none ∧ lk.semaphore.value = 0)

/-- The kernel at the end of the donation step of `lock_acquire` on lock `l`,
in terms of the kernel `k` at the call and of the thread table `threads5` that
`next_lock_needed` returned: lines 252 to 256. -/
def donated (k : kernel) (cur l : Nat) (threads5 : Nat → thread) : kernel :=
  if (k.locks l).priority < (threads5 cur).priority then
    { k with threads := threads5,
             locks := Function.update k.locks l
               { k.locks l with isntChain := 0, priority := (threads5 cur).priority } }
  else
    { k with threads := threads5,
             locks := Function.update k.locks l { k.locks l with isntChain := 0 } }

/-! ## Condition variable -/

/-- Write a wait-cell's record. -/
def set_cell (k : kernel) (w : Nat) (v : semaphore_elem) : kernel :=
  { k with cells := Function.update k.cells w v }

/-- Write a condition's record. -/
def set_cond (k : kernel) (c : Nat) (v : condition) : kernel :=
  { k with conds := Function.update k.conds c v }

/-- The `list_sort (&s->semaphore.waiters, sort_priority, NULL)` of
`sort_sem_priority`, on the wait-cell `w`. -/
def sort_cell_waiters (k : kernel) (w : Nat) : kernel :=
  set_cell k w
    { semaphore :=
        { (k.cells w).semaphore with
          waiters := list_sort (sort_priority k.threads) (k.cells w).semaphore.waiters } }

/-- `sort_sem_priority`: the comparator of wait-cells, with the kernel state it
leaves, since it re-sorts the waiter lists of the two cells it compares.  The
last case is not reached: `list_front` is taken of lists that are not empty. -/
def sort_sem_priority (k : kernel) (first second : Nat) : kernel × Bool :=
  if (k.cells second).semaphore.waiters.isEmpty then (k, true)
  else if (k.cells first).semaphore.waiters.isEmpty then (k, false)
  else
    let k1 := sort_cell_waiters k first
    let k2 := sort_cell_waiters k1 second
    match (k2.cells first).semaphore.waiters, (k2.cells second).semaphore.waiters with
    | first_thread :: _, second_thread :: _ =>
      (k2, decide ((k2.threads first_thread).priority > (k2.threads second_thread).priority))
    | _, _ => (k2, false)

/-- `cond_init`. -/
def cond_init : condition :=
  { waiters := [] }

/-- `cond_wait` from the call to the `sema_down` of its wait-cell: the
assertions, the fresh cell `w` (the caller's local variable `waiter`), its
ordered insertion, and `lock_release`. -/
def cond_wait_begin (intr_context : Bool) (k : kernel) (cur c l w : Nat) : Option kernel :=
  if intr_context || !lock_held_by_current_thread k cur l then none
  else
    let k1 := set_cell k w { semaphore := sema_init 0 }
    let r := list_insert_ordered_st sort_sem_priority w k1 (k1.conds c).waiters
    let k2 := set_cond r.1 c { waiters := r.2 }
    lock_release k2 cur l

/-- The `sema_down (&waiter.semaphore)` of `cond_wait` from its loop test, at
the call and at each resumption; the flag tells whether the down completed. -/
def cond_wait_sleep (k : kernel) (cur w : Nat) : kernel × Bool :=
  let r := sema_down_loop k.threads cur (k.cells w).semaphore
  (set_cell { k with threads := r.1 } w { semaphore := r.2.1 }, r.2.2)

/-- The program points of a thread inside `cond_wait`, after `lock_release`:
at the `sema_down` of its cell, at the call of `lock_acquire`, at the
`sema_down` of the lock, and after the return. -/
inductive cond_wait_at where
  | sleep
  | acquire
  | down
  | returned
  deriving DecidableEq

/-- The caller of `cond_wait` runs from one program point to the next
suspension point or to the return. -/
def cond_wait_resume (fuel : Nat) (k : kernel) (cur l w : Nat) :
    cond_wait_at → Option (kernel × cond_wait_at)
  | .sleep =>
    some ((cond_wait_sleep k cur w).1,
      if (cond_wait_sleep k cur w).2 then cond_wait_at.acquire else cond_wait_at.sleep)
  | .acquire => (lock_acquire_donate fuel false k cur l).map (fun k1 => (k1, cond_wait_at.down))
  | .down =>
    some ((lock_acquire_down k cur l).1,
      if (lock_acquire_down k cur l).2 then cond_wait_at.returned else cond_wait_at.down)
  | .returned => none

/-- `cond_signal`. -/
def cond_signal (intr_context : Bool) (k : kernel) (cur c l : Nat) : Option kernel :=
  if intr_context || !lock_held_by_current_thread k cur l then none
  else if !(k.conds c).waiters.isEmpty then
    let r := list_sort_st sort_sem_priority k (k.conds c).waiters
    let k1 := set_cond r.1 c { waiters := r.2 }
    match (k1.conds c).waiters with
    | w :: rest =>
      let k2 := set_cond k1 c { waiters := rest }
      let u := sema_up k2.threads (k2.cells w).semaphore
      some (set_cell { k2 with threads := u.1 } w { semaphore := u.2 })
    | [] => some k1
  else some k

/-- The wait-cell that `cond_signal` pops and ups: the front of the re-sorted
queue. -/
def cond_signal_cell (k : kernel) (c : Nat) : Option Nat :=
  (list_sort_st sort_sem_priority k (k.conds c).waiters).2.head?

/-- `cond_broadcast`; the fuel bounds the passes through its `while`. -/
def cond_broadcast : Nat → Bool → kernel → Nat → Nat → Nat → Option kernel
  | fuel, intr_context, k, cur, c, l =>
    if !(k.conds c).waiters.isEmpty then
      match fuel with
      | 0 => none
      | fuel1 + 1 =>
        match cond_signal intr_context k cur c l with
        | none => none
        | some k1 => cond_broadcast fuel1 intr_context k1 cur c l
    else some k

/-- The wait-cells that the signals of `cond_broadcast` pop and up, in the
order of the signals. -/
def cond_broadcast_cells : Nat → Bool → kernel → Nat → Nat → Nat → List Nat
  | 0, _, _, _, _, _ => []
  | fuel1 + 1, intr_context, k, cur, c, l =>
    match cond_signal_cell k c, cond_signal intr_context k cur c l with
    | some w, some k1 => w :: cond_broadcast_cells fuel1 intr_context k1 cur c l
    | _, _ => []

/-- The priority a wait-cell is ordered by: the current priority of the front
of its re-sorted waiter list, `none` for a cell with no waiting thread. -/
def cell_key (k : kernel) (w : Nat) : Option Int :=
  ((list_sort (sort_priority k.threads) (k.cells w).semaphore.waiters).head?).map
    (fun t => (k.threads t).priority)

/-- The answer of `sort_sem_priority` in terms of the keys of the two cells. -/
def key_less : Option Int → Option Int → Bool
  | _, none => true
  | none, some _ => false
  | some p, some q => decide (p > q)

/-- The order `sort_sem_priority` sorts by: a cell with no waiting thread comes
last, and cells with waiting threads come in descending order of key. -/
def key_ge (a b : Option Int) : Prop :=
  b = none ∨ ∃ p q, a = some p ∧ b = some q ∧ q ≤ p

/-- The states `sort_sem_priority` can leave from `k`: every cell's waiter list
is a rearrangement of what it was, and nothing else is written. -/
def cells_rearranged (k s : kernel) : Prop :=
  s.threads = k.threads ∧ s.locks = k.locks ∧ s.conds = k.conds ∧
  ∀ w, (s.cells w).semaphore.value = (k.cells w).semaphore.value ∧
    ((s.cells w).semaphore.waiters).Perm (k.cells w).semaphore.waiters

/-- The comparison of two wait-cells by their keys in the state `k`. -/
def cell_less (k : kernel) (a b : Nat) : Bool :=
  key_less (cell_key k a) (cell_key k b)

/-- A kernel in which thread 0 holds every lock and the cells 10, 11, 12, of
waiters L = 1, H = 3, M = 2, are queued on every condition. -/
def cond_demo : kernel :=
  { threads := fun t => mk_thread (lmh_priority t),
    locks := fun _ => { lock_init 31 with holder := some 0, semaphore := sema_init 0 },
    cells := fun w =>
      { semaphore :=
          { value := 0,
            waiters := if w = 10 then [1] else if w = 11 then [3] else if w = 12 then [2]
              else [] } },
    conds := fun _ => { waiters := [10, 11, 12] } }

/-- The wait and signal scenario up to the last step of A: A = 1 acquires lock
0 and waits on condition 0 with the cell 10, so it blocks with the lock
released; B = 2 acquires the lock, signals and releases; A wakes from the
`sema_down` of its cell and runs the donation step of `lock_acquire`.  The
result is the kernel and A's program point, the `sema_down` of the lock. -/
def wait_signal_woken : Option (kernel × cond_wait_at) := do
  let a1 ← lock_acquire 1 false (mk_kernel lmh_priority 31) 1 0
  let k2 ← cond_wait_begin false a1.1 1 0 0 10
  let k3 := (cond_wait_sleep k2 1 10).1
  let b4 ← lock_acquire 1 false k3 2 0
  let k5 ← cond_signal false b4.1 2 0 0
  let k6 ← lock_release k5 2 0
  let r7 ← cond_wait_resume 1 k6 1 0 10 cond_wait_at.sleep
  cond_wait_resume 1 r7.1 1 0 10 r7.2

/-- The wait and signal scenario: after the steps of `wait_signal_woken` A
re-acquires the lock and returns.  The result is the kernel and A's program
point at the end. -/
def wait_signal_scenario : Option (kernel × cond_wait_at) := do
  let r8 ← wait_signal_woken
  cond_wait_resume 1 r8.1 1 0 10 r8.2

/-- Priorities of the threads of the nested scenarios: thread 1 has 1, thread 2
has 5, threads 3 and 5 have 9, thread 4 has 7. -/
def nest_priority (t : Nat) : Int :=
  if t = 1 then 1 else if t = 2 then 5 else if t = 3 then 9 else if t = 4 then 7
  else if t = 5 then 9 else 0

/-- The state the threads of the nested scenarios reach from freshly
initialised locks by the given events (the initial state if the events cannot
happen). -/
def nest_after (evs : List lock_event) : lock_sys :=
  (lock_run 4 (lock_sys_init (mk_kernel nest_priority 31) 31) evs).getD
    (lock_sys_init (mk_kernel nest_priority 31) 31)

/-- The threads of `hist` call `sema_down` one after the other, in this order,
on a semaphore whose value is 0: each one passes once through the loop of
`sema_down`. -/
def sema_down_all (threads : Nat → thread) (sema : semaphore) (hist : List Nat) :
    (Nat → thread) × semaphore :=
  hist.foldl
    (fun p t => ((sema_down_loop p.1 t p.2).1, (sema_down_loop p.1 t p.2).2.1))
    (threads, sema)

/-! ## Interrupt levels -/

/-- The fields whose writes are followed: the count and the waiter queue of a
semaphore, the owner, priority and `isntChain` of a lock, the priority,
donation flag, needed lock and list of held locks of a thread, and the waiter
queue of a condition. -/
inductive field where
  | sema_value
  | sema_waiters
  | lock_holder
  | lock_priority
  | lock_isntChain
  | thread_priority
  | thread_current_dono
  | thread_neededLock
  | thread_all_locks_held
  | cond_waiters
  deriving DecidableEq

/-- The interrupt level (`true` for interrupts enabled) and the writes made so
far, each with the interrupt level at which it was made. -/
structure intr_trace where
  level : Bool
  writes : List (field × Bool)

/-- The start of a call made at the given interrupt level. -/
def intr_start (level : Bool) : intr_trace :=
  { level := level, writes := [] }

/-- A write to a field, at the current interrupt level. -/
def log_write (f : field) (s : intr_trace) : intr_trace :=
  { s with writes := s.writes ++ [(f, s.level)] }

/-- The same write, `n` times. -/
def log_writes (f : field) : Nat → intr_trace → intr_trace
  | 0, s => s
  | n + 1, s => log_writes f n (log_write f s)

/-- Modelled from the spec: `intr_disable ()` turns interrupts off and returns
the previous level (threads/interrupt.c is not among the sources). -/
def intr_disable (s : intr_trace) : Bool × intr_trace :=
  (s.level, { s with level := false })

/-- Modelled from the spec: `intr_set_level (level)` (threads/interrupt.c is
not among the sources). -/
def intr_set_level (level : Bool) (s : intr_trace) : intr_trace :=
  { s with level := level }

/-- The writes of `sema_down` on a run that passes `blocks` times through the
body of its loop (queue insertion, then `thread_block ()`, which returns at the
level it was called at) before the decrement. -/
def sema_down_trace (blocks : Nat) (s : intr_trace) : intr_trace :=
  let old_level := (intr_disable s).1
  let s1 := (intr_disable s).2
  let s2 := log_writes field.sema_waiters blocks s1
  let s3 := log_write field.sema_value s2
  intr_set_level old_level s3

/-- The writes of `sema_try_down`, by its outcome. -/
def sema_try_down_trace (success : Bool) (s : intr_trace) : intr_trace :=
  let old_level := (intr_disable s).1
  let s1 := (intr_disable s).2
  let s2 := if success then log_write field.sema_value s1 else s1
  intr_set_level old_level s2

/-- The writes of `sema_up`, by whether the queue has a waiter: the re-sort and
the pop of the queue, then the increment; `thread_yield ()` returns at the
level it was called at. -/
def sema_up_trace (waiter : Bool) (s : intr_trace) : intr_trace :=
  let old_level := (intr_disable s).1
  let s1 := (intr_disable s).2
  let s2 :=
    if waiter then log_write field.sema_waiters (log_write field.sema_waiters s1) else s1
  let s3 := log_write field.sema_value s2
  intr_set_level old_level s3

/-- The writes of `next_lock_needed` on a chain of `chain` threads: the donation
flag and the priority of each. -/
def next_lock_needed_trace : Nat → intr_trace → intr_trace
  | 0, s => s
  | chain + 1, s =>
    log_write field.thread_priority
      (log_write field.thread_current_dono (next_lock_needed_trace chain s))

/-- The writes of `lock_acquire`, by the path taken: whether the lock is free,
whether the caller donates, the length of the chain walked, whether the lock's
priority is raised, and the passes through the loop of `sema_down`. -/
def lock_acquire_trace (free donate : Bool) (chain : Nat) (raise : Bool) (blocks : Nat)
    (s : intr_trace) : intr_trace :=
  let old_level := (intr_disable s).1
  let s1 := (intr_disable s).2
  let s2 := if free then log_write field.lock_priority s1 else s1
  let s3 :=
    if donate then
      let d1 := log_write field.thread_neededLock s2
      let d2 := log_write field.thread_neededLock d1
      let d3 := log_write field.lock_isntChain d2
      let d4 := next_lock_needed_trace chain d3
      if raise then log_write field.lock_priority d4 else d4
    else s2
  let s4 := sema_down_trace blocks s3
  let s5 := log_write field.lock_holder s4
  let s6 := log_write field.thread_all_locks_held s5
  let s7 := log_write field.thread_neededLock s6
  intr_set_level old_level s7

/-- The writes of `lock_try_acquire`, by its outcome. -/
def lock_try_acquire_trace (success : Bool) (s : intr_trace) : intr_trace :=
  let s1 := sema_try_down_trace success s
  if success then log_write field.lock_holder s1 else s1

/-- The writes of `lock_release`, by the path taken: whether the caller's
priority differs from its base priority, whether its list of held locks is then
empty, whether the flag of the lock is 0, and whether the lock has a waiter. -/
def lock_release_trace (donated empty flag0 waiter : Bool) (s : intr_trace) : intr_trace :=
  let s1 := log_write field.lock_holder s
  let s2 := log_write field.thread_all_locks_held s1
  let s3 :=
    if donated then
      if empty then log_write field.thread_current_dono (log_write field.thread_priority s2)
      else
        let r1 := log_write field.thread_all_locks_held s2
        if flag0 then log_write field.thread_priority r1 else r1
    else s2
  let s4 := log_write field.lock_isntChain s3
  sema_up_trace waiter s4

/-- The writes of a run of `sort_sem_priority` comparisons, `sorts` of which
re-sort the waiter lists of their two cells. -/
def sort_sem_priority_trace : Nat → intr_trace → intr_trace
  | 0, s => s
  | sorts + 1, s =>
    log_write field.sema_waiters
      (log_write field.sema_waiters (sort_sem_priority_trace sorts s))

/-- The writes of `cond_wait`, by the path taken: `sema_init` of the cell, the
ordered insertion, then `lock_release`, `sema_down` and `lock_acquire` with
their paths. -/
def cond_wait_trace (sorts : Nat) (donated empty flag0 waiter : Bool) (sleeps : Nat)
    (free donate : Bool) (chain : Nat) (raise : Bool) (blocks : Nat) (s : intr_trace) :
    intr_trace :=
  let s1 := log_write field.sema_waiters (log_write field.sema_value s)
  let s2 := log_write field.cond_waiters (sort_sem_priority_trace sorts s1)
  let s3 := lock_release_trace donated empty flag0 waiter s2
  let s4 := sema_down_trace sleeps s3
  lock_acquire_trace free donate chain raise blocks s4

/-- The writes of `cond_signal`, by whether the queue has a cell: the re-sort
and the pop of the queue, then `sema_up` on the cell. -/
def cond_signal_trace (cell : Bool) (sorts : Nat) (waiter : Bool) (s : intr_trace) :
    intr_trace :=
  if cell then
    let s1 := log_write field.cond_waiters (sort_sem_priority_trace sorts s)
    let s2 := log_write field.cond_waiters s1
    sema_up_trace waiter s2
  else s

/-- What a part of an operation adds to the followed writes, from the trace `s`
to the trace `s1`: the interrupt level is the same at both ends, and each
write added was made with interrupts disabled, or at the level of `s` to one
of the fields `F`. -/
def writes_at (F : List field) (s s1 : intr_trace) : Prop :=
  s1.level = s.level ∧
  ∃ L, s1.writes = s.writes ++ L ∧
    ∀ w ∈ L, w.2 = false ∨ (w.2 = s.level ∧ w.1 ∈ F)

/-! ## The sorted linked list (cs439/ProblemSet0/linkedlist.c) -/

namespace linkedlist

/-- The loop of `list_sort` from its test, with the cursor `curr` on a node that
has a next node: `before` holds the data of the nodes before the cursor, `curr`
and `next` the data of the cursor's node and of the next one, `rest` the data
of the nodes after them.  The fuel bounds the passes through the body of the
inner or of the outer `while`; `none` when it runs out. -/
def list_sort_loop : Nat → List Int → Int → Int → List Int → Option (List Int)
  | 0, _, _, _, _ => none
  | fuel + 1, before, curr, next, rest =>
    if curr < next then
      match rest with
      | [] => some (before ++ [curr, next])
      | next2 :: rest2 => list_sort_loop fuel (before ++ [curr]) next next2 rest2
    else
      list_sort_loop fuel before next curr rest

/-- `list_sort` on the list whose nodes hold the data `head`, first node first;
`none` when `head` is `NULL` (it is dereferenced) or the fuel runs out. -/
def list_sort (fuel : Nat) : List Int → Option (List Int)
  | [] => none
  | [d] => some [d]
  | curr :: next :: rest => list_sort_loop fuel [] curr next rest

/-- `list_add`: a new first node with the data `num`, then `list_sort`. -/
def list_add (fuel : Nat) (num : Int) (head : List Int) : Option (List Int) :=
  list_sort fuel (num :: head)

/-- The five calls of `list_add` in `main`, on the empty list. -/
def main_adds (fuel : Nat) : Option (List Int) := do
  let h1 ← list_add fuel 1 []
  let h2 ← list_add fuel 3 h1
  let h3 ← list_add fuel 4 h2
  let h4 ← list_add fuel 2 h3
  list_add fuel 5 h4

end linkedlist

/-! ## Calls and failed assertions -/

/-- How a call of an operation ends.  `halted k`: an `ASSERT` of the operation
failed, and the kernel stopped in the state `k`.  `returned r`: the operation
went on to its return, or to its suspension point, with `r`.  `lost`: the
operation passed its `ASSERT`s and the model does not follow it to an end (a
`list_remove` of an entry that is in no list, a walk or a loop longer than its
fuel). -/
inductive call_end (σ α : Type) where
  | halted (k : σ)
  | returned (r : α)
  | lost

/-- The result of a call that returned. -/
def call_end.result {σ α : Type} : call_end σ α → Option α
  | .returned r => some r
  | _ => none

/-- Past the `ASSERT`s: the call ends with the result of the operation, if it
has one. -/
def call_end.past_asserts {σ α : Type} : Option α → call_end σ α
  | some r => .returned r
  | none => .lost

/-- The call of `sema_down`.  Its `ASSERT (!intr_context ())` comes before its
first write, so a failed one stops the kernel in the state of the call. -/
def sema_down_call (intr_context : Bool) (threads : Nat → thread) (cur : Nat)
    (sema : semaphore) :
    call_end ((Nat → thread) × semaphore) ((Nat → thread) × semaphore × Bool) :=
  if intr_context then .halted (threads, sema)
  else .returned (sema_down_loop threads cur sema)

/-- The call of `lock_acquire`.  Its `ASSERT`s (not in an interrupt handler,
lock not held by the caller) are its first statements. -/
def lock_acquire_call (fuel : Nat) (intr_context : Bool) (k : kernel) (cur l : Nat) :
    call_end kernel (kernel × Bool) :=
  if intr_context || lock_held_by_current_thread k cur l then .halted k
  else call_end.past_asserts (lock_acquire fuel intr_context k cur l)

/-- The call of `lock_try_acquire`.  Its `ASSERT` (lock not held by the caller)
comes before the `sema_try_down`. -/
def lock_try_acquire_call (k : kernel) (cur l : Nat) : call_end kernel (kernel × Bool) :=
  if lock_held_by_current_thread k cur l then .halted k
  else call_end.past_asserts (lock_try_acquire k cur l)

/-- The call of `lock_release`.  Its `ASSERT` (lock held by the caller) comes
before the owner is cleared. -/
def lock_release_call (k : kernel) (cur l : Nat) : call_end kernel kernel :=
  if !lock_held_by_current_thread k cur l then .halted k
  else call_end.past_asserts (lock_release k cur l)

/-- The call of `cond_wait`, to the `sema_down` of its cell.  Its `ASSERT`s (not
in an interrupt handler, lock held by the caller) come before the `sema_init`
of the cell. -/
def cond_wait_call (intr_context : Bool) (k : kernel) (cur c l w : Nat) :
    call_end kernel kernel :=
  if intr_context || !lock_held_by_current_thread k cur l then .halted k
  else call_end.past_asserts (cond_wait_begin intr_context k cur c l w)

/-- The call of `cond_signal`.  Its `ASSERT`s (not in an interrupt handler, lock
held by the caller) come before the test of the queue. -/
def cond_signal_call (intr_context : Bool) (k : kernel) (cur c l : Nat) :
    call_end kernel kernel :=
  if intr_context || !lock_held_by_current_thread k cur l then .halted k
  else call_end.past_asserts (cond_signal intr_context k cur c l)

/-- The call of `cond_broadcast`, which has no `ASSERT` on its caller: it calls
`cond_signal` while the queue is not empty, and stops where a `cond_signal`
stops.  The fuel bounds the passes through its `while`. -/
def cond_broadcast_call : Nat → Bool → kernel → Nat → Nat → Nat → call_end kernel kernel
  | fuel, intr_context, k, cur, c, l =>
    if !(k.conds c).waiters.isEmpty then
      match fuel with
      | 0 => .lost
      | fuel1 + 1 =>
        match cond_signal_call intr_context k cur c l with
        | .halted k1 => .halted k1
        | .returned k1 => cond_broadcast_call fuel1 intr_context k1 cur c l
        | .lost => .lost
    else .returned k

/-- The lists of held locks agree with the owners: every lock is free with
count 1 or owned with count 0, a lock that is in a thread's list of held locks
is owned by that thread, and no list holds a lock twice. -/
def held_ok (k : kernel) : Prop :=
  (∀ l, lock_ok (k.locks l)) ∧
  (∀ t l, l ∈ (k.threads t).all_locks_held → (k.locks l).holder = some t) ∧
  ∀ t, ((k.threads t).all_locks_held).Nodup

/-! # Theorems -/

/-! ## The ordered queue -/

theorem list_insert_ordered_perm {α : Type} (less : α → α → Bool) (x : α) (l : List α) :
    (list_insert_ordered less x l).Perm (x :: l) := by
  induction l with
  | nil => exact List.Perm.refl _
  | cons e rest ih =>
    unfold list_insert_ordered
    split
    · exact List.Perm.refl _
    · exact (List.Perm.cons e ih).trans (List.Perm.swap x e rest)

theorem mem_list_insert_ordered {α : Type} (less : α → α → Bool) (x y : α) (l : List α) :
    y ∈ list_insert_ordered less x l ↔ y = x ∨ y ∈ l := by
  rw [(list_insert_ordered_perm less x l).mem_iff, List.mem_cons]

theorem list_sort_foldl_perm {α : Type} (less : α → α → Bool) (l : List α) :
    ∀ acc : List α,
      (l.foldl (fun acc x => list_insert_ordered less x acc) acc).Perm (l ++ acc) := by
  induction l with
  | nil => intro acc; exact List.Perm.refl _
  | cons x rest ih =>
    intro acc
    simp only [List.foldl_cons, List.cons_append]
    refine (ih _).trans ?_
    refine (List.Perm.append_left rest (list_insert_ordered_perm less x acc)).trans ?_
    exact List.perm_middle

theorem list_sort_perm {α : Type} (less : α → α → Bool) (l : List α) :
    (list_sort less l).Perm l := by
  have h := list_sort_foldl_perm less l []
  simpa [list_sort] using h

/-- Ordered insertion keeps the queue ordered by any transitive relation that
the comparator decides. -/
theorem list_insert_ordered_pairwise {α : Type} (less : α → α → Bool) (R : α → α → Prop)
    (htrans : ∀ a b c, R a b → R b c → R a c)
    (hlt : ∀ a b, less a b = true → R a b)
    (hge : ∀ a b, less a b = false → R b a)
    (x : α) (l : List α) (hl : l.Pairwise R) :
    (list_insert_ordered less x l).Pairwise R := by
  induction l with
  | nil => simp [list_insert_ordered]
  | cons e rest ih =>
    rw [List.pairwise_cons] at hl
    unfold list_insert_ordered
    by_cases hc : less x e = true
    · rw [if_pos hc]
      refine List.pairwise_cons.2 ⟨?_, List.pairwise_cons.2 hl⟩
      intro y hy
      rcases List.mem_cons.1 hy with rfl | hy
      · exact hlt _ _ hc
      · exact htrans _ _ _ (hlt _ _ hc) (hl.1 y hy)
    · rw [if_neg hc]
      refine List.pairwise_cons.2 ⟨?_, ih hl.2⟩
      intro y hy
      rcases (mem_list_insert_ordered less x y rest).1 hy with rfl | hy
      · exact hge _ _ (by simpa using hc)
      · exact hl.1 y hy

theorem list_sort_foldl_pairwise {α : Type} (less : α → α → Bool) (R : α → α → Prop)
    (htrans : ∀ a b c, R a b → R b c → R a c)
    (hlt : ∀ a b, less a b = true → R a b)
    (hge : ∀ a b, less a b = false → R b a) (l : List α) :
    ∀ acc : List α, acc.Pairwise R →
      (l.foldl (fun acc x => list_insert_ordered less x acc) acc).Pairwise R := by
  induction l with
  | nil => intro acc h; exact h
  | cons x rest ih =>
    intro acc h
    exact ih _ (list_insert_ordered_pairwise less R htrans hlt hge x acc h)

theorem list_sort_pairwise {α : Type} (less : α → α → Bool) (R : α → α → Prop)
    (htrans : ∀ a b c, R a b → R b c → R a c)
    (hlt : ∀ a b, less a b = true → R a b)
    (hge : ∀ a b, less a b = false → R b a) (l : List α) :
    (list_sort less l).Pairwise R :=
  list_sort_foldl_pairwise less R htrans hlt hge l [] List.Pairwise.nil

/-- The re-sorted thread queue is in descending order of current priority. -/
theorem list_sort_sort_priority (threads : Nat → thread) (l : List Nat) :
    (list_sort (sort_priority threads) l).Pairwise
      (fun a b => (threads b).priority ≤ (threads a).priority) := by
  apply list_sort_pairwise
  · intro a b c hab hbc; exact le_trans hbc hab
  · intro a b h
    simp only [sort_priority, decide_eq_true_eq] at h
    exact le_of_lt h
  · intro a b h
    simp only [sort_priority, decide_eq_false_iff_not, not_lt] at h
    exact h

/-! ## Semaphore: the count -/

theorem sema_up_value (threads : Nat → thread) (sema : semaphore) :
    (sema_up threads sema).2.value = (sema.value + 1) % UINT_MOD := by
  unfold sema_up
  split
  · split <;> rfl
  · rfl

theorem dec_mod_of_pos {v : Nat} (h0 : v ≠ 0) (hv : v < UINT_MOD) :
    (v + UINT_MOD - 1) % UINT_MOD + 1 = v := by
  have h1 : v + UINT_MOD - 1 = (v - 1) + UINT_MOD := by omega
  rw [h1, Nat.add_mod_right, Nat.mod_eq_of_lt (by omega)]
  omega

theorem sema_step_down_pos (s s1 : sema_sys) (e : sema_event)
    (hv : s.sema.value < UINT_MOD) (h : sema_step s e = some s1)
    (hd : s1.downs = s.downs + 1) :
    0 < s.sema.value ∧ s1.sema.value + 1 = s.sema.value := by
  cases e with
  | down t =>
    simp only [sema_step, sema_down] at h
    split at h
    · simp at h
    · simp only [Bool.false_eq_true, if_false, Option.map_some', Option.some.injEq] at h
      subst h
      unfold sema_sys_after_loop sema_down_loop at hd ⊢
      by_cases h0 : s.sema.value = 0
      · simp [h0] at hd
      · simp only [h0, if_false, if_true]
        exact ⟨Nat.pos_of_ne_zero h0, dec_mod_of_pos h0 hv⟩
  | resume t =>
    simp only [sema_step] at h
    split at h
    · simp at h
    · simp only [Option.some.injEq] at h
      subst h
      unfold sema_sys_after_loop sema_down_loop at hd ⊢
      by_cases h0 : s.sema.value = 0
      · simp [h0] at hd
      · simp only [h0, if_false, if_true]
        exact ⟨Nat.pos_of_ne_zero h0, dec_mod_of_pos h0 hv⟩
  | try_down =>
    simp only [sema_step, sema_try_down] at h
    by_cases h0 : s.sema.value = 0
    · simp [h0] at h
      subst h
      simp at hd
    · have hp : s.sema.value > 0 := Nat.pos_of_ne_zero h0
      simp only [hp, if_true, Option.some.injEq] at h
      subst h
      exact ⟨hp, dec_mod_of_pos h0 hv⟩
  | up =>
    simp only [sema_step, Option.some.injEq] at h
    subst h
    simp at hd

theorem sema_step_inv (init : Nat) (s s1 : sema_sys) (e : sema_event)
    (hi : sema_inv init s) (h : sema_step s e = some s1) : sema_inv init s1 := by
  obtain ⟨hv, hb⟩ := hi
  have hM : 0 < UINT_MOD := by unfold UINT_MOD; norm_num
  cases e with
  | down t =>
    simp only [sema_step, sema_down] at h
    split at h
    · simp at h
    · simp only [Bool.false_eq_true, if_false, Option.map_some', Option.some.injEq] at h
      subst h
      unfold sema_sys_after_loop sema_down_loop sema_inv
      by_cases h0 : s.sema.value = 0
      · simp only [h0, if_true, Bool.false_eq_true, if_false]
        omega
      · simp only [h0, if_false, if_true]
        have := dec_mod_of_pos h0 hv
        omega
  | resume t =>
    simp only [sema_step] at h
    split at h
    · simp at h
    · simp only [Option.some.injEq] at h
      subst h
      unfold sema_sys_after_loop sema_down_loop sema_inv
      by_cases h0 : s.sema.value = 0
      · simp only [h0, if_true, Bool.false_eq_true, if_false]
        omega
      · simp only [h0, if_false, if_true]
        have := dec_mod_of_pos h0 hv
        omega
  | try_down =>
    simp only [sema_step, sema_try_down] at h
    by_cases h0 : s.sema.value = 0
    · simp [h0] at h
      subst h
      exact ⟨hv, hb⟩
    · have hp : s.sema.value > 0 := Nat.pos_of_ne_zero h0
      simp only [hp, if_true, Option.some.injEq] at h
      subst h
      have := dec_mod_of_pos h0 hv
      unfold sema_inv
      simp only
      omega
  | up =>
    simp only [sema_step, Option.some.injEq] at h
    subst h
    unfold sema_inv
    simp only [sema_up_value]
    have h1 : (s.sema.value + 1) % UINT_MOD ≤ s.sema.value + 1 := Nat.mod_le _ _
    have h2 : (s.sema.value + 1) % UINT_MOD < UINT_MOD := Nat.mod_lt _ hM
    omega

theorem sema_run_inv (init : Nat) (evs : List sema_event) :
    ∀ s s1 : sema_sys, sema_inv init s → sema_run s evs = some s1 → sema_inv init s1 := by
  induction evs with
  | nil =>
    intro s s1 hi h
    simp only [sema_run, Option.some.injEq] at h
    subst h
    exact hi
  | cons e es ih =>
    intro s s1 hi h
    simp only [sema_run] at h
    cases hstep : sema_step s e with
    | none => simp [hstep] at h
    | some s2 =>
      simp only [hstep, Option.some_bind] at h
      exact ih s2 s1 (sema_step_inv init s s2 e hi hstep) h

/-- C1: for every initial value and every sequence of `sema_down`,
`sema_try_down` and `sema_up` calls (and resumptions) on one semaphore, the
count stays an unsigned value at most the initial value plus the ups minus the
completed downs, and a down that completes has seen a positive count, which it
lowers by exactly one without wrapping below zero.  In the scenario
(initial value 1; A downs; B downs; A ups; B resumes) the counts are 0, 0, 1, 0,
B is queued and blocked after its call and awake after the up. -/
theorem sema_count_bounds :
    (∀ (threads : Nat → thread) (init : Nat) (evs : List sema_event) (s : sema_sys),
      init < UINT_MOD → sema_run (sema_sys_init threads init) evs = some s →
        s.sema.value < UINT_MOD ∧ s.sema.value + s.downs ≤ init + s.ups ∧
        ∀ (e : sema_event) (s1 : sema_sys), sema_step s e = some s1 →
          s1.downs = s.downs + 1 → 0 < s.sema.value ∧ s1.sema.value + 1 = s.sema.value) ∧
    (sema_run (sema_sys_init (fun _ => mk_thread 31) 1) [.down 0]).map
        (fun s => (s.sema.value, s.sema.waiters, (s.threads 1).blocked, s.ups, s.downs))
      = some (0, [], false, 0, 1) ∧
    (sema_run (sema_sys_init (fun _ => mk_thread 31) 1) [.down 0, .down 1]).map
        (fun s => (s.sema.value, s.sema.waiters, (s.threads 1).blocked, s.ups, s.downs))
      = some (0, [1], true, 0, 1) ∧
    (sema_run (sema_sys_init (fun _ => mk_thread 31) 1) [.down 0, .down 1, .up]).map
        (fun s => (s.sema.value, s.sema.waiters, (s.threads 1).blocked, s.ups, s.downs))
      = some (1, [], false, 1, 1) ∧
    (sema_run (sema_sys_init (fun _ => mk_thread 31) 1) [.down 0, .down 1, .up, .resume 1]).map
        (fun s => (s.sema.value, s.sema.waiters, (s.threads 1).blocked, s.ups, s.downs))
      = some (0, [], false, 1, 2) := by
  refine ⟨?_, by decide, by decide, by decide, by decide⟩
  intro threads init evs s hinit hrun
  have hi : sema_inv init s :=
    sema_run_inv init evs (sema_sys_init threads init) s
      ⟨hinit, by simp [sema_sys_init, sema_init]⟩ hrun
  exact ⟨hi.1, hi.2, fun e s1 h hd => sema_step_down_pos s s1 e hi.1 h hd⟩

/-- Witness of C1: three downs, an up and a try-down on a semaphore of initial value 2. -/
theorem sema_count_bounds_witness :
    (2 : Nat) < UINT_MOD ∧
    sema_run (sema_sys_init (fun _ => mk_thread 31) 2) [.down 0, .down 1, .up, .try_down, .up]
      = some { threads := fun _ => mk_thread 31, sema := { value := 1, waiters := [] },
               in_down := [], ups := 2, downs := 3 } ∧
    (1 : Nat) + 3 ≤ 2 + 2 :=
  ⟨by decide, rfl,
   (sema_count_bounds.1 (fun _ => mk_thread 31) 2
      [.down 0, .down 1, .up, .try_down, .up]
      { threads := fun _ => mk_thread 31, sema := { value := 1, waiters := [] },
        in_down := [], ups := 2, downs := 3 }
      (by decide) rfl).2.1⟩

/-! ## Semaphore: the wake -/

/-- C2: on a semaphore with a non-empty waiter queue `sema_up` unblocks exactly
one thread (the thread table changes at that thread only, which becomes
runnable); the thread is a waiter whose current priority is maximal among the
waiters; it leaves the queue and the other waiters stay queued. -/
theorem sema_up_wakes_highest (threads : Nat → thread) (sema : semaphore)
    (h : sema.waiters ≠ []) :
    ∃ t, t ∈ sema.waiters ∧
      (∀ u ∈ sema.waiters, (threads u).priority ≤ (threads t).priority) ∧
      (sema_up threads sema).1 = Function.update threads t { threads t with blocked := false } ∧
      ((sema_up threads sema).2.waiters).Perm (sema.waiters.erase t) ∧
      (sema_up threads sema).2.waiters.length + 1 = sema.waiters.length := by
  have hperm := list_sort_perm (sort_priority threads) sema.waiters
  have hsorted := list_sort_sort_priority threads sema.waiters
  have hne : (!sema.waiters.isEmpty) = true := by
    cases hw : sema.waiters with
    | nil => exact absurd hw h
    | cons a l => rfl
  unfold sema_up
  rw [if_pos hne]
  cases hs : list_sort (sort_priority threads) sema.waiters with
  | nil =>
    rw [hs] at hperm
    exact absurd (List.Perm.eq_nil hperm.symm) h
  | cons t rest =>
    rw [hs] at hperm hsorted
    have ht : t ∈ sema.waiters := hperm.subset (List.mem_cons_self t rest)
    refine ⟨t, ht, ?_, rfl, ?_, ?_⟩
    · intro u hu
      rcases List.mem_cons.1 (hperm.symm.subset hu) with rfl | hu
      · exact le_refl _
      · exact (List.pairwise_cons.1 hsorted).1 u hu
    · have h1 := hperm.erase t
      simpa using h1
    · have h1 := hperm.length_eq
      simpa using h1

/-- Witness of C2: of the waiters 1, 2, 3 with priorities 10, 40, 20 the second
is woken. -/
theorem sema_up_wakes_highest_witness :
    ∃ t, t ∈ [1, 2, 3] ∧
      (∀ u ∈ [1, 2, 3],
        ((fun i => mk_thread (if i = 2 then 40 else if i = 3 then 20 else 10)) u).priority
          ≤ ((fun i => mk_thread (if i = 2 then 40 else if i = 3 then 20 else 10)) t).priority) ∧
      (sema_up (fun i => mk_thread (if i = 2 then 40 else if i = 3 then 20 else 10))
          { value := 0, waiters := [1, 2, 3] }).1
        = Function.update (fun i => mk_thread (if i = 2 then 40 else if i = 3 then 20 else 10)) t
            { (fun i => mk_thread (if i = 2 then 40 else if i = 3 then 20 else 10)) t with
              blocked := false } ∧
      ((sema_up (fun i => mk_thread (if i = 2 then 40 else if i = 3 then 20 else 10))
          { value := 0, waiters := [1, 2, 3] }).2.waiters).Perm ([1, 2, 3].erase t) ∧
      (sema_up (fun i => mk_thread (if i = 2 then 40 else if i = 3 then 20 else 10))
          { value := 0, waiters := [1, 2, 3] }).2.waiters.length + 1 = [1, 2, 3].length :=
  sema_up_wakes_highest (fun i => mk_thread (if i = 2 then 40 else if i = 3 then 20 else 10))
    { value := 0, waiters := [1, 2, 3] } (by decide)

/-! ## Lock: one owner -/

@[simp] theorem set_lock_locks (k : kernel) (l : Nat) (v : lock) :
    (set_lock k l v).locks = Function.update k.locks l v := rfl

@[simp] theorem set_lock_threads (k : kernel) (l : Nat) (v : lock) :
    (set_lock k l v).threads = k.threads := rfl

@[simp] theorem set_lock_cells (k : kernel) (l : Nat) (v : lock) :
    (set_lock k l v).cells = k.cells := rfl

@[simp] theorem set_lock_conds (k : kernel) (l : Nat) (v : lock) :
    (set_lock k l v).conds = k.conds := rfl

@[simp] theorem set_thread_threads (k : kernel) (t : Nat) (v : thread) :
    (set_thread k t v).threads = Function.update k.threads t v := rfl

@[simp] theorem set_thread_locks (k : kernel) (t : Nat) (v : thread) :
    (set_thread k t v).locks = k.locks := rfl

@[simp] theorem set_thread_cells (k : kernel) (t : Nat) (v : thread) :
    (set_thread k t v).cells = k.cells := rfl

@[simp] theorem set_thread_conds (k : kernel) (t : Nat) (v : thread) :
    (set_thread k t v).conds = k.conds := rfl

/-- The donation step on a free lock: the lock takes the caller's priority. -/
theorem lock_acquire_donate_free (fuel : Nat) (k : kernel) (cur l : Nat)
    (hfree : (k.locks l).holder = none) :
    lock_acquire_donate fuel false k cur l
      = some (set_lock k l { k.locks l with priority := (k.threads cur).priority }) := by
  simp [lock_acquire_donate, lock_held_by_current_thread, hfree]

/-- The donation step on a lock whose owner's priority is not lower than the
caller's: nothing is written. -/
theorem lock_acquire_donate_none (fuel : Nat) (k : kernel) (cur l o : Nat)
    (hown : (k.locks l).holder = some o) (hne : o ≠ cur)
    (hp : ¬ (k.threads o).priority < (k.threads cur).priority) :
    lock_acquire_donate fuel false k cur l = some k := by
  simp [lock_acquire_donate, lock_held_by_current_thread, hown, hne, hp]

/-- The donation step on a lock whose owner has a lower priority than the
caller. -/
theorem lock_acquire_donate_some (fuel : Nat) (k : kernel) (cur l o : Nat)
    (hown : (k.locks l).holder = some o) (hne : o ≠ cur)
    (hp : (k.threads o).priority < (k.threads cur).priority) :
    lock_acquire_donate fuel false k cur l
      = (next_lock_needed fuel
          (Function.update k.threads cur
            { k.threads cur with neededLock := { k.locks l with is_not_null := 1 } })
          cur { k.locks l with isntChain := 0 }).map (donated k cur l) := by
  simp only [lock_acquire_donate, lock_held_by_current_thread, hown, hne, hp,
    Option.some.injEq, decide_False, Bool.or_self, Bool.false_eq_true, if_false,
    Option.isNone_some, set_thread_locks, set_thread_threads, set_lock_locks, set_lock_threads,
    Function.update_same, Function.update_idem, if_true]
  generalize next_lock_needed fuel _ cur _ = r
  cases r with
  | none => rfl
  | some ts =>
    simp only [Option.map_some', donated, set_lock, Function.update_same, Function.update_idem,
      hown]
    split <;> rfl

/-- The three ways the donation step of `lock_acquire` returns. -/
theorem lock_acquire_donate_cases (fuel : Nat) (k k1 : kernel) (cur l : Nat)
    (h : lock_acquire_donate fuel false k cur l = some k1) :
    ((k.locks l).holder = none ∧
        k1 = set_lock k l { k.locks l with priority := (k.threads cur).priority }) ∨
    (∃ o, (k.locks l).holder = some o ∧ o ≠ cur ∧
        ¬ (k.threads o).priority < (k.threads cur).priority ∧ k1 = k) ∨
    (∃ o threads5, (k.locks l).holder = some o ∧ o ≠ cur ∧
        (k.threads o).priority < (k.threads cur).priority ∧
        next_lock_needed fuel
          (Function.update k.threads cur
            { k.threads cur with neededLock := { k.locks l with is_not_null := 1 } })
          cur { k.locks l with isntChain := 0 } = some threads5 ∧
        k1 = donated k cur l threads5) := by
  cases hown : (k.locks l).holder with
  | none =>
    rw [lock_acquire_donate_free fuel k cur l hown] at h
    exact Or.inl ⟨rfl, (Option.some.inj h).symm⟩
  | some o =>
    by_cases hne : o = cur
    · subst hne
      simp [lock_acquire_donate, lock_held_by_current_thread, hown] at h
    · by_cases hp : (k.threads o).priority < (k.threads cur).priority
      · rw [lock_acquire_donate_some fuel k cur l o hown hne hp] at h
        cases hw : next_lock_needed fuel
          (Function.update k.threads cur
            { k.threads cur with neededLock := { k.locks l with is_not_null := 1 } })
          cur { k.locks l with isntChain := 0 } with
        | none => simp [hw] at h
        | some threads5 =>
          rw [hw] at h
          exact Or.inr (Or.inr ⟨o, threads5, rfl, hne, hp, rfl, (Option.some.inj h).symm⟩)
      · rw [lock_acquire_donate_none fuel k cur l o hown hne hp] at h
        exact Or.inr (Or.inl ⟨o, rfl, hne, hp, (Option.some.inj h).symm⟩)

/-- The donation step writes neither the owner nor the semaphore of any lock. -/
theorem lock_acquire_donate_owner (fuel : Nat) (k k1 : kernel) (cur l : Nat)
    (h : lock_acquire_donate fuel false k cur l = some k1) (l1 : Nat) :
    (k1.locks l1).holder = (k.locks l1).holder ∧
      (k1.locks l1).semaphore = (k.locks l1).semaphore := by
  rcases lock_acquire_donate_cases fuel k k1 cur l h with
    ⟨_, rfl⟩ | ⟨o, _, _, _, rfl⟩ | ⟨o, threads5, _, _, _, _, rfl⟩
  · by_cases hl : l1 = l
    · subst hl; simp
    · simp [Function.update_noteq hl]
  · exact ⟨rfl, rfl⟩
  · unfold donated
    by_cases hl : l1 = l
    · subst hl; split <;> simp
    · split <;> simp [Function.update_noteq hl]

theorem lock_acquire_down_ok (k : kernel) (cur l : Nat)
    (hok : ∀ l1, lock_ok (k.locks l1)) (l1 : Nat) :
    lock_ok ((lock_acquire_down k cur l).1.locks l1) := by
  have hl := hok l
  unfold lock_acquire_down sema_down_loop lock_acquire_finish
  by_cases hv : (k.locks l).semaphore.value = 0
  · simp only [hv, if_true, Bool.false_eq_true, if_false, set_lock_locks]
    by_cases h1 : l1 = l
    · subst h1
      simp only [Function.update_same]
      rcases hl with ⟨_, h2⟩ | ⟨h2, _⟩
      · omega
      · exact Or.inr ⟨h2, rfl⟩
    · rw [Function.update_noteq h1]; exact hok l1
  · simp only [hv, if_false, if_true, set_lock_locks, set_thread_locks, Function.update_idem]
    by_cases h1 : l1 = l
    · subst h1
      simp only [Function.update_same]
      rcases hl with ⟨_, h2⟩ | ⟨_, h2⟩
      · refine Or.inr ⟨by simp, ?_⟩
        simp only [h2]
        decide
      · exact absurd h2 hv
    · rw [Function.update_noteq h1]; exact hok l1

theorem lock_try_acquire_ok (k : kernel) (cur l : Nat) (r : kernel × Bool)
    (h : lock_try_acquire k cur l = some r)
    (hok : ∀ l1, lock_ok (k.locks l1)) (l1 : Nat) :
    lock_ok (r.1.locks l1) := by
  have hl := hok l
  unfold lock_try_acquire sema_try_down at h
  split at h
  · simp at h
  · by_cases hv : (k.locks l).semaphore.value > 0
    · simp only [hv, if_true, Option.some.injEq] at h
      subst h
      simp only [set_lock_locks, Function.update_idem]
      by_cases h1 : l1 = l
      · subst h1
        simp only [Function.update_same]
        rcases hl with ⟨_, h2⟩ | ⟨_, h2⟩
        · refine Or.inr ⟨by simp, ?_⟩
          simp only [h2]
          decide
        · omega
      · rw [Function.update_noteq h1]; exact hok l1
    · simp only [hv, if_false, Bool.false_eq_true, Option.some.injEq] at h
      subst h
      simp only [set_lock_locks]
      by_cases h1 : l1 = l
      · subst h1
        simp only [Function.update_same]
        exact hl
      · rw [Function.update_noteq h1]; exact hok l1

theorem lock_release_priority_locks (k : kernel) (cur l : Nat) :
    (lock_release_priority k cur l).locks = k.locks := by
  unfold lock_release_priority
  split
  · split
    · rfl
    · simp only [set_thread_locks]
      split
      · split <;> rfl
      · rfl
  · rfl

/-- `lock_release` returns only to the owner of a lock that is in its list of
held locks. -/
theorem lock_release_some_mem (k k1 : kernel) (cur l : Nat)
    (h : lock_release k cur l = some k1) :
    (k.locks l).holder = some cur ∧ l ∈ (k.threads cur).all_locks_held := by
  unfold lock_release at h
  split at h
  · simp at h
  · rename_i hheld
    simp only [lock_held_by_current_thread, Bool.not_eq_true', decide_eq_false_iff_not,
      not_not] at hheld
    refine ⟨hheld, ?_⟩
    by_contra hmem
    simp [list_remove, set_lock_threads, hmem] at h

/-- `lock_release` by the owner of a lock that is in its list of held locks, in
full. -/
theorem lock_release_eq (k : kernel) (cur l : Nat) (hheld : (k.locks l).holder = some cur)
    (hmem : l ∈ (k.threads cur).all_locks_held) :
    lock_release k cur l = some
      (let k1 := set_lock k l { k.locks l with holder := none }
       let k2 := set_thread k1 cur
         { k1.threads cur with all_locks_held := (k1.threads cur).all_locks_held.erase l }
       let k3 := lock_release_priority k2 cur l
       let k4 := set_lock k3 l { k3.locks l with isntChain := 1 }
       let r := sema_up k4.threads (k4.locks l).semaphore
       set_lock { k4 with threads := r.1 } l { k4.locks l with semaphore := r.2 }) := by
  unfold lock_release
  simp only [lock_held_by_current_thread, hheld, decide_True, Bool.not_true,
    Bool.false_eq_true, if_false, list_remove, set_lock_threads, hmem, if_true]

/-- The owner of a lock that is not in its list of held locks does not get
past the `list_remove` of `lock_release`. -/
theorem lock_release_not_mem (k : kernel) (cur l : Nat)
    (hmem : l ∉ (k.threads cur).all_locks_held) : lock_release k cur l = none := by
  cases h : lock_release k cur l with
  | none => rfl
  | some k1 => exact absurd (lock_release_some_mem k k1 cur l h).2 hmem

/-- The locks after `lock_release`: only the released lock is written; it has
no owner, its flag is reset, and its semaphore went through `sema_up`. -/
theorem lock_release_locks (k k1 : kernel) (cur l : Nat) (h : lock_release k cur l = some k1) :
    (k.locks l).holder = some cur ∧
    (∀ l1, l1 ≠ l → k1.locks l1 = k.locks l1) ∧
    (k1.locks l).holder = none ∧ (k1.locks l).isntChain = 1 ∧
    (k1.locks l).priority = (k.locks l).priority ∧
    (k1.locks l).semaphore.value = ((k.locks l).semaphore.value + 1) % UINT_MOD := by
  obtain ⟨hheld, hmem⟩ := lock_release_some_mem k k1 cur l h
  rw [lock_release_eq k cur l hheld hmem] at h
  simp only [Option.some.injEq] at h
  subst h
  simp only [set_lock_locks, lock_release_priority_locks, set_thread_locks,
    Function.update_same, sema_up_value]
  refine ⟨hheld, ?_, trivial, trivial, trivial, trivial⟩
  intro l1 h1
  simp [Function.update_noteq h1]

theorem lock_release_ok (k k1 : kernel) (cur l : Nat) (h : lock_release k cur l = some k1)
    (hok : ∀ l1, lock_ok (k.locks l1)) (l1 : Nat) :
    lock_ok (k1.locks l1) := by
  obtain ⟨hheld, hother, hh, _, _, hv⟩ := lock_release_locks k k1 cur l h
  by_cases h1 : l1 = l
  · subst h1
    rcases hok l1 with ⟨h2, _⟩ | ⟨_, h2⟩
    · rw [hheld] at h2; exact absurd h2 (by simp)
    · refine Or.inl ⟨hh, ?_⟩
      rw [hv, h2]
      decide
  · rw [hother l1 h1]; exact hok l1

theorem donated_threads (k : kernel) (cur l : Nat) (threads5 : Nat → thread) :
    (donated k cur l threads5).threads = threads5 := by
  unfold donated; split <;> rfl

/-- The wake of `sema_up` writes nothing of a thread but its scheduling
state. -/
theorem sema_up_thread (threads : Nat → thread) (sema : semaphore) (t : Nat) :
    ∃ b, (sema_up threads sema).1 t = { threads t with blocked := b } := by
  unfold sema_up
  split
  · split
    · rename_i w rest _
      by_cases ht : t = w
      · subst ht
        exact ⟨false, by simp [thread_unblock]⟩
      · exact ⟨(threads t).blocked, by simp [thread_unblock, Function.update_noteq ht]⟩
    · exact ⟨(threads t).blocked, rfl⟩
  · exact ⟨(threads t).blocked, rfl⟩

/-- The caller's record after `lock_release`, up to its scheduling state: the
lock has left the list of held locks and the priority has been restored by
`lock_release_priority`. -/
theorem lock_release_thread (k k1 : kernel) (cur l : Nat) (h : lock_release k cur l = some k1) :
    ∃ b, k1.threads cur =
      { (lock_release_priority
          (set_thread (set_lock k l { k.locks l with holder := none }) cur
            { k.threads cur with all_locks_held := (k.threads cur).all_locks_held.erase l })
          cur l).threads cur with blocked := b } := by
  obtain ⟨hheld, hmem⟩ := lock_release_some_mem k k1 cur l h
  rw [lock_release_eq k cur l hheld hmem] at h
  simp only [Option.some.injEq] at h
  subst h
  simp only [set_lock_threads]
  exact sema_up_thread _ _ cur

/-- The caller's priority fields after `lock_release_priority`, by the cases
of the code. -/
theorem lock_release_priority_thread (k : kernel) (cur l : Nat) :
    ((lock_release_priority k cur l).threads cur).orig_priority
        = (k.threads cur).orig_priority ∧
    ((k.threads cur).all_locks_held = [] →
      ((lock_release_priority k cur l).threads cur).priority = (k.threads cur).orig_priority ∧
      ((lock_release_priority k cur l).threads cur).all_locks_held = [] ∧
      ((k.threads cur).orig_priority ≠ (k.threads cur).priority →
        ((lock_release_priority k cur l).threads cur).current_dono = 0)) ∧
    ((k.threads cur).all_locks_held ≠ [] →
      ((k.threads cur).orig_priority ≠ (k.threads cur).priority → (k.locks l).isntChain = 0 →
        ∃ m rest, list_sort (sort_lock_priority k.locks) (k.threads cur).all_locks_held
            = m :: rest ∧
          ((lock_release_priority k cur l).threads cur).priority = (k.locks m).priority) ∧
      (¬ ((k.threads cur).orig_priority ≠ (k.threads cur).priority ∧
            (k.locks l).isntChain = 0) →
        ((lock_release_priority k cur l).threads cur).priority = (k.threads cur).priority)) := by
  unfold lock_release_priority
  by_cases hd : (k.threads cur).orig_priority = (k.threads cur).priority
  · simp only [hd, ne_eq, not_true_eq_false, if_false]
    refine ⟨trivial, fun he => ⟨trivial, he, fun hf => hf.elim⟩, fun _ => ⟨?_, fun _ => trivial⟩⟩
    intro hf
    exact hf.elim
  · cases hl : (k.threads cur).all_locks_held with
    | nil => simp [hd, hl]
    | cons m rest =>
      simp only [ne_eq, hd, not_false_eq_true, if_true, List.isEmpty_cons, Bool.false_eq_true,
        if_false, set_thread_locks, set_thread_threads, Function.update_same, true_and,
        reduceCtorEq, false_implies, true_implies]
      by_cases hc : (k.locks l).isntChain = 0
      · simp only [hc, if_true, not_true_eq_false, false_implies, and_true, true_implies]
        cases hs : list_sort (sort_lock_priority k.locks) (m :: rest) with
        | nil =>
          have hp := list_sort_perm (sort_lock_priority k.locks) (m :: rest)
          rw [hs] at hp
          exact absurd (List.Perm.eq_nil hp.symm) (by simp)
        | cons a b => simp
      · simp [hc]

/-- The re-sorted list of held locks is in descending order of lock
priority. -/
theorem list_sort_sort_lock_priority (locks : Nat → lock) (held : List Nat) :
    (list_sort (sort_lock_priority locks) held).Pairwise
      (fun a b => (locks b).priority ≤ (locks a).priority) := by
  apply list_sort_pairwise
  · intro a b c hab hbc; exact le_trans hbc hab
  · intro a b h
    simp only [sort_lock_priority, decide_eq_true_eq] at h
    exact le_of_lt h
  · intro a b h
    simp only [sort_lock_priority, decide_eq_false_iff_not, not_lt] at h
    exact h

/-- The front of the re-sorted list of held locks is a held lock of the highest
priority. -/
theorem list_sort_sort_lock_priority_head (locks : Nat → lock) (held : List Nat) (m : Nat)
    (rest : List Nat) (h : list_sort (sort_lock_priority locks) held = m :: rest) :
    m ∈ held ∧ ∀ m1 ∈ held, (locks m1).priority ≤ (locks m).priority := by
  have hperm := list_sort_perm (sort_lock_priority locks) held
  have hsorted := list_sort_sort_lock_priority locks held
  rw [h] at hperm hsorted
  refine ⟨hperm.subset (List.mem_cons_self m rest), ?_⟩
  intro m1 hm1
  rcases List.mem_cons.1 (hperm.symm.subset hm1) with rfl | hm1
  · exact le_refl _
  · exact (List.pairwise_cons.1 hsorted).1 m1 hm1

theorem sort_lock_priority_congr (locks locks1 : Nat → lock)
    (h : ∀ m, (locks1 m).priority = (locks m).priority) :
    sort_lock_priority locks1 = sort_lock_priority locks := by
  funext a b
  simp only [sort_lock_priority, h]

/-- C5, amended: what `lock_release` leaves of the caller's priority, for the
owner of a lock that is in its list of held locks (where `lock_acquire` files
a lock; `lock_try_acquire` files nothing, so a lock taken with it does not
count below).  The release returns.  The base priority is not written.  If the
caller's list of held locks is empty after the release, its priority is its
base priority and, when the priority differed from the base, its donation flag
is cleared.  If the list still has locks, the priority becomes the priority of
a highest-priority lock of the list when it differed from the base and the
released lock had received a donation (`isntChain` is 0), and is unchanged
otherwise. -/
theorem lock_release_restores (k : kernel) (cur l : Nat)
    (hheld : (k.locks l).holder = some cur) (hmem : l ∈ (k.threads cur).all_locks_held) :
    ∃ k1, lock_release k cur l = some k1 ∧
    (k1.threads cur).orig_priority = (k.threads cur).orig_priority ∧
    ((k.threads cur).all_locks_held.erase l = [] →
      (k1.threads cur).priority = (k.threads cur).orig_priority ∧
      (k1.threads cur).all_locks_held = [] ∧
      ((k.threads cur).orig_priority ≠ (k.threads cur).priority →
        (k1.threads cur).current_dono = 0)) ∧
    ((k.threads cur).all_locks_held.erase l ≠ [] →
      ((k.threads cur).orig_priority ≠ (k.threads cur).priority → (k.locks l).isntChain = 0 →
        ∃ m ∈ (k.threads cur).all_locks_held.erase l,
          (k1.threads cur).priority = (k.locks m).priority ∧
          ∀ m1 ∈ (k.threads cur).all_locks_held.erase l,
            (k.locks m1).priority ≤ (k.locks m).priority) ∧
      (¬ ((k.threads cur).orig_priority ≠ (k.threads cur).priority ∧
            (k.locks l).isntChain = 0) →
        (k1.threads cur).priority = (k.threads cur).priority)) := by
  obtain ⟨k1, h⟩ : ∃ k1, lock_release k cur l = some k1 :=
    ⟨_, lock_release_eq k cur l hheld hmem⟩
  refine ⟨k1, h, ?_⟩
  obtain ⟨b, hb⟩ := lock_release_thread k k1 cur l h
  have hlocks : ∀ m, ((Function.update k.locks l { k.locks l with holder := none }) m).priority
      = (k.locks m).priority := by
    intro m
    by_cases hm : m = l
    · subst hm; simp
    · simp [Function.update_noteq hm]
  obtain ⟨h1, h2, h3⟩ := lock_release_priority_thread
    (set_thread (set_lock k l { k.locks l with holder := none }) cur
      { k.threads cur with all_locks_held := (k.threads cur).all_locks_held.erase l }) cur l
  simp only [set_thread_threads, set_thread_locks, set_lock_locks, set_lock_threads,
    Function.update_same, sort_lock_priority_congr _ _ hlocks] at h1 h2 h3
  rw [hb]
  refine ⟨h1, h2, ?_⟩
  intro hne
  obtain ⟨h4, h5⟩ := h3 hne
  refine ⟨?_, h5⟩
  intro hd hc
  obtain ⟨m, rest, hs, hp⟩ := h4 hd hc
  obtain ⟨hm, hmax⟩ := list_sort_sort_lock_priority_head _ _ m rest hs
  refine ⟨m, hm, ?_, hmax⟩
  rw [← hlocks m]
  exact hp

/-- Witness of C5: L (base priority 1, raised to 5 by M) releases its only
lock, taken with `lock_acquire`.  And the same when L has first taken lock 1
with `lock_try_acquire`: L still owns lock 1, which is not in its list, and its
priority is its base priority. -/
theorem lock_release_restores_witness :
    (lock_run 4 (lock_sys_init (mk_kernel lmh_priority 31) 31)
        [.acquire 1 0, .acquire_down 1, .acquire 2 0, .acquire_down 2]
      = some (lmh_after [.acquire 1 0, .acquire_down 1, .acquire 2 0, .acquire_down 2]) ∧
    ((lmh_after [.acquire 1 0, .acquire_down 1, .acquire 2 0, .acquire_down 2]).k.threads
      1).priority = 5 ∧
    ∃ k1, lock_release
        (lmh_after [.acquire 1 0, .acquire_down 1, .acquire 2 0, .acquire_down 2]).k 1 0
        = some k1 ∧
      (k1.threads 1).priority = 1 ∧ (k1.threads 1).current_dono = 0) ∧
    (lock_run 4 (lock_sys_init (mk_kernel lmh_priority 31) 31)
        [.try_acquire 1 1, .acquire 1 0, .acquire_down 1, .acquire 2 0, .acquire_down 2]
      = some (lmh_after [.try_acquire 1 1, .acquire 1 0, .acquire_down 1, .acquire 2 0,
          .acquire_down 2]) ∧
    ((lmh_after [.try_acquire 1 1, .acquire 1 0, .acquire_down 1, .acquire 2 0,
          .acquire_down 2]).k.locks 1).holder = some 1 ∧
    ((lmh_after [.try_acquire 1 1, .acquire 1 0, .acquire_down 1, .acquire 2 0,
          .acquire_down 2]).k.threads 1).all_locks_held = [0] ∧
    ∃ k1, lock_release
        (lmh_after [.try_acquire 1 1, .acquire 1 0, .acquire_down 1, .acquire 2 0,
          .acquire_down 2]).k 1 0 = some k1 ∧
      (k1.threads 1).priority = 1 ∧ (k1.threads 1).all_locks_held = []) :=
  ⟨⟨rfl, by decide,
    match lock_release_restores
      (lmh_after [.acquire 1 0, .acquire_down 1, .acquire 2 0, .acquire_down 2]).k 1 0
      (by decide) (by decide) with
    | ⟨k1, h, _, h2, _⟩ => ⟨k1, h, (h2 (by decide)).1, (h2 (by decide)).2.2 (by decide)⟩⟩,
   ⟨rfl, by decide, by decide,
    match lock_release_restores
      (lmh_after [.try_acquire 1 1, .acquire 1 0, .acquire_down 1, .acquire 2 0,
        .acquire_down 2]).k 1 0 (by decide) (by decide) with
    | ⟨k1, h, _, h2, _⟩ => ⟨k1, h, (h2 (by decide)).1, (h2 (by decide)).2.1⟩⟩⟩

/-- C5 as stated fails: L (base priority 1) holds lock 0, M (priority 5) blocks
on it and donates, L then acquires the free lock 1, which records priority 5,
and releases lock 0.  After the release no thread waits on the lock L still
holds, yet L keeps priority 5. -/
theorem lock_release_restores_counterexample :
    lock_run 4 (lock_sys_init (mk_kernel lmh_priority 31) 31)
        [.acquire 1 0, .acquire_down 1, .acquire 2 0, .acquire_down 2,
          .acquire 1 1, .acquire_down 1]
      = some (lmh_after [.acquire 1 0, .acquire_down 1, .acquire 2 0, .acquire_down 2,
          .acquire 1 1, .acquire_down 1]) ∧
    lock_release (lmh_after [.acquire 1 0, .acquire_down 1, .acquire 2 0, .acquire_down 2,
          .acquire 1 1, .acquire_down 1]).k 1 0
      = some (lmh_after [.acquire 1 0, .acquire_down 1, .acquire 2 0, .acquire_down 2,
          .acquire 1 1, .acquire_down 1, .release 1 0]).k ∧
    ((lmh_after [.acquire 1 0, .acquire_down 1, .acquire 2 0, .acquire_down 2,
          .acquire 1 1, .acquire_down 1, .release 1 0]).k.threads 1).all_locks_held = [1] ∧
    (∀ m ∈ ((lmh_after [.acquire 1 0, .acquire_down 1, .acquire 2 0, .acquire_down 2,
          .acquire 1 1, .acquire_down 1, .release 1 0]).k.threads 1).all_locks_held,
      ((lmh_after [.acquire 1 0, .acquire_down 1, .acquire 2 0, .acquire_down 2,
          .acquire 1 1, .acquire_down 1, .release 1 0]).k.locks m).semaphore.waiters = []) ∧
    ((lmh_after [.acquire 1 0, .acquire_down 1, .acquire 2 0, .acquire_down 2,
          .acquire 1 1, .acquire_down 1, .release 1 0]).k.threads 1).orig_priority = 1 ∧
    ((lmh_after [.acquire 1 0, .acquire_down 1, .acquire 2 0, .acquire_down 2,
          .acquire 1 1, .acquire_down 1, .release 1 0]).k.threads 1).priority = 5 :=
  ⟨rfl, rfl, by decide, by decide, by decide, by decide⟩

/-! ## Lock: the uncontended acquire -/

/-- `lock_acquire` on a free lock with count 1, in full: the lock table and the
thread table on return. -/
theorem lock_acquire_free_eq (fuel : Nat) (k : kernel) (cur l : Nat)
    (hfree : (k.locks l).holder = none) (hv : (k.locks l).semaphore.value = 1) :
    lock_acquire fuel false k cur l =
      some ({ k with
        locks := Function.update k.locks l
          { k.locks l with
            holder := some cur, priority := (k.threads cur).priority,
            semaphore := { (k.locks l).semaphore with value := 0 } },
        threads := Function.update k.threads cur
          { k.threads cur with
            all_locks_held :=
              list_insert_ordered
                (sort_lock_priority (Function.update k.locks l
                  { k.locks l with
                    holder := some cur, priority := (k.threads cur).priority,
                    semaphore := { (k.locks l).semaphore with value := 0 } }))
                l (k.threads cur).all_locks_held,
            neededLock := { (k.threads cur).neededLock with is_not_null := 0 } } }, true) := by
  unfold lock_acquire
  rw [lock_acquire_donate_free fuel k cur l hfree]
  simp only [Option.map_some', lock_acquire_down, sema_down_loop, set_lock_locks,
    Function.update_same, hv, one_ne_zero, if_false, if_true, lock_acquire_finish,
    set_lock_threads, set_thread_threads, set_thread_locks, Function.update_idem]
  have hz : (1 + UINT_MOD - 1) % UINT_MOD = 0 := by decide
  simp only [hz, set_thread, set_lock, Function.update_idem]

/-- C6: on a lock with no owner and count 1, `lock_acquire` returns (without
blocking, when no other thread runs at its yield) with the caller as owner,
count 0, the lock's priority equal to the caller's priority at the call, the
lock inserted into the caller's list of held locks, which stays in descending
order of lock priority if it was so ordered, the caller's needed lock cleared,
and the priority and the scheduling state of every thread unchanged. -/
theorem lock_acquire_free (fuel : Nat) (k : kernel) (cur l : Nat)
    (hfree : (k.locks l).holder = none) (hv : (k.locks l).semaphore.value = 1) :
    ∃ k1, lock_acquire fuel false k cur l = some (k1, true) ∧
      (k1.locks l).holder = some cur ∧
      (k1.locks l).semaphore.value = 0 ∧
      (k1.locks l).priority = (k.threads cur).priority ∧
      (k1.threads cur).all_locks_held
        = list_insert_ordered (sort_lock_priority k1.locks) l (k.threads cur).all_locks_held ∧
      ((k1.threads cur).all_locks_held).Perm (l :: (k.threads cur).all_locks_held) ∧
      (l ∉ (k.threads cur).all_locks_held →
        (k.threads cur).all_locks_held.Pairwise
          (fun a b => (k.locks b).priority ≤ (k.locks a).priority) →
        (k1.threads cur).all_locks_held.Pairwise
          (fun a b => (k1.locks b).priority ≤ (k1.locks a).priority)) ∧
      (k1.threads cur).neededLock.is_not_null = 0 ∧
      (∀ t, (k1.threads t).priority = (k.threads t).priority) ∧
      (∀ t, (k1.threads t).blocked = (k.threads t).blocked) := by
  refine ⟨_, lock_acquire_free_eq fuel k cur l hfree hv, ?_⟩
  simp only [Function.update_same]
  refine ⟨trivial, trivial, trivial, trivial, list_insert_ordered_perm _ _ _, ?_, trivial, ?_, ?_⟩
  · intro hl hp
    apply list_insert_ordered_pairwise
    · intro a b c hab hbc; exact le_trans hbc hab
    · intro a b h
      simp only [sort_lock_priority, decide_eq_true_eq] at h
      exact le_of_lt h
    · intro a b h
      simp only [sort_lock_priority, decide_eq_false_iff_not, not_lt] at h
      exact h
    · refine List.Pairwise.imp_of_mem ?_ hp
      intro a b ha hb hab
      have hal : a ≠ l := fun he => hl (he ▸ ha)
      have hbl : b ≠ l := fun he => hl (he ▸ hb)
      rw [Function.update_noteq hal, Function.update_noteq hbl]
      exact hab
  · intro t
    by_cases ht : t = cur
    · subst ht; simp
    · simp [Function.update_noteq ht]
  · intro t
    by_cases ht : t = cur
    · subst ht; simp
    · simp [Function.update_noteq ht]

/-- Witness of C6: H (priority 9) acquires the fresh lock 0. -/
theorem lock_acquire_free_witness :
    ∃ k1, lock_acquire 0 false (mk_kernel lmh_priority 31) 3 0 = some (k1, true) ∧
      (k1.locks 0).holder = some 3 ∧
      (k1.locks 0).semaphore.value = 0 ∧
      (k1.locks 0).priority = ((mk_kernel lmh_priority 31).threads 3).priority ∧
      (k1.threads 3).all_locks_held
        = list_insert_ordered (sort_lock_priority k1.locks) 0
            ((mk_kernel lmh_priority 31).threads 3).all_locks_held ∧
      ((k1.threads 3).all_locks_held).Perm
        (0 :: ((mk_kernel lmh_priority 31).threads 3).all_locks_held) ∧
      (0 ∉ ((mk_kernel lmh_priority 31).threads 3).all_locks_held →
        ((mk_kernel lmh_priority 31).threads 3).all_locks_held.Pairwise
          (fun a b => (((mk_kernel lmh_priority 31)).locks b).priority
            ≤ ((mk_kernel lmh_priority 31).locks a).priority) →
        (k1.threads 3).all_locks_held.Pairwise
          (fun a b => (k1.locks b).priority ≤ (k1.locks a).priority)) ∧
      (k1.threads 3).neededLock.is_not_null = 0 ∧
      (∀ t, (k1.threads t).priority = ((mk_kernel lmh_priority 31).threads t).priority) ∧
      (∀ t, (k1.threads t).blocked = ((mk_kernel lmh_priority 31).threads t).blocked) :=
  lock_acquire_free 0 (mk_kernel lmh_priority 31) 3 0 rfl rfl

/-! ## Lock: the non-blocking acquire -/

/-- C7: on a lock held by another thread, with count 0, `lock_try_acquire`
returns false and leaves the whole kernel state as it was (owner, count, waiter
queue, priority and flag of the lock, every thread's record).  On a free lock
(no owner, count 1) it returns true, makes the caller the owner and the count
0, and writes nothing else: the thread table, so every priority and list of
held locks, is unchanged (no donation, no insertion), and so are the lock's
waiter queue, priority and flag and the other locks. -/
theorem lock_try_acquire_spec :
    (∀ (k : kernel) (cur l o : Nat),
      (k.locks l).holder = some o → o ≠ cur → (k.locks l).semaphore.value = 0 →
        lock_try_acquire k cur l = some (k, false)) ∧
    (∀ (k : kernel) (cur l : Nat),
      (k.locks l).holder = none → (k.locks l).semaphore.value = 1 →
        ∃ k1, lock_try_acquire k cur l = some (k1, true) ∧
          (k1.locks l).holder = some cur ∧
          (k1.locks l).semaphore.value = 0 ∧
          (k1.locks l).semaphore.waiters = (k.locks l).semaphore.waiters ∧
          (k1.locks l).priority = (k.locks l).priority ∧
          (k1.locks l).isntChain = (k.locks l).isntChain ∧
          (∀ l1, l1 ≠ l → k1.locks l1 = k.locks l1) ∧
          k1.threads = k.threads ∧ k1.cells = k.cells ∧ k1.conds = k.conds) := by
  constructor
  · intro k cur l o hown hne hv
    simp only [lock_try_acquire, lock_held_by_current_thread, hown, Option.some.injEq, hne,
      decide_False, Bool.false_eq_true, if_false, sema_try_down, hv, gt_iff_lt, lt_self_iff_false,
      set_lock]
    have hk : Function.update k.locks l
        { holder := (k.locks l).holder, semaphore := (k.locks l).semaphore,
          priority := (k.locks l).priority, is_not_null := (k.locks l).is_not_null,
          isntChain := (k.locks l).isntChain } = k.locks := Function.update_eq_self l k.locks
    simp only [hown] at hk
    rw [hk]
  · intro k cur l hfree hv
    have hz : (1 + UINT_MOD - 1) % UINT_MOD = 0 := by decide
    refine ⟨set_lock k l { k.locks l with
      holder := some cur, semaphore := { (k.locks l).semaphore with value := 0 } }, ?_, ?_⟩
    · simp only [lock_try_acquire, lock_held_by_current_thread, hfree, reduceCtorEq,
        decide_False, Bool.false_eq_true, if_false, sema_try_down, hv, gt_iff_lt, zero_lt_one,
        if_true, hz, set_lock, Function.update_same, Function.update_idem]
    · simp only [set_lock_locks, set_lock_threads, set_lock_cells, set_lock_conds,
        Function.update_same, Function.update_idem]
      refine ⟨trivial, trivial, trivial, trivial, trivial, ?_, trivial, trivial, trivial⟩
      intro l1 h1
      rw [Function.update_noteq h1]

/-- Witness of C7: M tries the lock L holds, and H tries a fresh lock. -/
theorem lock_try_acquire_spec_witness :
    lock_try_acquire
        (set_lock (mk_kernel lmh_priority 31) 0
          { lock_init 31 with holder := some 1, semaphore := sema_init 0 }) 2 0
      = some (set_lock (mk_kernel lmh_priority 31) 0
          { lock_init 31 with holder := some 1, semaphore := sema_init 0 }, false) ∧
    ∃ k1, lock_try_acquire (mk_kernel lmh_priority 31) 3 0 = some (k1, true) ∧
      (k1.locks 0).holder = some 3 ∧
      (k1.locks 0).semaphore.value = 0 ∧
      (k1.locks 0).semaphore.waiters = ((mk_kernel lmh_priority 31).locks 0).semaphore.waiters ∧
      (k1.locks 0).priority = ((mk_kernel lmh_priority 31).locks 0).priority ∧
      (k1.locks 0).isntChain = ((mk_kernel lmh_priority 31).locks 0).isntChain ∧
      (∀ l1, l1 ≠ 0 → k1.locks l1 = (mk_kernel lmh_priority 31).locks l1) ∧
      k1.threads = (mk_kernel lmh_priority 31).threads ∧
      k1.cells = (mk_kernel lmh_priority 31).cells ∧
      k1.conds = (mk_kernel lmh_priority 31).conds :=
  ⟨lock_try_acquire_spec.1 _ 2 0 1 (by simp) (by decide) (by simp [sema_init]),
   lock_try_acquire_spec.2 (mk_kernel lmh_priority 31) 3 0 rfl rfl⟩

/-! ## Condition variable: the order of the wait-cells -/

@[simp] theorem set_cell_cells (k : kernel) (w : Nat) (v : semaphore_elem) :
    (set_cell k w v).cells = Function.update k.cells w v := rfl

@[simp] theorem set_cell_threads (k : kernel) (w : Nat) (v : semaphore_elem) :
    (set_cell k w v).threads = k.threads := rfl

@[simp] theorem set_cell_locks (k : kernel) (w : Nat) (v : semaphore_elem) :
    (set_cell k w v).locks = k.locks := rfl

@[simp] theorem set_cell_conds (k : kernel) (w : Nat) (v : semaphore_elem) :
    (set_cell k w v).conds = k.conds := rfl

@[simp] theorem set_cond_conds (k : kernel) (c : Nat) (v : condition) :
    (set_cond k c v).conds = Function.update k.conds c v := rfl

@[simp] theorem set_cond_threads (k : kernel) (c : Nat) (v : condition) :
    (set_cond k c v).threads = k.threads := rfl

@[simp] theorem set_cond_locks (k : kernel) (c : Nat) (v : condition) :
    (set_cond k c v).locks = k.locks := rfl

@[simp] theorem set_cond_cells (k : kernel) (c : Nat) (v : condition) :
    (set_cond k c v).cells = k.cells := rfl

/-- Two arrangements of the same threads, each in descending order of
priority, have fronts of the same priority. -/
theorem sorted_heads_priority (threads : Nat → thread) (a b : Nat) (l1 l2 : List Nat)
    (hp : (a :: l1).Perm (b :: l2))
    (h1 : (a :: l1).Pairwise (fun x y => (threads y).priority ≤ (threads x).priority))
    (h2 : (b :: l2).Pairwise (fun x y => (threads y).priority ≤ (threads x).priority)) :
    (threads a).priority = (threads b).priority := by
  have hab : (threads a).priority ≤ (threads b).priority := by
    rcases List.mem_cons.1 (hp.subset (List.mem_cons_self a l1)) with h | h
    · rw [h]
    · exact (List.pairwise_cons.1 h2).1 a h
  have hba : (threads b).priority ≤ (threads a).priority := by
    rcases List.mem_cons.1 (hp.symm.subset (List.mem_cons_self b l2)) with h | h
    · rw [h]
    · exact (List.pairwise_cons.1 h1).1 b h
  exact le_antisymm hab hba

/-- The key of a cell is that of any descending arrangement of its waiters. -/
theorem cell_key_of_sorted (k : kernel) (w : Nat) (l : List Nat)
    (hp : l.Perm (k.cells w).semaphore.waiters)
    (hs : l.Pairwise (fun x y => (k.threads y).priority ≤ (k.threads x).priority)) :
    cell_key k w = l.head?.map (fun t => (k.threads t).priority) := by
  unfold cell_key
  have hp2 := (list_sort_perm (sort_priority k.threads) (k.cells w).semaphore.waiters).trans
    hp.symm
  have hs2 := list_sort_sort_priority k.threads (k.cells w).semaphore.waiters
  cases hl : l with
  | nil =>
    rw [hl] at hp2
    rw [List.Perm.eq_nil hp2]
  | cons a l1 =>
    rw [hl] at hp2 hs
    cases hl2 : list_sort (sort_priority k.threads) (k.cells w).semaphore.waiters with
    | nil =>
      rw [hl2] at hp2
      exact absurd (List.Perm.eq_nil hp2.symm) (by simp)
    | cons b l2 =>
      rw [hl2] at hp2 hs2
      simp only [List.head?_cons, Option.map_some', Option.some.injEq]
      exact (sorted_heads_priority k.threads a b l1 l2 hp2.symm hs hs2).symm

theorem cell_key_eq_none (k : kernel) (w : Nat) :
    cell_key k w = none ↔ (k.cells w).semaphore.waiters = [] := by
  unfold cell_key
  have hp := list_sort_perm (sort_priority k.threads) (k.cells w).semaphore.waiters
  constructor
  · intro h
    cases hl : list_sort (sort_priority k.threads) (k.cells w).semaphore.waiters with
    | nil => rw [hl] at hp; exact List.Perm.eq_nil hp.symm
    | cons a l => rw [hl] at h; simp at h
  · intro h
    rw [h] at hp ⊢
    rfl

/-- Rearranging the waiter lists does not change the key of a cell. -/
theorem cell_key_rearranged (k s : kernel) (h : cells_rearranged k s) (w : Nat) :
    cell_key s w = cell_key k w := by
  obtain ⟨ht, _, _, hc⟩ := h
  have h1 := cell_key_of_sorted k w
    (list_sort (sort_priority k.threads) (s.cells w).semaphore.waiters)
    ((list_sort_perm _ _).trans (hc w).2) (list_sort_sort_priority _ _)
  rw [h1]
  unfold cell_key
  rw [ht]

theorem cells_rearranged_refl (k : kernel) : cells_rearranged k k :=
  ⟨rfl, rfl, rfl, fun _ => ⟨rfl, List.Perm.refl _⟩⟩

theorem cells_rearranged_trans (k s s1 : kernel) (h1 : cells_rearranged k s)
    (h2 : cells_rearranged s s1) : cells_rearranged k s1 :=
  ⟨h2.1.trans h1.1, h2.2.1.trans h1.2.1, h2.2.2.1.trans h1.2.2.1,
    fun w => ⟨((h2.2.2.2 w).1).trans (h1.2.2.2 w).1, ((h2.2.2.2 w).2).trans (h1.2.2.2 w).2⟩⟩

theorem sort_cell_waiters_rearranged (k : kernel) (w : Nat) :
    cells_rearranged k (sort_cell_waiters k w) := by
  refine ⟨rfl, rfl, rfl, ?_⟩
  intro x
  by_cases hx : x = w
  · subst hx
    simp only [sort_cell_waiters, set_cell_cells, Function.update_same]
    exact ⟨trivial, list_sort_perm _ _⟩
  · simp only [sort_cell_waiters, set_cell_cells, Function.update_noteq hx]
    exact ⟨trivial, List.Perm.refl _⟩

theorem sort_cell_waiters_sorted (k : kernel) (w : Nat) :
    ((sort_cell_waiters k w).cells w).semaphore.waiters.Pairwise
      (fun x y => (k.threads y).priority ≤ (k.threads x).priority) := by
  simp only [sort_cell_waiters, set_cell_cells, Function.update_same]
  exact list_sort_sort_priority _ _

theorem sort_cell_waiters_other (k : kernel) (w x : Nat) (hx : x ≠ w) :
    (sort_cell_waiters k w).cells x = k.cells x := by
  simp only [sort_cell_waiters, set_cell_cells, Function.update_noteq hx]

/-- After the two re-sorts of `sort_sem_priority` the waiter lists of both
cells are in descending order of priority. -/
theorem sort_cell_waiters_twice (k : kernel) (a b x : Nat) (hx : x = a ∨ x = b) :
    ((sort_cell_waiters (sort_cell_waiters k a) b).cells x).semaphore.waiters.Pairwise
      (fun u v => (k.threads v).priority ≤ (k.threads u).priority) := by
  by_cases hb : x = b
  · subst hb
    exact sort_cell_waiters_sorted (sort_cell_waiters k a) x
  · have ha : x = a := by
      rcases hx with h | h
      · exact h
      · exact absurd h hb
    subst ha
    rw [sort_cell_waiters_other _ b x hb]
    exact sort_cell_waiters_sorted k x

/-- The comparator of wait-cells answers by the keys of the two cells, and
leaves a state in which waiter lists are rearranged at most. -/
theorem sort_sem_priority_key (k : kernel) (a b : Nat) :
    (sort_sem_priority k a b).2 = key_less (cell_key k a) (cell_key k b) ∧
      cells_rearranged k (sort_sem_priority k a b).1 := by
  unfold sort_sem_priority
  by_cases hb : (k.cells b).semaphore.waiters = []
  · have hkb := (cell_key_eq_none k b).2 hb
    simp only [hb, List.isEmpty_nil, if_true, hkb]
    refine ⟨?_, cells_rearranged_refl k⟩
    cases cell_key k a <;> rfl
  · have hbe : (k.cells b).semaphore.waiters.isEmpty = false := by
      cases hl : (k.cells b).semaphore.waiters with
      | nil => exact absurd hl hb
      | cons _ _ => rfl
    by_cases ha : (k.cells a).semaphore.waiters = []
    · have hka := (cell_key_eq_none k a).2 ha
      simp only [hbe, Bool.false_eq_true, if_false, ha, List.isEmpty_nil, if_true, hka]
      refine ⟨?_, cells_rearranged_refl k⟩
      cases hkb : cell_key k b with
      | none => exact absurd ((cell_key_eq_none k b).1 hkb) hb
      | some q => rfl
    · have hae : (k.cells a).semaphore.waiters.isEmpty = false := by
        cases hl : (k.cells a).semaphore.waiters with
        | nil => exact absurd hl ha
        | cons _ _ => rfl
      simp only [hbe, hae, Bool.false_eq_true, if_false]
      have hr : cells_rearranged k (sort_cell_waiters (sort_cell_waiters k a) b) :=
        cells_rearranged_trans _ _ _ (sort_cell_waiters_rearranged k a)
          (sort_cell_waiters_rearranged _ b)
      have hka := cell_key_of_sorted k a _ (hr.2.2.2 a).2
        (sort_cell_waiters_twice k a b a (Or.inl rfl))
      have hkb := cell_key_of_sorted k b _ (hr.2.2.2 b).2
        (sort_cell_waiters_twice k a b b (Or.inr rfl))
      rw [hka, hkb]
      have hta : (sort_cell_waiters (sort_cell_waiters k a) b).threads = k.threads := rfl
      cases h1 : ((sort_cell_waiters (sort_cell_waiters k a) b).cells a).semaphore.waiters with
      | nil =>
        have := (hr.2.2.2 a).2
        rw [h1] at this
        exact absurd (List.Perm.eq_nil this.symm) ha
      | cons f l1 =>
        cases h2 : ((sort_cell_waiters (sort_cell_waiters k a) b).cells b).semaphore.waiters with
        | nil =>
          have := (hr.2.2.2 b).2
          rw [h2] at this
          exact absurd (List.Perm.eq_nil this.symm) hb
        | cons g l2 =>
          simp only [hta, List.head?_cons, Option.map_some', key_less]
          exact ⟨trivial, hr⟩

/-- Ordered insertion with a comparator that writes its state agrees with
ordered insertion by a pure comparator, when the writes keep an invariant
under which the two comparators answer alike. -/
theorem list_insert_ordered_st_pure {σ α : Type} (less : σ → α → α → σ × Bool)
    (pless : α → α → Bool) (I : σ → Prop)
    (hless : ∀ s a b, I s → (less s a b).2 = pless a b ∧ I (less s a b).1) (x : α) :
    ∀ (l : List α) (s : σ), I s →
      (list_insert_ordered_st less x s l).2 = list_insert_ordered pless x l ∧
        I (list_insert_ordered_st less x s l).1 := by
  intro l
  induction l with
  | nil => intro s hs; exact ⟨rfl, hs⟩
  | cons e rest ih =>
    intro s hs
    obtain ⟨h1, h2⟩ := hless s x e hs
    unfold list_insert_ordered_st list_insert_ordered
    rw [h1]
    by_cases hc : pless x e = true
    · simp only [hc, if_true]
      exact ⟨trivial, h2⟩
    · simp only [hc, Bool.false_eq_true, if_false]
      obtain ⟨h3, h4⟩ := ih _ h2
      rw [h3]
      exact ⟨rfl, h4⟩

theorem list_sort_st_foldl_pure {σ α : Type} (less : σ → α → α → σ × Bool)
    (pless : α → α → Bool) (I : σ → Prop)
    (hless : ∀ s a b, I s → (less s a b).2 = pless a b ∧ I (less s a b).1) :
    ∀ (l : List α) (acc : σ × List α), I acc.1 →
      (l.foldl (fun acc x => list_insert_ordered_st less x acc.1 acc.2) acc).2
          = l.foldl (fun acc x => list_insert_ordered pless x acc) acc.2 ∧
        I (l.foldl (fun acc x => list_insert_ordered_st less x acc.1 acc.2) acc).1 := by
  intro l
  induction l with
  | nil => intro acc hacc; exact ⟨rfl, hacc⟩
  | cons x rest ih =>
    intro acc hacc
    obtain ⟨h1, h2⟩ := list_insert_ordered_st_pure less pless I hless x acc.2 acc.1 hacc
    simp only [List.foldl_cons]
    obtain ⟨h3, h4⟩ := ih (list_insert_ordered_st less x acc.1 acc.2) h2
    rw [h3, h1]
    exact ⟨rfl, h4⟩

/-- The re-sort with a comparator that writes its state agrees with the re-sort
by a pure comparator, under an invariant of the writes. -/
theorem list_sort_st_pure {σ α : Type} (less : σ → α → α → σ × Bool)
    (pless : α → α → Bool) (I : σ → Prop)
    (hless : ∀ s a b, I s → (less s a b).2 = pless a b ∧ I (less s a b).1)
    (l : List α) (s : σ) (hs : I s) :
    (list_sort_st less s l).2 = list_sort pless l ∧ I (list_sort_st less s l).1 :=
  list_sort_st_foldl_pure less pless I hless l (s, []) hs

theorem sort_sem_priority_rearranged (k s : kernel) (a b : Nat) (hs : cells_rearranged k s) :
    (sort_sem_priority s a b).2 = cell_less k a b ∧
      cells_rearranged k (sort_sem_priority s a b).1 := by
  obtain ⟨h1, h2⟩ := sort_sem_priority_key s a b
  refine ⟨?_, cells_rearranged_trans k s _ hs h2⟩
  rw [h1, cell_key_rearranged k s hs a, cell_key_rearranged k s hs b]
  rfl

/-- The re-sort of a queue of wait-cells: the queue comes out as sorted by the
keys the cells have at the start, and waiter lists are rearranged at most. -/
theorem list_sort_st_cells (k : kernel) (l : List Nat) :
    (list_sort_st sort_sem_priority k l).2 = list_sort (cell_less k) l ∧
      cells_rearranged k (list_sort_st sort_sem_priority k l).1 :=
  list_sort_st_pure sort_sem_priority (cell_less k) (cells_rearranged k)
    (fun s a b hs => sort_sem_priority_rearranged k s a b hs) l k (cells_rearranged_refl k)

/-- The ordered insertion of a wait-cell, likewise. -/
theorem list_insert_ordered_st_cells (k : kernel) (w : Nat) (l : List Nat) :
    (list_insert_ordered_st sort_sem_priority w k l).2 = list_insert_ordered (cell_less k) w l ∧
      cells_rearranged k (list_insert_ordered_st sort_sem_priority w k l).1 :=
  list_insert_ordered_st_pure sort_sem_priority (cell_less k) (cells_rearranged k)
    (fun s a b hs => sort_sem_priority_rearranged k s a b hs) w l k (cells_rearranged_refl k)

theorem key_ge_trans (a b c : Option Int) (hab : key_ge a b) (hbc : key_ge b c) :
    key_ge a c := by
  rcases hbc with hc | ⟨q, r, hb, hc, hrq⟩
  · exact Or.inl hc
  · rcases hab with hb2 | ⟨p, q2, ha, hb2, hqp⟩
    · rw [hb] at hb2; exact absurd hb2 (by simp)
    · rw [hb] at hb2
      obtain rfl := Option.some.inj hb2
      exact Or.inr ⟨p, r, ha, hc, le_trans hrq hqp⟩

theorem key_less_true (a b : Option Int) (h : key_less a b = true) : key_ge a b := by
  cases b with
  | none => exact Or.inl rfl
  | some q =>
    cases a with
    | none => simp [key_less] at h
    | some p =>
      simp only [key_less, decide_eq_true_eq] at h
      exact Or.inr ⟨p, q, rfl, rfl, le_of_lt h⟩

theorem key_less_false (a b : Option Int) (h : key_less a b = false) : key_ge b a := by
  cases b with
  | none => cases a <;> simp [key_less] at h
  | some q =>
    cases a with
    | none => exact Or.inl rfl
    | some p =>
      simp only [key_less, decide_eq_false_iff_not, not_lt] at h
      exact Or.inr ⟨q, p, rfl, rfl, h⟩

theorem key_ge_refl (a : Option Int) : key_ge a a := by
  cases a with
  | none => exact Or.inl rfl
  | some p => exact Or.inr ⟨p, p, rfl, rfl, le_refl p⟩

/-- The re-sorted queue of wait-cells is ordered by key: cells with waiting
threads in descending order of priority, then the cells with none. -/
theorem list_sort_cell_less (k : kernel) (l : List Nat) :
    (list_sort (cell_less k) l).Pairwise (fun a b => key_ge (cell_key k a) (cell_key k b)) := by
  apply list_sort_pairwise
  · intro a b c hab hbc; exact key_ge_trans _ _ _ hab hbc
  · intro a b h; exact key_less_true _ _ h
  · intro a b h; exact key_less_false _ _ h

/-- The key of a cell is the priority of one of its waiters, and no waiter of
the cell has a higher priority. -/
theorem cell_key_max (k : kernel) (w : Nat) :
    (∀ p, cell_key k w = some p → ∃ t ∈ (k.cells w).semaphore.waiters,
      (k.threads t).priority = p) ∧
    (∀ t ∈ (k.cells w).semaphore.waiters, ∃ p, cell_key k w = some p ∧
      (k.threads t).priority ≤ p) := by
  have hp := list_sort_perm (sort_priority k.threads) (k.cells w).semaphore.waiters
  have hs := list_sort_sort_priority k.threads (k.cells w).semaphore.waiters
  unfold cell_key
  cases hl : list_sort (sort_priority k.threads) (k.cells w).semaphore.waiters with
  | nil =>
    rw [hl] at hp
    have := List.Perm.eq_nil hp.symm
    rw [this]
    simp
  | cons a l =>
    rw [hl] at hp hs
    simp only [List.head?_cons, Option.map_some', Option.some.injEq]
    constructor
    · intro p hpa
      exact ⟨a, hp.subset (List.mem_cons_self a l), hpa⟩
    · intro t ht
      refine ⟨_, rfl, ?_⟩
      rcases List.mem_cons.1 (hp.symm.subset ht) with rfl | h
      · exact le_refl _
      · exact (List.pairwise_cons.1 hs).1 t h

/-- The front of the re-sorted queue of wait-cells is a queued cell, and no
waiter of any queued cell has a higher priority than its best waiter. -/
theorem list_sort_cell_less_head (k : kernel) (l : List Nat) (w : Nat) (rest : List Nat)
    (h : list_sort (cell_less k) l = w :: rest) :
    w ∈ l ∧ rest.Perm (l.erase w) ∧
    ∀ x ∈ l, ∀ t ∈ (k.cells x).semaphore.waiters,
      ∃ t0 ∈ (k.cells w).semaphore.waiters, (k.threads t).priority ≤ (k.threads t0).priority := by
  have hperm := list_sort_perm (cell_less k) l
  have hsorted := list_sort_cell_less k l
  rw [h] at hperm hsorted
  refine ⟨hperm.subset (List.mem_cons_self w rest), ?_, ?_⟩
  · have h1 := hperm.erase w
    simpa using h1
  · intro x hx t ht
    have hge : key_ge (cell_key k w) (cell_key k x) := by
      rcases List.mem_cons.1 (hperm.symm.subset hx) with rfl | hx1
      · exact key_ge_refl _
      · exact (List.pairwise_cons.1 hsorted).1 x hx1
    obtain ⟨q, hq, htq⟩ := (cell_key_max k x).2 t ht
    rcases hge with hn | ⟨p, q1, hp, hq1, hle⟩
    · rw [hq] at hn; exact absurd hn (by simp)
    · rw [hq] at hq1
      obtain rfl := Option.some.inj hq1
      obtain ⟨t0, ht0, hpt0⟩ := (cell_key_max k w).1 p hp
      exact ⟨t0, ht0, by rw [hpt0]; exact le_trans htq hle⟩

/-- `cond_signal` by the lock holder on a non-empty queue, in terms of the
state `s` the re-sort leaves and of the re-sorted queue `w :: rest`. -/
theorem cond_signal_nonempty (k : kernel) (cur c l : Nat)
    (hheld : (k.locks l).holder = some cur) (hne : (k.conds c).waiters ≠ []) :
    ∃ w rest s, list_sort (cell_less k) (k.conds c).waiters = w :: rest ∧
      cells_rearranged k s ∧
      cond_signal false k cur c l =
        some (set_cell
          { (set_cond s c { waiters := rest }) with
            threads := (sema_up s.threads (s.cells w).semaphore).1 }
          w { semaphore := (sema_up s.threads (s.cells w).semaphore).2 }) := by
  obtain ⟨h1, h2⟩ := list_sort_st_cells k (k.conds c).waiters
  have hperm := list_sort_perm (cell_less k) (k.conds c).waiters
  have hemp : (k.conds c).waiters.isEmpty = false := by
    cases hl : (k.conds c).waiters with
    | nil => exact absurd hl hne
    | cons _ _ => rfl
  cases hs : list_sort (cell_less k) (k.conds c).waiters with
  | nil =>
    rw [hs] at hperm
    exact absurd (List.Perm.eq_nil hperm.symm) hne
  | cons w rest =>
    refine ⟨w, rest, (list_sort_st sort_sem_priority k (k.conds c).waiters).1, rfl, h2, ?_⟩
    unfold cond_signal
    simp only [lock_held_by_current_thread, hheld, decide_True, Bool.not_true, Bool.or_self,
      Bool.false_eq_true, if_false, hemp, Bool.not_false, if_true, set_cond_conds,
      Function.update_same, h1, hs, set_cond_threads, set_cond_cells]
    simp only [set_cond, Function.update_idem]

/-! ## Condition variable: wait and signal -/

theorem lock_release_priority_cells (k : kernel) (cur l : Nat) :
    (lock_release_priority k cur l).cells = k.cells ∧
      (lock_release_priority k cur l).conds = k.conds := by
  unfold lock_release_priority
  split
  · split
    · exact ⟨rfl, rfl⟩
    · simp only [set_thread_locks]
      split
      · split <;> exact ⟨rfl, rfl⟩
      · exact ⟨rfl, rfl⟩
  · exact ⟨rfl, rfl⟩

/-- `lock_release` by the owner of a lock that is in its list of held locks
returns, and writes no wait-cell and no condition. -/
theorem lock_release_returns (k : kernel) (cur l : Nat)
    (hheld : (k.locks l).holder = some cur) (hmem : l ∈ (k.threads cur).all_locks_held) :
    ∃ k1, lock_release k cur l = some k1 ∧ k1.cells = k.cells ∧ k1.conds = k.conds := by
  refine ⟨_, lock_release_eq k cur l hheld hmem, ?_, ?_⟩
  · simp only [set_lock_cells, (lock_release_priority_cells _ cur l).1, set_thread_cells]
  · simp only [set_lock_conds, (lock_release_priority_cells _ cur l).2, set_thread_conds]

theorem semaphore_eq_init (sema : semaphore) (hv : sema.value = (sema_init 0).value)
    (hw : sema.waiters = []) : sema = sema_init 0 := by
  cases sema with
  | mk v ws =>
    simp only at hv hw
    subst hw
    rw [hv]
    rfl

/-- `cond_wait` up to the `sema_down` of its cell: by the holder of a lock that
is in its list of held locks, outside an interrupt handler, it gets there, with
the cell queued on the condition, its semaphore 0 with no waiter, and the lock
without owner. -/
theorem cond_wait_begin_spec (k : kernel) (cur c l w : Nat)
    (hheld : (k.locks l).holder = some cur) (hmem : l ∈ (k.threads cur).all_locks_held) :
    ∃ k1, cond_wait_begin false k cur c l w = some k1 ∧
      (k1.cells w).semaphore = sema_init 0 ∧
      (k1.conds c).waiters
        = list_insert_ordered (cell_less (set_cell k w { semaphore := sema_init 0 })) w
            (k.conds c).waiters ∧
      (k1.locks l).holder = none := by
  obtain ⟨h1, h2⟩ := list_insert_ordered_st_cells (set_cell k w { semaphore := sema_init 0 }) w
    ((set_cell k w { semaphore := sema_init 0 }).conds c).waiters
  obtain ⟨ht, hl, hc, hcells⟩ := h2
  have hheld2 : ((set_cond (list_insert_ordered_st sort_sem_priority w
      (set_cell k w { semaphore := sema_init 0 })
      ((set_cell k w { semaphore := sema_init 0 }).conds c).waiters).1 c
      { waiters := (list_insert_ordered_st sort_sem_priority w
        (set_cell k w { semaphore := sema_init 0 })
        ((set_cell k w { semaphore := sema_init 0 }).conds c).waiters).2 }).locks l).holder
        = some cur := by
    rw [set_cond_locks, hl]
    exact hheld
  have hmem2 : l ∈ ((set_cond (list_insert_ordered_st sort_sem_priority w
      (set_cell k w { semaphore := sema_init 0 })
      ((set_cell k w { semaphore := sema_init 0 }).conds c).waiters).1 c
      { waiters := (list_insert_ordered_st sort_sem_priority w
        (set_cell k w { semaphore := sema_init 0 })
        ((set_cell k w { semaphore := sema_init 0 }).conds c).waiters).2 }).threads
        cur).all_locks_held := by
    rw [set_cond_threads, ht]
    exact hmem
  obtain ⟨k1, hk1, hk1c, hk1d⟩ := lock_release_returns _ cur l hheld2 hmem2
  refine ⟨k1, ?_, ?_, ?_, ?_⟩
  · unfold cond_wait_begin
    simp only [lock_held_by_current_thread, hheld, decide_True, Bool.not_true, Bool.or_self,
      Bool.false_eq_true, if_false]
    exact hk1
  · rw [hk1c, set_cond_cells]
    have hv := (hcells w).1
    have hw := (hcells w).2
    simp only [set_cell_cells, Function.update_same] at hv hw
    exact semaphore_eq_init _ hv (List.Perm.eq_nil hw)
  · rw [hk1d, set_cond_conds, Function.update_same, h1]
    rfl
  · exact (lock_release_locks _ k1 cur l hk1).2.2.1

/-- `cond_wait` gets to the `sema_down` of its cell only for the holder of a
lock that is in its list of held locks. -/
theorem cond_wait_begin_some_mem (ic : Bool) (k k1 : kernel) (cur c l w : Nat)
    (h : cond_wait_begin ic k cur c l w = some k1) :
    ic = false ∧ (k.locks l).holder = some cur ∧ l ∈ (k.threads cur).all_locks_held := by
  obtain ⟨_, h2⟩ := list_insert_ordered_st_cells (set_cell k w { semaphore := sema_init 0 }) w
    ((set_cell k w { semaphore := sema_init 0 }).conds c).waiters
  obtain ⟨ht, _, _, _⟩ := h2
  unfold cond_wait_begin at h
  split at h
  · simp at h
  · rename_i hassert
    simp only [Bool.or_eq_true, Bool.not_eq_true', not_or, Bool.not_eq_true,
      Bool.not_eq_false, lock_held_by_current_thread, decide_eq_true_eq] at hassert
    have hm := (lock_release_some_mem _ k1 cur l h).2
    rw [set_cond_threads, ht] at hm
    exact ⟨hassert.1, hassert.2, hm⟩

/-- The caller of `cond_wait` blocks at the `sema_down` of its cell when the
cell's semaphore is 0: it is suspended and queued on the cell. -/
theorem cond_wait_sleep_blocks (k : kernel) (cur w : Nat)
    (h : (k.cells w).semaphore = sema_init 0) :
    (cond_wait_sleep k cur w).2 = false ∧
      ((cond_wait_sleep k cur w).1.threads cur).blocked = true ∧
      ((cond_wait_sleep k cur w).1.cells w).semaphore = { value := 0, waiters := [cur] } ∧
      (cond_wait_sleep k cur w).1.locks = k.locks ∧
      (cond_wait_sleep k cur w).1.conds = k.conds := by
  simp [cond_wait_sleep, sema_down_loop, h, sema_init, thread_block, list_insert_ordered]

/-- C8: `cond_signal` by the lock holder.  On an empty waiter queue it changes
nothing, and a `cond_wait` that follows still blocks at its cell: whenever it
gets to the `sema_down` of its cell it blocks there, and it gets there when the
lock is in the caller's list of held locks.  On a
non-empty queue it removes exactly one wait-cell, the front of the re-sorted
queue, and increments that cell's semaphore only; no waiter of any queued cell
has a higher current priority than the best waiter of the removed cell; no
other condition, no lock and no thread priority is written. -/
theorem cond_signal_spec :
    (∀ (k : kernel) (cur c l : Nat),
      (k.locks l).holder = some cur → (k.conds c).waiters = [] →
        cond_signal false k cur c l = some k ∧
        (∀ w k1, cond_wait_begin false k cur c l w = some k1 →
          (cond_wait_sleep k1 cur w).2 = false) ∧
        (l ∈ (k.threads cur).all_locks_held →
          ∀ w, ∃ k1, cond_wait_begin false k cur c l w = some k1 ∧
            (cond_wait_sleep k1 cur w).2 = false)) ∧
    (∀ (k : kernel) (cur c l : Nat),
      (k.locks l).holder = some cur → (k.conds c).waiters ≠ [] →
        ∃ w k1, w ∈ (k.conds c).waiters ∧
          cond_signal false k cur c l = some k1 ∧
          cond_signal_cell k c = some w ∧
          ((k1.conds c).waiters).Perm ((k.conds c).waiters.erase w) ∧
          (k1.conds c).waiters.length + 1 = (k.conds c).waiters.length ∧
          (k1.cells w).semaphore.value = ((k.cells w).semaphore.value + 1) % UINT_MOD ∧
          (∀ x, x ≠ w → (k1.cells x).semaphore.value = (k.cells x).semaphore.value) ∧
          (∀ x ∈ (k.conds c).waiters, ∀ t ∈ (k.cells x).semaphore.waiters,
            ∃ t0 ∈ (k.cells w).semaphore.waiters,
              (k.threads t).priority ≤ (k.threads t0).priority) ∧
          (∀ c1, c1 ≠ c → k1.conds c1 = k.conds c1) ∧
          k1.locks = k.locks ∧
          (∀ t, (k1.threads t).priority = (k.threads t).priority)) := by
  constructor
  · intro k cur c l hheld hemp
    refine ⟨?_, ?_, ?_⟩
    · simp [cond_signal, lock_held_by_current_thread, hheld, hemp]
    · intro w k1 hk1
      obtain ⟨k2, h1, h2, _, _⟩ := cond_wait_begin_spec k cur c l w hheld
        (cond_wait_begin_some_mem false k k1 cur c l w hk1).2.2
      rw [hk1] at h1
      cases h1
      exact (cond_wait_sleep_blocks k1 cur w h2).1
    · intro hmem w
      obtain ⟨k1, h1, h2, _, _⟩ := cond_wait_begin_spec k cur c l w hheld hmem
      exact ⟨k1, h1, (cond_wait_sleep_blocks k1 cur w h2).1⟩
  · intro k cur c l hheld hne
    obtain ⟨w, rest, s, hs, hr, hsig⟩ := cond_signal_nonempty k cur c l hheld hne
    obtain ⟨hw, hperm, hmax⟩ := list_sort_cell_less_head k _ w rest hs
    obtain ⟨ht, hl, hc, hcells⟩ := hr
    refine ⟨w, _, hw, hsig, ?_, ?_, ?_, ?_, ?_, hmax, ?_, ?_, ?_⟩
    · unfold cond_signal_cell
      rw [(list_sort_st_cells k _).1, hs]
      rfl
    · simp only [set_cell_conds, set_cond_conds, Function.update_same]
      exact hperm
    · simp only [set_cell_conds, set_cond_conds, Function.update_same]
      have := (list_sort_perm (cell_less k) (k.conds c).waiters).length_eq
      rw [hs] at this
      simpa using this
    · simp only [set_cell_cells, Function.update_same, sema_up_value, (hcells w).1]
    · intro x hx
      simp only [set_cell_cells, Function.update_noteq hx, set_cond_cells]
      exact (hcells x).1
    · intro c1 hc1
      simp only [set_cell_conds, set_cond_conds, Function.update_noteq hc1, hc]
    · simp only [set_cell_locks, set_cond_locks, hl]
    · intro t
      simp only [set_cell_threads]
      obtain ⟨b, hb⟩ := sema_up_thread s.threads (s.cells w).semaphore t
      rw [hb, ht]

/-- Witness of C8: a signal on an empty queue, and a signal on the queue of
cells 10, 11, 12 whose waiters L, H, M have priorities 1, 9, 5. -/
theorem cond_signal_spec_witness :
    cond_signal false
        (set_lock (mk_kernel lmh_priority 31) 0 { lock_init 31 with holder := some 0 }) 0 0 0
      = some (set_lock (mk_kernel lmh_priority 31) 0 { lock_init 31 with holder := some 0 }) ∧
    ∃ w k1, w ∈ (cond_demo.conds 0).waiters ∧
      cond_signal false cond_demo 0 0 0 = some k1 ∧
      cond_signal_cell cond_demo 0 = some w ∧
      ((k1.conds 0).waiters).Perm ((cond_demo.conds 0).waiters.erase w) ∧
      (k1.conds 0).waiters.length + 1 = (cond_demo.conds 0).waiters.length ∧
      (k1.cells w).semaphore.value = ((cond_demo.cells w).semaphore.value + 1) % UINT_MOD ∧
      (∀ x, x ≠ w → (k1.cells x).semaphore.value = (cond_demo.cells x).semaphore.value) ∧
      (∀ x ∈ (cond_demo.conds 0).waiters, ∀ t ∈ (cond_demo.cells x).semaphore.waiters,
        ∃ t0 ∈ (cond_demo.cells w).semaphore.waiters,
          (cond_demo.threads t).priority ≤ (cond_demo.threads t0).priority) ∧
      (∀ c1, c1 ≠ 0 → k1.conds c1 = cond_demo.conds c1) ∧
      k1.locks = cond_demo.locks ∧
      (∀ t, (k1.threads t).priority = (cond_demo.threads t).priority) :=
  ⟨(cond_signal_spec.1 _ 0 0 0 (by simp) rfl).1,
   cond_signal_spec.2 cond_demo 0 0 0 rfl (by decide)⟩

/-- `lock_acquire` returns only as the owner of the lock. -/
theorem lock_acquire_down_owner (k : kernel) (cur l : Nat)
    (h : (lock_acquire_down k cur l).2 = true) :
    ((lock_acquire_down k cur l).1.locks l).holder = some cur := by
  unfold lock_acquire_down at h ⊢
  by_cases hr : (sema_down_loop k.threads cur (k.locks l).semaphore).2.2 = true
  · simp only [hr, if_true, lock_acquire_finish, set_thread_locks, set_lock_locks,
      Function.update_same]
  · simp [hr] at h

/-- C9: `cond_wait` by the holder of a lock that is in its list of held locks
(where `lock_acquire` files it), outside an interrupt handler, queues its
wait-cell, whose semaphore is 0 and has no waiter, on the condition and
releases the lock; when it then sleeps on the cell the caller is blocked and
the lock has no owner.  Whatever the state in which the caller runs the last
part of `cond_wait`, if `cond_wait` returns the caller owns the lock.  In the
scenario (A waits, B acquires, signals and releases, A resumes) A returns from
`cond_wait` as the owner of the lock, with the condition's queue empty. -/
theorem cond_wait_spec :
    (∀ (k : kernel) (cur c l w : Nat), (k.locks l).holder = some cur →
      l ∈ (k.threads cur).all_locks_held →
      ∃ k1, cond_wait_begin false k cur c l w = some k1 ∧
        w ∈ (k1.conds c).waiters ∧
        ((k1.conds c).waiters).Perm (w :: (k.conds c).waiters) ∧
        (k1.cells w).semaphore = sema_init 0 ∧
        (k1.locks l).holder = none ∧
        (cond_wait_sleep k1 cur w).2 = false ∧
        ((cond_wait_sleep k1 cur w).1.threads cur).blocked = true ∧
        ((cond_wait_sleep k1 cur w).1.cells w).semaphore.waiters = [cur] ∧
        ((cond_wait_sleep k1 cur w).1.locks l).holder = none) ∧
    (∀ (fuel : Nat) (k k1 : kernel) (cur l w : Nat) (pc : cond_wait_at),
      cond_wait_resume fuel k cur l w pc = some (k1, cond_wait_at.returned) →
        pc = cond_wait_at.down ∧ (k1.locks l).holder = some cur ∧
          lock_held_by_current_thread k1 cur l = true) ∧
    wait_signal_scenario.map (fun r => ((r.1.locks 0).holder, r.2, (r.1.conds 0).waiters))
      = some (some 1, cond_wait_at.returned, []) := by
  refine ⟨?_, ?_, by decide⟩
  · intro k cur c l w hheld hmem
    obtain ⟨k1, h1, h2, h3, h4⟩ := cond_wait_begin_spec k cur c l w hheld hmem
    obtain ⟨h5, h6, h7, h8, _⟩ := cond_wait_sleep_blocks k1 cur w h2
    have hp := list_insert_ordered_perm
      (cell_less (set_cell k w { semaphore := sema_init 0 })) w (k.conds c).waiters
    rw [← h3] at hp
    refine ⟨k1, h1, hp.symm.subset (List.mem_cons_self _ _), hp, h2, h4, h5, h6, ?_, ?_⟩
    · rw [h7]
    · rw [h8]; exact h4
  · intro fuel k k1 cur l w pc h
    cases pc with
    | sleep =>
      simp only [cond_wait_resume, Option.some.injEq, Prod.mk.injEq] at h
      split at h <;> simp at h
    | acquire =>
      simp only [cond_wait_resume] at h
      cases hd : lock_acquire_donate fuel false k cur l with
      | none => simp [hd] at h
      | some k2 => simp [hd] at h
    | down =>
      simp only [cond_wait_resume, Option.some.injEq, Prod.mk.injEq] at h
      obtain ⟨h1, h2⟩ := h
      by_cases hr : (lock_acquire_down k cur l).2 = true
      · have := lock_acquire_down_owner k cur l hr
        rw [h1] at this
        exact ⟨rfl, this, by simp [lock_held_by_current_thread, this]⟩
      · simp [hr] at h2
    | returned => simp [cond_wait_resume] at h

/-- Witness of C9: thread 1 takes the fresh lock 0 with `lock_acquire` and
waits on condition 0 with the cell 10; and in the wait and signal scenario the
woken thread 1 ends its `cond_wait` by taking lock 0. -/
theorem cond_wait_spec_witness :
    lock_run 4 (lock_sys_init (mk_kernel lmh_priority 31) 31) [.acquire 1 0, .acquire_down 1]
      = some (lmh_after [.acquire 1 0, .acquire_down 1]) ∧
    ((lmh_after [.acquire 1 0, .acquire_down 1]).k.locks 0).holder = some 1 ∧
    0 ∈ ((lmh_after [.acquire 1 0, .acquire_down 1]).k.threads 1).all_locks_held ∧
    (∃ k1, cond_wait_begin false (lmh_after [.acquire 1 0, .acquire_down 1]).k 1 0 0 10
        = some k1 ∧
      10 ∈ (k1.conds 0).waiters ∧
      ((k1.conds 0).waiters).Perm
        (10 :: ((lmh_after [.acquire 1 0, .acquire_down 1]).k.conds 0).waiters) ∧
      (k1.cells 10).semaphore = sema_init 0 ∧
      (k1.locks 0).holder = none ∧
      (cond_wait_sleep k1 1 10).2 = false ∧
      ((cond_wait_sleep k1 1 10).1.threads 1).blocked = true ∧
      ((cond_wait_sleep k1 1 10).1.cells 10).semaphore.waiters = [1] ∧
      ((cond_wait_sleep k1 1 10).1.locks 0).holder = none) ∧
    wait_signal_woken.isSome = true ∧
    ((wait_signal_woken.getD (mk_kernel lmh_priority 31, cond_wait_at.sleep)).2
        = cond_wait_at.down ∧
      ((lock_acquire_down
        (wait_signal_woken.getD (mk_kernel lmh_priority 31, cond_wait_at.sleep)).1
        1 0).1.locks 0).holder = some 1 ∧
      lock_held_by_current_thread (lock_acquire_down
        (wait_signal_woken.getD (mk_kernel lmh_priority 31, cond_wait_at.sleep)).1
        1 0).1 1 0 = true) :=
  ⟨rfl, by decide, by decide,
   cond_wait_spec.1 (lmh_after [.acquire 1 0, .acquire_down 1]).k 1 0 0 10
     (by decide) (by decide),
   rfl,
   cond_wait_spec.2.1 1
     (wait_signal_woken.getD (mk_kernel lmh_priority 31, cond_wait_at.sleep)).1 _ 1 0 10
     (wait_signal_woken.getD (mk_kernel lmh_priority 31, cond_wait_at.sleep)).2 rfl⟩

/-! ## Condition variable: broadcast -/

theorem cond_broadcast_empty (fuel : Nat) (ic : Bool) (k : kernel) (cur c l : Nat)
    (h : (k.conds c).waiters = []) : cond_broadcast fuel ic k cur c l = some k := by
  cases fuel <;> simp [cond_broadcast, h]

theorem cond_broadcast_zero (ic : Bool) (k : kernel) (cur c l : Nat)
    (h : (k.conds c).waiters ≠ []) : cond_broadcast 0 ic k cur c l = none := by
  cases hq : (k.conds c).waiters with
  | nil => exact absurd hq h
  | cons a q => simp [cond_broadcast, hq]

theorem cond_broadcast_succ (fuel : Nat) (ic : Bool) (k k1 : kernel) (cur c l : Nat)
    (h : (k.conds c).waiters ≠ []) (hs : cond_signal ic k cur c l = some k1) :
    cond_broadcast (fuel + 1) ic k cur c l = cond_broadcast fuel ic k1 cur c l := by
  cases hq : (k.conds c).waiters with
  | nil => exact absurd hq h
  | cons a q =>
    rw [cond_broadcast]
    simp [hq, hs]

theorem cond_broadcast_cells_succ (fuel : Nat) (ic : Bool) (k k1 : kernel) (cur c l w : Nat)
    (hw : cond_signal_cell k c = some w) (hs : cond_signal ic k cur c l = some k1) :
    cond_broadcast_cells (fuel + 1) ic k cur c l
      = w :: cond_broadcast_cells fuel ic k1 cur c l := by
  rw [cond_broadcast_cells]
  simp [hw, hs]

/-- The key of a cell depends on the priorities of the threads and on the
waiters of the cell, in any arrangement. -/
theorem cell_key_congr (k s : kernel) (x : Nat)
    (hprio : ∀ t, (s.threads t).priority = (k.threads t).priority)
    (hperm : ((s.cells x).semaphore.waiters).Perm (k.cells x).semaphore.waiters) :
    cell_key s x = cell_key k x := by
  have hsorted := list_sort_sort_priority s.threads (s.cells x).semaphore.waiters
  simp only [hprio] at hsorted
  have h1 := cell_key_of_sorted k x
    (list_sort (sort_priority s.threads) (s.cells x).semaphore.waiters)
    ((list_sort_perm _ _).trans hperm) hsorted
  rw [h1]
  unfold cell_key
  cases list_sort (sort_priority s.threads) (s.cells x).semaphore.waiters with
  | nil => rfl
  | cons a l => simp [hprio]

/-- On a queue of one thread `sema_up` wakes that thread. -/
theorem sema_up_single (threads : Nat → thread) (sema : semaphore) (t : Nat)
    (h : sema.waiters = [t]) : (sema_up threads sema).1 = thread_unblock threads t := by
  simp [sema_up, h, list_sort, list_insert_ordered]

/-- `sema_up` blocks no thread. -/
theorem sema_up_runnable (threads : Nat → thread) (sema : semaphore) (t : Nat)
    (h : (threads t).blocked = false) : ((sema_up threads sema).1 t).blocked = false := by
  unfold sema_up
  split
  · split
    · rename_i u rest _
      by_cases htu : t = u
      · subst htu; simp [thread_unblock]
      · simp [thread_unblock, Function.update_noteq htu, h]
    · exact h
  · exact h

/-- One signal of a broadcast: the front `w` of the re-sorted queue is popped
and its semaphore incremented; the queue is left as the rest of the re-sorted
queue, and the other cells keep their count and their key. -/
theorem cond_signal_step (k : kernel) (cur c l : Nat)
    (hheld : (k.locks l).holder = some cur) (hne : (k.conds c).waiters ≠ []) :
    ∃ w rest k1, list_sort (cell_less k) (k.conds c).waiters = w :: rest ∧
      cond_signal false k cur c l = some k1 ∧
      cond_signal_cell k c = some w ∧
      (k1.conds c).waiters = rest ∧
      (k1.locks l).holder = some cur ∧
      (k1.cells w).semaphore.value = ((k.cells w).semaphore.value + 1) % UINT_MOD ∧
      (∀ x, x ≠ w → (k1.cells x).semaphore.value = (k.cells x).semaphore.value ∧
        cell_key k1 x = cell_key k x ∧
        ((k1.cells x).semaphore.waiters).Perm (k.cells x).semaphore.waiters) ∧
      (∀ t, (k.cells w).semaphore.waiters = [t] → (k1.threads t).blocked = false) ∧
      (∀ t, (k.threads t).blocked = false → (k1.threads t).blocked = false) := by
  obtain ⟨w, rest, s, hs, hr, hsig⟩ := cond_signal_nonempty k cur c l hheld hne
  obtain ⟨ht, hl, hc, hcells⟩ := hr
  refine ⟨w, rest, _, hs, hsig, ?_, ?_, ?_, ?_, ?_, ?_, ?_⟩
  · unfold cond_signal_cell
    rw [(list_sort_st_cells k _).1, hs]
    rfl
  · simp only [set_cell_conds, set_cond_conds, Function.update_same]
  · simp only [set_cell_locks, set_cond_locks, hl]
    exact hheld
  · simp only [set_cell_cells, Function.update_same, sema_up_value, (hcells w).1]
  · intro x hx
    refine ⟨?_, ?_, ?_⟩
    · simp only [set_cell_cells, Function.update_noteq hx, set_cond_cells]
      exact (hcells x).1
    · apply cell_key_congr
      · intro t
        simp only [set_cell_threads]
        obtain ⟨b, hb⟩ := sema_up_thread s.threads (s.cells w).semaphore t
        rw [hb, ht]
      · simp only [set_cell_cells, Function.update_noteq hx, set_cond_cells]
        exact (hcells x).2
    · simp only [set_cell_cells, Function.update_noteq hx, set_cond_cells]
      exact (hcells x).2
  · intro t hwt
    have hp := (hcells w).2
    rw [hwt] at hp
    simp only [set_cell_threads]
    rw [sema_up_single s.threads (s.cells w).semaphore t (List.perm_singleton.1 hp)]
    simp [thread_unblock]
  · intro t hb
    simp only [set_cell_threads]
    apply sema_up_runnable
    rw [ht]
    exact hb

/-- The broadcast, by induction on the length of the queue. -/
theorem cond_broadcast_all (cur c l : Nat) :
    ∀ (n : Nat) (k : kernel), (k.conds c).waiters.length = n → (k.conds c).waiters.Nodup →
      (k.locks l).holder = some cur →
      ∃ k1, cond_broadcast n false k cur c l = some k1 ∧
        (∀ m, m < n → cond_broadcast m false k cur c l = none) ∧
        (∀ m, n ≤ m → cond_broadcast m false k cur c l = some k1) ∧
        (k1.conds c).waiters = [] ∧
        (cond_broadcast_cells n false k cur c l).Perm (k.conds c).waiters ∧
        (cond_broadcast_cells n false k cur c l).Pairwise
          (fun a b => key_ge (cell_key k a) (cell_key k b)) ∧
        (∀ x ∈ (k.conds c).waiters,
          (k1.cells x).semaphore.value = ((k.cells x).semaphore.value + 1) % UINT_MOD) ∧
        (∀ x, x ∉ (k.conds c).waiters →
          (k1.cells x).semaphore.value = (k.cells x).semaphore.value) ∧
        (∀ x ∈ (k.conds c).waiters, ∀ t, (k.cells x).semaphore.waiters = [t] →
          (k1.threads t).blocked = false) ∧
        (∀ t, (k.threads t).blocked = false → (k1.threads t).blocked = false) := by
  intro n
  induction n with
  | zero =>
    intro k hlen hnd hheld
    have hq : (k.conds c).waiters = [] := List.length_eq_zero.1 hlen
    refine ⟨k, cond_broadcast_empty 0 false k cur c l hq, ?_, ?_, hq, ?_, ?_, ?_, ?_, ?_, ?_⟩
    · intro m hm; omega
    · intro m _; exact cond_broadcast_empty m false k cur c l hq
    · rw [hq]; exact List.Perm.refl _
    · exact List.Pairwise.nil
    · intro x hx; rw [hq] at hx; cases hx
    · intro x _; rfl
    · intro x hx; rw [hq] at hx; cases hx
    · intro t ht; exact ht
  | succ n ih =>
    intro k hlen hnd hheld
    have hne : (k.conds c).waiters ≠ [] := by
      intro hq; rw [hq] at hlen; simp at hlen
    obtain ⟨w, rest, k2, hs, hsig, hcell, hrest, hheld2, hvw, hother, hwoken, hrun⟩ :=
      cond_signal_step k cur c l hheld hne
    have hperm := list_sort_perm (cell_less k) (k.conds c).waiters
    have hsorted := list_sort_cell_less k (k.conds c).waiters
    rw [hs] at hperm hsorted
    have hnd2 : (w :: rest).Nodup := hperm.nodup_iff.2 hnd
    have hwrest : w ∉ rest := (List.nodup_cons.1 hnd2).1
    have hlen2 : (k2.conds c).waiters.length = n := by
      have := hperm.length_eq
      rw [hrest]
      simp only [List.length_cons] at this
      omega
    obtain ⟨k1, h1, h2, h3, h4, h5, h6, h7, h8, h9, h10⟩ :=
      ih k2 hlen2 (by rw [hrest]; exact (List.nodup_cons.1 hnd2).2) hheld2
    rw [hrest] at h5 h7 h8 h9
    refine ⟨k1, ?_, ?_, ?_, h4, ?_, ?_, ?_, ?_, ?_, ?_⟩
    · rw [cond_broadcast_succ n false k k2 cur c l hne hsig]; exact h1
    · intro m hm
      cases m with
      | zero => exact cond_broadcast_zero false k cur c l hne
      | succ m =>
        rw [cond_broadcast_succ m false k k2 cur c l hne hsig]
        exact h2 m (by omega)
    · intro m hm
      cases m with
      | zero => omega
      | succ m =>
        rw [cond_broadcast_succ m false k k2 cur c l hne hsig]
        exact h3 m (by omega)
    · rw [cond_broadcast_cells_succ n false k k2 cur c l w hcell hsig]
      exact (List.Perm.cons w h5).trans hperm
    · rw [cond_broadcast_cells_succ n false k k2 cur c l w hcell hsig]
      refine List.pairwise_cons.2 ⟨?_, ?_⟩
      · intro x hx
        exact (List.pairwise_cons.1 hsorted).1 x (h5.subset hx)
      · refine List.Pairwise.imp_of_mem ?_ h6
        intro a b ha hb hab
        have haw : a ≠ w := fun he => hwrest (he ▸ h5.subset ha)
        have hbw : b ≠ w := fun he => hwrest (he ▸ h5.subset hb)
        rw [(hother a haw).2.1, (hother b hbw).2.1] at hab
        exact hab
    · intro x hx
      rcases List.mem_cons.1 (hperm.symm.subset hx) with rfl | hxr
      · rw [h8 x hwrest, hvw]
      · have hxw : x ≠ w := fun he => hwrest (he ▸ hxr)
        rw [h7 x hxr, (hother x hxw).1]
    · intro x hx
      have hxw : x ≠ w := fun he => hx (he ▸ hperm.subset (List.mem_cons_self w rest))
      have hxr : x ∉ rest := fun hm => hx (hperm.subset (List.mem_cons_of_mem w hm))
      rw [h8 x hxr, (hother x hxw).1]
    · intro x hx t hxt
      rcases List.mem_cons.1 (hperm.symm.subset hx) with rfl | hxr
      · exact h10 t (hwoken t hxt)
      · have hxw : x ≠ w := fun he => hwrest (he ▸ hxr)
        have hp := (hother x hxw).2.2
        rw [hxt] at hp
        exact h9 x hxr t (List.perm_singleton.1 hp)
    · intro t ht
      exact h10 t (hrun t ht)

/-- C10: `cond_broadcast` by the lock holder on a condition with `n` queued
wait-cells (each queued once) returns after exactly `n` passes through its
loop, that is `n` signals, with the waiter queue empty.  The signalled cells are
the queued cells, each once; the count of each queued cell's semaphore has been
incremented once and no other cell's count has changed; the thread waiting on
a queued cell (the one waiter `cond_wait` leaves on it) is runnable; and the
signals come
in the order of the cells' keys at the call: cells with waiting threads in
descending order of the best waiter's priority, then the cells with none. -/
theorem cond_broadcast_spec (k : kernel) (cur c l n : Nat)
    (hlen : (k.conds c).waiters.length = n) (hnd : (k.conds c).waiters.Nodup)
    (hheld : (k.locks l).holder = some cur) :
    ∃ k1, cond_broadcast n false k cur c l = some k1 ∧
      (∀ m, m < n → cond_broadcast m false k cur c l = none) ∧
      (∀ m, n ≤ m → cond_broadcast m false k cur c l = some k1) ∧
      (k1.conds c).waiters = [] ∧
      (cond_broadcast_cells n false k cur c l).length = n ∧
      (cond_broadcast_cells n false k cur c l).Perm (k.conds c).waiters ∧
      (cond_broadcast_cells n false k cur c l).Pairwise
        (fun a b => key_ge (cell_key k a) (cell_key k b)) ∧
      (∀ x ∈ (k.conds c).waiters,
        (k1.cells x).semaphore.value = ((k.cells x).semaphore.value + 1) % UINT_MOD) ∧
      (∀ x, x ∉ (k.conds c).waiters →
        (k1.cells x).semaphore.value = (k.cells x).semaphore.value) ∧
      (∀ x ∈ (k.conds c).waiters, ∀ t, (k.cells x).semaphore.waiters = [t] →
        (k1.threads t).blocked = false) := by
  obtain ⟨k1, h1, h2, h3, h4, h5, h6, h7, h8, h9, _⟩ :=
    cond_broadcast_all cur c l n k hlen hnd hheld
  exact ⟨k1, h1, h2, h3, h4, by rw [h5.length_eq, hlen], h5, h6, h7, h8, h9⟩

/-- Witness of C10: a broadcast on the queue of cells 10, 11, 12, whose waiters
L, H, M have priorities 1, 9, 5; the cells are signalled in the order 11, 12,
10. -/
theorem cond_broadcast_spec_witness :
    cond_broadcast_cells 3 false cond_demo 0 0 0 = [11, 12, 10] ∧
    ∃ k1, cond_broadcast 3 false cond_demo 0 0 0 = some k1 ∧
      (∀ m, m < 3 → cond_broadcast m false cond_demo 0 0 0 = none) ∧
      (∀ m, 3 ≤ m → cond_broadcast m false cond_demo 0 0 0 = some k1) ∧
      (k1.conds 0).waiters = [] ∧
      (cond_broadcast_cells 3 false cond_demo 0 0 0).length = 3 ∧
      (cond_broadcast_cells 3 false cond_demo 0 0 0).Perm (cond_demo.conds 0).waiters ∧
      (cond_broadcast_cells 3 false cond_demo 0 0 0).Pairwise
        (fun a b => key_ge (cell_key cond_demo a) (cell_key cond_demo b)) ∧
      (∀ x ∈ (cond_demo.conds 0).waiters,
        (k1.cells x).semaphore.value = ((cond_demo.cells x).semaphore.value + 1) % UINT_MOD) ∧
      (∀ x, x ∉ (cond_demo.conds 0).waiters →
        (k1.cells x).semaphore.value = (cond_demo.cells x).semaphore.value) ∧
      (∀ x ∈ (cond_demo.conds 0).waiters, ∀ t, (cond_demo.cells x).semaphore.waiters = [t] →
        (k1.threads t).blocked = false) :=
  ⟨by decide, cond_broadcast_spec cond_demo 0 0 0 3 rfl (by decide) rfl⟩

/-! ## Assertions -/

/-- A broadcast by the lock holder, outside an interrupt handler, returns when
the fuel covers the length of the queue. -/
theorem cond_broadcast_returns (cur c l : Nat) :
    ∀ (n : Nat) (k : kernel) (fuel : Nat), (k.conds c).waiters.length = n → n ≤ fuel →
      (k.locks l).holder = some cur →
      (cond_broadcast fuel false k cur c l).isSome = true := by
  intro n
  induction n with
  | zero =>
    intro k fuel hlen _ _
    rw [cond_broadcast_empty fuel false k cur c l (List.length_eq_zero.1 hlen)]
    rfl
  | succ n ih =>
    intro k fuel hlen hfuel hheld
    have hne : (k.conds c).waiters ≠ [] := by
      intro hq; rw [hq] at hlen; simp at hlen
    obtain ⟨w, rest, k2, hs, hsig, _, hrest, hheld2, _⟩ := cond_signal_step k cur c l hheld hne
    have hperm := list_sort_perm (cell_less k) (k.conds c).waiters
    rw [hs] at hperm
    have hlen2 : (k2.conds c).waiters.length = n := by
      have := hperm.length_eq
      rw [hrest]
      simp only [List.length_cons] at this
      omega
    cases fuel with
    | zero => omega
    | succ fuel =>
      rw [cond_broadcast_succ fuel false k k2 cur c l hne hsig]
      exact ih k2 fuel hlen2 (by omega) hheld2

theorem call_end_result_past_asserts {σ α : Type} (o : Option α) :
    (call_end.past_asserts o : call_end σ α).result = o := by
  cases o <;> rfl

theorem call_end_past_asserts_some {σ α : Type} (o : Option α) (r : α) (h : o = some r) :
    (call_end.past_asserts o : call_end σ α) = call_end.returned r := by
  subst h; rfl

theorem call_end_past_asserts_none {σ α : Type} (o : Option α) (h : o = none) :
    (call_end.past_asserts o : call_end σ α) = call_end.lost := by
  subst h; rfl

theorem call_end_result_some {σ α : Type} (e : call_end σ α) (r : α)
    (h : e.result = some r) : e = call_end.returned r := by
  cases e with
  | halted k => simp [call_end.result] at h
  | returned r1 =>
    simp only [call_end.result, Option.some.injEq] at h
    rw [h]
  | lost => simp [call_end.result] at h

theorem call_end_result_wrap {σ α : Type} (b : Bool) (k : σ) (o : Option α)
    (h : b = true → o = none) :
    (if b = true then (call_end.halted k : call_end σ α)
      else call_end.past_asserts o).result = o := by
  cases b with
  | false => simp [call_end_result_past_asserts]
  | true => simp [call_end.result, h rfl]

/-- The calls that return are those of the operations, with their results. -/
theorem calls_result :
    (∀ (ic : Bool) (threads : Nat → thread) (cur : Nat) (sema : semaphore),
      (sema_down_call ic threads cur sema).result = sema_down ic threads cur sema) ∧
    (∀ (fuel : Nat) (ic : Bool) (k : kernel) (cur l : Nat),
      (lock_acquire_call fuel ic k cur l).result = lock_acquire fuel ic k cur l) ∧
    (∀ (k : kernel) (cur l : Nat),
      (lock_try_acquire_call k cur l).result = lock_try_acquire k cur l) ∧
    (∀ (k : kernel) (cur l : Nat),
      (lock_release_call k cur l).result = lock_release k cur l) ∧
    (∀ (ic : Bool) (k : kernel) (cur c l w : Nat),
      (cond_wait_call ic k cur c l w).result = cond_wait_begin ic k cur c l w) ∧
    (∀ (ic : Bool) (k : kernel) (cur c l : Nat),
      (cond_signal_call ic k cur c l).result = cond_signal ic k cur c l) := by
  refine ⟨?_, ?_, ?_, ?_, ?_, ?_⟩
  · intro ic threads cur sema
    cases ic <;> rfl
  · intro fuel ic k cur l
    exact call_end_result_wrap _ k _ (fun h => by simp [lock_acquire, lock_acquire_donate, h])
  · intro k cur l
    exact call_end_result_wrap _ k _ (fun h => by simp [lock_try_acquire, h])
  · intro k cur l
    exact call_end_result_wrap _ k _ (fun h => by simp [lock_release, h])
  · intro ic k cur c l w
    exact call_end_result_wrap _ k _ (fun h => by simp [cond_wait_begin, h])
  · intro ic k cur c l
    exact call_end_result_wrap _ k _ (fun h => by simp [cond_signal, h])

theorem cond_broadcast_call_result (ic : Bool) (cur c l : Nat) :
    ∀ (fuel : Nat) (k : kernel),
      (cond_broadcast_call fuel ic k cur c l).result = cond_broadcast fuel ic k cur c l := by
  intro fuel
  induction fuel with
  | zero =>
    intro k
    unfold cond_broadcast_call cond_broadcast
    split <;> rfl
  | succ fuel ih =>
    intro k
    have hsig := calls_result.2.2.2.2.2 ic k cur c l
    unfold cond_broadcast_call cond_broadcast
    split
    · simp only
      cases hc : cond_signal_call ic k cur c l with
      | halted k1 =>
        rw [hc] at hsig
        simp only [← hsig, call_end.result]
      | returned k1 =>
        rw [hc] at hsig
        simp only [← hsig, call_end.result]
        exact ih k1
      | lost =>
        rw [hc] at hsig
        simp only [← hsig, call_end.result]
    · rfl

/-- C11, amended: each of these violations is a failed assertion that stops the
kernel in the state of the call, before anything is written: `sema_down`,
`lock_acquire` or `cond_wait` from interrupt context; `lock_acquire` or
`lock_try_acquire` on a lock the caller holds; `lock_release` by a thread that
is not the owner; `cond_wait` or `cond_signal` by a thread that does not hold
the lock, and `cond_signal` from interrupt context.  `cond_broadcast` has no
assertion on its caller: such a caller is stopped on a non-empty queue, by the
first `cond_signal`, and on an empty queue `cond_broadcast` returns with the
state unchanged.  When none of these assertions is violated no assertion of
the operations fails: `sema_down`, `lock_try_acquire`, `cond_signal` and
`cond_broadcast` return, `lock_acquire` returns from its donation step unless
the donation walk does not return, and `lock_release` and `cond_wait` go on to
their end when the lock is in the caller's list of held locks; when it is not,
they do not get past the `list_remove` of `lock_release`. -/
theorem assertions_spec :
    (∀ (threads : Nat → thread) (cur : Nat) (sema : semaphore),
      sema_down_call true threads cur sema = call_end.halted (threads, sema)) ∧
    (∀ (fuel : Nat) (k : kernel) (cur l : Nat),
      lock_acquire_call fuel true k cur l = call_end.halted k) ∧
    (∀ (k : kernel) (cur c l w : Nat), cond_wait_call true k cur c l w = call_end.halted k) ∧
    (∀ (fuel : Nat) (ic : Bool) (k : kernel) (cur l : Nat), (k.locks l).holder = some cur →
      lock_acquire_call fuel ic k cur l = call_end.halted k ∧
        lock_try_acquire_call k cur l = call_end.halted k) ∧
    (∀ (k : kernel) (cur l : Nat), (k.locks l).holder ≠ some cur →
      lock_release_call k cur l = call_end.halted k) ∧
    (∀ (k : kernel) (cur l : Nat), (k.locks l).holder = some cur →
      l ∈ (k.threads cur).all_locks_held →
      ∃ k1, lock_release_call k cur l = call_end.returned k1 ∧
        lock_release k cur l = some k1) ∧
    (∀ (k : kernel) (cur l : Nat), (k.locks l).holder = some cur →
      l ∉ (k.threads cur).all_locks_held →
      lock_release_call k cur l = call_end.lost) ∧
    (∀ (ic : Bool) (k : kernel) (cur c l w : Nat), (k.locks l).holder ≠ some cur →
      cond_wait_call ic k cur c l w = call_end.halted k ∧
        cond_signal_call ic k cur c l = call_end.halted k) ∧
    (∀ (k : kernel) (cur c l : Nat), cond_signal_call true k cur c l = call_end.halted k) ∧
    (∀ (fuel : Nat) (ic : Bool) (k : kernel) (cur c l : Nat),
      ic = true ∨ (k.locks l).holder ≠ some cur → (k.conds c).waiters ≠ [] →
        cond_broadcast_call (fuel + 1) ic k cur c l = call_end.halted k) ∧
    (∀ (fuel : Nat) (ic : Bool) (k : kernel) (cur c l : Nat), (k.conds c).waiters = [] →
      cond_broadcast_call fuel ic k cur c l = call_end.returned k) ∧
    (∀ (threads : Nat → thread) (cur : Nat) (sema : semaphore),
      sema_down_call false threads cur sema
        = call_end.returned (sema_down_loop threads cur sema)) ∧
    (∀ (fuel : Nat) (k : kernel) (cur l : Nat), (k.locks l).holder ≠ some cur →
      (∃ r, lock_acquire_call fuel false k cur l = call_end.returned r) ∨
      (lock_acquire_call fuel false k cur l = call_end.lost ∧
        ∃ o, (k.locks l).holder = some o ∧
          (k.threads o).priority < (k.threads cur).priority ∧
          next_lock_needed fuel
            (Function.update k.threads cur
              { k.threads cur with neededLock := { k.locks l with is_not_null := 1 } })
            cur { k.locks l with isntChain := 0 } = none)) ∧
    (∀ (k : kernel) (cur l : Nat), (k.locks l).holder ≠ some cur →
      ∃ r, lock_try_acquire_call k cur l = call_end.returned r) ∧
    (∀ (k : kernel) (cur c l w : Nat), (k.locks l).holder = some cur →
      (l ∈ (k.threads cur).all_locks_held →
        ∃ k1, cond_wait_call false k cur c l w = call_end.returned k1) ∧
      (l ∉ (k.threads cur).all_locks_held →
        cond_wait_call false k cur c l w = call_end.lost)) ∧
    (∀ (k : kernel) (cur c l : Nat), (k.locks l).holder = some cur →
      ∃ k1, cond_signal_call false k cur c l = call_end.returned k1) ∧
    (∀ (fuel : Nat) (k : kernel) (cur c l : Nat), (k.locks l).holder = some cur →
      (k.conds c).waiters.length ≤ fuel →
      ∃ k1, cond_broadcast_call fuel false k cur c l = call_end.returned k1) := by
  refine ⟨?_, ?_, ?_, ?_, ?_, ?_, ?_, ?_, ?_, ?_, ?_, ?_, ?_, ?_, ?_, ?_, ?_⟩
  · intro threads cur sema
    rfl
  · intro fuel k cur l
    simp [lock_acquire_call]
  · intro k cur c l w
    simp [cond_wait_call]
  · intro fuel ic k cur l hheld
    simp [lock_acquire_call, lock_try_acquire_call, lock_held_by_current_thread, hheld]
  · intro k cur l hheld
    simp [lock_release_call, lock_held_by_current_thread, hheld]
  · intro k cur l hheld hmem
    obtain ⟨k1, h1, _⟩ := lock_release_returns k cur l hheld hmem
    refine ⟨k1, ?_, h1⟩
    simp only [lock_release_call, lock_held_by_current_thread, hheld, decide_True,
      Bool.not_true, Bool.false_eq_true, if_false]
    exact call_end_past_asserts_some _ k1 h1
  · intro k cur l hheld hmem
    simp only [lock_release_call, lock_held_by_current_thread, hheld, decide_True,
      Bool.not_true, Bool.false_eq_true, if_false]
    exact call_end_past_asserts_none _ (lock_release_not_mem k cur l hmem)
  · intro ic k cur c l w hheld
    simp [cond_wait_call, cond_signal_call, lock_held_by_current_thread, hheld]
  · intro k cur c l
    simp [cond_signal_call]
  · intro fuel ic k cur c l hv hne
    have hsig : cond_signal_call ic k cur c l = call_end.halted k := by
      rcases hv with hic | hheld
      · subst hic; simp [cond_signal_call]
      · simp [cond_signal_call, lock_held_by_current_thread, hheld]
    cases hq : (k.conds c).waiters with
    | nil => exact absurd hq hne
    | cons a q =>
      rw [cond_broadcast_call]
      simp [hq, hsig]
  · intro fuel ic k cur c l hq
    cases fuel <;> simp [cond_broadcast_call, hq]
  · intro threads cur sema
    rfl
  · intro fuel k cur l hheld
    have hcall : lock_acquire_call fuel false k cur l
        = call_end.past_asserts (lock_acquire fuel false k cur l) := by
      simp [lock_acquire_call, lock_held_by_current_thread, hheld]
    rw [hcall]
    cases hacq : lock_acquire fuel false k cur l with
    | some r => exact Or.inl ⟨r, rfl⟩
    | none =>
      refine Or.inr ⟨rfl, ?_⟩
      have hd : lock_acquire_donate fuel false k cur l = none := by
        cases hd : lock_acquire_donate fuel false k cur l with
        | none => rfl
        | some k1 => simp [lock_acquire, hd] at hacq
      cases hown : (k.locks l).holder with
      | none =>
        rw [lock_acquire_donate_free fuel k cur l hown] at hd
        simp at hd
      | some o =>
        have hne : o ≠ cur := by
          intro he; subst he; exact hheld hown
        by_cases hp : (k.threads o).priority < (k.threads cur).priority
        · rw [lock_acquire_donate_some fuel k cur l o hown hne hp] at hd
          refine ⟨o, rfl, hp, ?_⟩
          cases hw : next_lock_needed fuel
            (Function.update k.threads cur
              { k.threads cur with neededLock := { k.locks l with is_not_null := 1 } })
            cur { k.locks l with isntChain := 0 } with
          | none => rfl
          | some ts => simp [hw] at hd
        · rw [lock_acquire_donate_none fuel k cur l o hown hne hp] at hd
          simp at hd
  · intro k cur l hheld
    have hcall : lock_try_acquire_call k cur l
        = call_end.past_asserts (lock_try_acquire k cur l) := by
      simp [lock_try_acquire_call, lock_held_by_current_thread, hheld]
    rw [hcall]
    cases h : lock_try_acquire k cur l with
    | some r => exact ⟨r, rfl⟩
    | none =>
      simp only [lock_try_acquire, lock_held_by_current_thread, hheld, decide_False,
        Bool.false_eq_true, if_false] at h
      split at h <;> simp at h
  · intro k cur c l w hheld
    have hcall : cond_wait_call false k cur c l w
        = call_end.past_asserts (cond_wait_begin false k cur c l w) := by
      simp [cond_wait_call, lock_held_by_current_thread, hheld]
    rw [hcall]
    constructor
    · intro hmem
      obtain ⟨k1, h1, _⟩ := cond_wait_begin_spec k cur c l w hheld hmem
      exact ⟨k1, call_end_past_asserts_some _ k1 h1⟩
    · intro hmem
      apply call_end_past_asserts_none
      cases h : cond_wait_begin false k cur c l w with
      | none => rfl
      | some k1 => exact absurd (cond_wait_begin_some_mem false k k1 cur c l w h).2.2 hmem
  · intro k cur c l hheld
    have hcall : cond_signal_call false k cur c l
        = call_end.past_asserts (cond_signal false k cur c l) := by
      simp [cond_signal_call, lock_held_by_current_thread, hheld]
    rw [hcall]
    by_cases hq : (k.conds c).waiters = []
    · refine ⟨k, call_end_past_asserts_some _ k ?_⟩
      simp [cond_signal, lock_held_by_current_thread, hheld, hq]
    · obtain ⟨w, rest, s, _, _, hsig⟩ := cond_signal_nonempty k cur c l hheld hq
      exact ⟨_, call_end_past_asserts_some _ _ hsig⟩
  · intro fuel k cur c l hheld hlen
    have h := cond_broadcast_returns cur c l _ k fuel rfl hlen hheld
    cases hb : cond_broadcast fuel false k cur c l with
    | none => rw [hb] at h; simp at h
    | some k1 =>
      refine ⟨k1, call_end_result_some _ k1 ?_⟩
      rw [cond_broadcast_call_result false cur c l fuel k, hb]

/-- Witness of C11: thread 1 takes the fresh lock 0 with `lock_acquire`; a
`lock_release` of it by thread 2, which does not own it, stops the kernel in
the state of the call, and by thread 1 it returns. -/
theorem assertions_spec_witness :
    lock_run 4 (lock_sys_init (mk_kernel lmh_priority 31) 31) [.acquire 1 0, .acquire_down 1]
      = some (lmh_after [.acquire 1 0, .acquire_down 1]) ∧
    lock_release_call (lmh_after [.acquire 1 0, .acquire_down 1]).k 2 0
      = call_end.halted (lmh_after [.acquire 1 0, .acquire_down 1]).k ∧
    ∃ k1, lock_release_call (lmh_after [.acquire 1 0, .acquire_down 1]).k 1 0
        = call_end.returned k1 ∧
      lock_release (lmh_after [.acquire 1 0, .acquire_down 1]).k 1 0 = some k1 :=
  ⟨rfl,
   assertions_spec.2.2.2.2.1 (lmh_after [.acquire 1 0, .acquire_down 1]).k 2 0 (by decide),
   assertions_spec.2.2.2.2.2.1 (lmh_after [.acquire 1 0, .acquire_down 1]).k 1 0
     (by decide) (by decide)⟩

/-- C11 as stated fails: thread 1 does not hold lock 0, yet `cond_broadcast` on
the empty queue of condition 0 returns, with the state as it was, and no
assertion has failed. -/
theorem assertions_spec_counterexample :
    lock_held_by_current_thread (mk_kernel lmh_priority 31) 1 0 = false ∧
    ((mk_kernel lmh_priority 31).conds 0).waiters = [] ∧
    cond_broadcast 0 false (mk_kernel lmh_priority 31) 1 0 0
      = some (mk_kernel lmh_priority 31) ∧
    cond_broadcast_call 0 false (mk_kernel lmh_priority 31) 1 0 0
      = call_end.returned (mk_kernel lmh_priority 31) :=
  ⟨by decide, rfl, rfl, rfl⟩

/-! ## Lock: the donation walk along the chain -/

/-- C12 fails on the code: thread 1 (priority 1) holds lock 0, thread 2
(priority 5) holds lock 1, and thread 1 blocks on lock 1 without donating, so
its needed lock is not recorded.  When thread 3 (priority 9) then runs the
donation step of `lock_acquire` on lock 0, thread 1 is raised to 9 and the walk
stops there: thread 2, the holder of the lock thread 1 is blocked on, keeps
priority 5. -/
theorem donation_walk_misses_holder :
    (lock_run 4 (lock_sys_init (mk_kernel nest_priority 31) 31)
        [.acquire 1 0, .acquire_down 1, .acquire 2 1, .acquire_down 2,
          .acquire 1 1, .acquire_down 1, .acquire 3 0]).map
      (fun s => ((s.k.locks 0).holder, (s.k.threads 1).blocked,
        (s.k.locks 1).semaphore.waiters, (s.k.locks 1).holder,
        (s.k.threads 1).neededLock.is_not_null,
        (s.k.threads 3).priority, (s.k.threads 1).priority, (s.k.threads 2).priority))
      = some (some 1, true, [1], some 2, 0, 9, 9, 5) := by
  rfl

/-- C13 fails on the code: thread 1 (priority 1) holds locks 1 and 2; thread 2
(priority 5), holder of lock 0, blocks on lock 1 and donates; thread 3
(priority 9) blocks on lock 2 and donates, so thread 1 has priority 9.  When
thread 4 (priority 7) runs the donation step of `lock_acquire` on lock 0, the
walk goes through thread 2's needed lock to thread 1 and gives it priority 7:
the donation lowers thread 1 from 9 to 7. -/
theorem donation_walk_lowers_priority :
    (lock_run 4 (lock_sys_init (mk_kernel nest_priority 31) 31)
        [.acquire 1 1, .acquire_down 1, .acquire 1 2, .acquire_down 1,
          .acquire 2 0, .acquire_down 2, .acquire 2 1, .acquire_down 2,
          .acquire 3 2, .acquire_down 3]).map
      (fun s => ((s.k.threads 1).priority, (s.k.threads 2).priority)) = some (9, 5) ∧
    (lock_run 4 (lock_sys_init (mk_kernel nest_priority 31) 31)
        [.acquire 1 1, .acquire_down 1, .acquire 1 2, .acquire_down 1,
          .acquire 2 0, .acquire_down 2, .acquire 2 1, .acquire_down 2,
          .acquire 3 2, .acquire_down 3, .acquire 4 0]).map
      (fun s => ((s.k.threads 1).priority, (s.k.threads 2).priority,
        (s.k.threads 4).priority)) = some (7, 7, 7) := by
  constructor <;> decide

/-- The caller's list of held locks after `lock_release_priority` is the list
before it, re-sorted or not. -/
theorem lock_release_priority_held (k : kernel) (cur l : Nat) :
    (((lock_release_priority k cur l).threads cur).all_locks_held).Perm
      (k.threads cur).all_locks_held := by
  unfold lock_release_priority
  split
  · split
    · simp
    · simp only [set_thread_locks, set_thread_threads, Function.update_same]
      split
      · split
        · simp only [set_thread_threads, Function.update_same]
          exact list_sort_perm _ _
        · simp only [set_thread_threads, Function.update_same]
          exact list_sort_perm _ _
      · simp only [set_thread_threads, Function.update_same]
        exact list_sort_perm _ _
  · exact List.Perm.refl _

/-- C15: `lock_release` by the owner of a lock that is in its list of held
locks (where `lock_acquire` files it) returns.  In every case the released
lock has no owner afterwards, its flag `isntChain` is 1 again, and the caller's
list of held locks is the list before the call without the lock.  If the
caller's priority equals its base priority it is left unchanged.  If it
differs and the list still has locks, the priority becomes that of a
highest-priority lock of the list exactly when the flag of the released lock
was 0 (set by a donation in `lock_acquire`), and is left unchanged when the
flag was not 0. -/
theorem lock_release_spec (k : kernel) (cur l : Nat)
    (hheld : (k.locks l).holder = some cur) (hmem : l ∈ (k.threads cur).all_locks_held) :
    ∃ k1, lock_release k cur l = some k1 ∧
    (k1.locks l).holder = none ∧
    (k1.locks l).isntChain = 1 ∧
    ((k1.threads cur).all_locks_held).Perm ((k.threads cur).all_locks_held.erase l) ∧
    ((k.threads cur).all_locks_held.Nodup → l ∉ (k1.threads cur).all_locks_held) ∧
    ((k.threads cur).priority = (k.threads cur).orig_priority →
      (k1.threads cur).priority = (k.threads cur).priority) ∧
    ((k.threads cur).priority ≠ (k.threads cur).orig_priority →
      (k.threads cur).all_locks_held.erase l ≠ [] →
      ((k.locks l).isntChain = 0 →
        ∃ m ∈ (k.threads cur).all_locks_held.erase l,
          (k1.threads cur).priority = (k.locks m).priority ∧
          ∀ m1 ∈ (k.threads cur).all_locks_held.erase l,
            (k.locks m1).priority ≤ (k.locks m).priority) ∧
      ((k.locks l).isntChain ≠ 0 →
        (k1.threads cur).priority = (k.threads cur).priority)) := by
  obtain ⟨k1, h, _⟩ := lock_release_returns k cur l hheld hmem
  refine ⟨k1, h, ?_⟩
  obtain ⟨_, _, hh, hf, _, _⟩ := lock_release_locks k k1 cur l h
  obtain ⟨b, hb⟩ := lock_release_thread k k1 cur l h
  have hlocks : ∀ m, ((Function.update k.locks l { k.locks l with holder := none }) m).priority
      = (k.locks m).priority := by
    intro m
    by_cases hm : m = l
    · subst hm; simp
    · simp [Function.update_noteq hm]
  obtain ⟨_, _, h3⟩ := lock_release_priority_thread
    (set_thread (set_lock k l { k.locks l with holder := none }) cur
      { k.threads cur with all_locks_held := (k.threads cur).all_locks_held.erase l }) cur l
  have hperm := lock_release_priority_held
    (set_thread (set_lock k l { k.locks l with holder := none }) cur
      { k.threads cur with all_locks_held := (k.threads cur).all_locks_held.erase l }) cur l
  simp only [set_thread_threads, set_thread_locks, set_lock_locks, set_lock_threads,
    Function.update_same, sort_lock_priority_congr _ _ hlocks] at h3 hperm
  rw [hb]
  refine ⟨hh, hf, hperm, ?_, ?_, ?_⟩
  · intro hnd hin
    exact (List.Nodup.not_mem_erase hnd) (hperm.subset hin)
  · intro heq
    by_cases hne : (k.threads cur).all_locks_held.erase l = []
    · have h5 := lock_release_priority_thread
        (set_thread (set_lock k l { k.locks l with holder := none }) cur
          { k.threads cur with all_locks_held := (k.threads cur).all_locks_held.erase l }) cur l
      simp only [set_thread_threads, set_thread_locks, set_lock_locks, set_lock_threads,
        Function.update_same] at h5
      rw [(h5.2.1 hne).1, heq]
    · exact (h3 hne).2 (fun hc => hc.1 heq.symm)
  · intro hd hne
    obtain ⟨h4, h5⟩ := h3 hne
    constructor
    · intro hc
      obtain ⟨m, rest, hs, hp⟩ := h4 (fun he => hd he.symm) hc
      obtain ⟨hm, hmax⟩ := list_sort_sort_lock_priority_head _ _ m rest hs
      refine ⟨m, hm, ?_, hmax⟩
      rw [← hlocks m]
      exact hp
    · intro hc
      exact h5 (fun hcc => hc hcc.2)

/-- Witness of C15: in the scenario in which L, raised to 5 by M on lock 0, has
also taken lock 1, L releases lock 0, whose flag is 0: its list of held locks
is left with lock 1, whose priority it takes. -/
theorem lock_release_spec_witness :
    lock_run 4 (lock_sys_init (mk_kernel lmh_priority 31) 31)
        [.acquire 1 0, .acquire_down 1, .acquire 2 0, .acquire_down 2,
          .acquire 1 1, .acquire_down 1]
      = some (lmh_after [.acquire 1 0, .acquire_down 1, .acquire 2 0, .acquire_down 2,
          .acquire 1 1, .acquire_down 1]) ∧
    ((lmh_after [.acquire 1 0, .acquire_down 1, .acquire 2 0, .acquire_down 2,
          .acquire 1 1, .acquire_down 1]).k.locks 0).holder = some 1 ∧
    ((lmh_after [.acquire 1 0, .acquire_down 1, .acquire 2 0, .acquire_down 2,
          .acquire 1 1, .acquire_down 1]).k.threads 1).all_locks_held.erase 0 = [1] ∧
    ((lmh_after [.acquire 1 0, .acquire_down 1, .acquire 2 0, .acquire_down 2,
          .acquire 1 1, .acquire_down 1]).k.locks 0).isntChain = 0 ∧
    ∃ k1, lock_release (lmh_after [.acquire 1 0, .acquire_down 1, .acquire 2 0,
          .acquire_down 2, .acquire 1 1, .acquire_down 1]).k 1 0 = some k1 ∧
      (k1.locks 0).holder = none ∧ (k1.locks 0).isntChain = 1 ∧
      ((k1.threads 1).all_locks_held).Perm [1] ∧
      0 ∉ (k1.threads 1).all_locks_held ∧
      ∃ m ∈ [1], (k1.threads 1).priority
        = ((lmh_after [.acquire 1 0, .acquire_down 1, .acquire 2 0, .acquire_down 2,
          .acquire 1 1, .acquire_down 1]).k.locks m).priority :=
  ⟨rfl, by decide, by decide, by decide,
    match lock_release_spec
      (lmh_after [.acquire 1 0, .acquire_down 1, .acquire 2 0, .acquire_down 2,
          .acquire 1 1, .acquire_down 1]).k 1 0 (by decide) (by decide) with
    | ⟨k1, h, h1, h2, h3, h4, _, h6⟩ =>
      ⟨k1, h, h1, h2, h3, h4 (by decide),
        match (h6 (by decide) (by decide)).1 (by decide) with
        | ⟨m, hm, hp, _⟩ => ⟨m, hm, hp⟩⟩⟩

/-! ## Semaphore: ties at the wake -/

/-- The front of the queue after a run of ordered insertions, when the queue
had the front `best`: the first of the inserted threads that beats every thread
before it, or `best`. -/
theorem list_sort_foldl_front (threads : Nat → thread) :
    ∀ (l : List Nat) (best : Nat) (acc : List Nat),
      ∃ t r, l.foldl (fun acc x => list_insert_ordered (sort_priority threads) x acc)
          (best :: acc) = t :: r ∧
        ((t = best ∧ ∀ u ∈ l, (threads u).priority ≤ (threads best).priority) ∨
          ∃ pre post, l = pre ++ t :: post ∧
            (threads best).priority < (threads t).priority ∧
            (∀ u ∈ pre, (threads u).priority < (threads t).priority) ∧
            (∀ u ∈ post, (threads u).priority ≤ (threads t).priority)) := by
  intro l
  induction l with
  | nil =>
    intro best acc
    exact ⟨best, acc, rfl, Or.inl ⟨rfl, fun u hu => by cases hu⟩⟩
  | cons x rest ih =>
    intro best acc
    simp only [List.foldl_cons]
    by_cases hx : (threads x).priority > (threads best).priority
    · have hins : list_insert_ordered (sort_priority threads) x (best :: acc)
          = x :: best :: acc := by
        simp [list_insert_ordered, sort_priority, hx]
      rw [hins]
      obtain ⟨t, r, hfold, hcase⟩ := ih x (best :: acc)
      refine ⟨t, r, hfold, Or.inr ?_⟩
      rcases hcase with ⟨rfl, hall⟩ | ⟨pre, post, hl, hlt, hpre, hpost⟩
      · exact ⟨[], rest, rfl, hx, fun u hu => absurd hu (List.not_mem_nil u), hall⟩
      · refine ⟨x :: pre, post, by rw [hl]; rfl, lt_trans hx hlt, ?_, hpost⟩
        intro u hu
        rcases List.mem_cons.1 hu with rfl | hu
        · exact hlt
        · exact hpre u hu
    · have hins : list_insert_ordered (sort_priority threads) x (best :: acc)
          = best :: list_insert_ordered (sort_priority threads) x acc := by
        simp [list_insert_ordered, sort_priority, hx]
      rw [hins]
      obtain ⟨t, r, hfold, hcase⟩ := ih best (list_insert_ordered (sort_priority threads) x acc)
      refine ⟨t, r, hfold, ?_⟩
      rcases hcase with ⟨rfl, hall⟩ | ⟨pre, post, hl, hlt, hpre, hpost⟩
      · left
        refine ⟨rfl, ?_⟩
        intro u hu
        rcases List.mem_cons.1 hu with rfl | hu
        · exact not_lt.1 hx
        · exact hall u hu
      · right
        refine ⟨x :: pre, post, by rw [hl]; rfl, hlt, ?_, hpost⟩
        intro u hu
        rcases List.mem_cons.1 hu with rfl | hu
        · exact lt_of_le_of_lt (not_lt.1 hx) hlt
        · exact hpre u hu

/-- The front of a re-sorted thread queue is the front-most thread of the
highest current priority: the threads before it in the queue have a lower
priority, the threads behind it have no higher one. -/
theorem list_sort_front_most (threads : Nat → thread) (l : List Nat) (t : Nat) (r : List Nat)
    (h : list_sort (sort_priority threads) l = t :: r) :
    ∃ pre post, l = pre ++ t :: post ∧
      (∀ u ∈ pre, (threads u).priority < (threads t).priority) ∧
      (∀ u ∈ post, (threads u).priority ≤ (threads t).priority) := by
  cases l with
  | nil => simp [list_sort] at h
  | cons a rest =>
    obtain ⟨t1, r1, hfold, hcase⟩ := list_sort_foldl_front threads rest a []
    have h1 : list_sort (sort_priority threads) (a :: rest) = t1 :: r1 := by
      simpa [list_sort, list_insert_ordered] using hfold
    rw [h] at h1
    obtain ⟨rfl, _⟩ := List.cons.inj h1
    rcases hcase with ⟨rfl, hall⟩ | ⟨pre, post, hl, hlt, hpre, hpost⟩
    · exact ⟨[], rest, rfl, fun u hu => absurd hu (List.not_mem_nil u), hall⟩
    · refine ⟨a :: pre, post, by rw [hl]; rfl, ?_, hpost⟩
      intro u hu
      rcases List.mem_cons.1 hu with rfl | hu
      · exact hlt
      · exact hpre u hu

/-- A queue in descending order of priority comes out of the re-sort with the
same front. -/
theorem list_sort_sorted_front (threads : Nat → thread) (q : List Nat) (t : Nat) (r : List Nat)
    (hq : q.Pairwise (fun a b => (threads b).priority ≤ (threads a).priority))
    (h : list_sort (sort_priority threads) q = t :: r) :
    q.head? = some t := by
  obtain ⟨pre, post, hl, hpre, _⟩ := list_sort_front_most threads q t r h
  cases pre with
  | nil => rw [hl]; rfl
  | cons a pre1 =>
    rw [hl] at hq
    have h1 : (threads t).priority ≤ (threads a).priority := by
      have := (List.pairwise_cons.1 hq).1 t (by simp)
      exact this
    have h2 := hpre a (List.mem_cons_self _ _)
    exact absurd h1 (not_le.2 h2)

/-- The threads that blocked one after the other in `sema_down`, their
priorities unchanged, are queued as the re-sort of their order of arrival, and
nothing but their scheduling state is written. -/
theorem sema_down_all_queue (threads0 : Nat → thread) :
    ∀ (hist : List Nat) (threads : Nat → thread) (q : List Nat),
      (∀ t, (threads t).priority = (threads0 t).priority) →
      (sema_down_all threads { value := 0, waiters := q } hist).2.value = 0 ∧
      (sema_down_all threads { value := 0, waiters := q } hist).2.waiters
        = hist.foldl (fun acc x => list_insert_ordered (sort_priority threads0) x acc) q ∧
      (∀ t, ((sema_down_all threads { value := 0, waiters := q } hist).1 t).priority
        = (threads0 t).priority) := by
  intro hist
  induction hist with
  | nil => intro threads q hp; exact ⟨rfl, rfl, hp⟩
  | cons x rest ih =>
    intro threads q hp
    have hless : sort_priority threads = sort_priority threads0 := by
      funext a b
      simp only [sort_priority, hp]
    have hstep : sema_down_all threads { value := 0, waiters := q } (x :: rest)
        = sema_down_all (thread_block threads x)
            { value := 0, waiters := list_insert_ordered (sort_priority threads0) x q } rest := by
      simp only [sema_down_all, List.foldl_cons, sema_down_loop, if_true, hless]
    rw [hstep]
    have hp2 : ∀ t, ((thread_block threads x) t).priority = (threads0 t).priority := by
      intro t
      by_cases ht : t = x
      · subst ht; simp [thread_block, hp]
      · simp [thread_block, Function.update_noteq ht, hp]
    exact ih (thread_block threads x) _ hp2

/-- C16, amended: among the waiters of one semaphore that share the highest
current priority at wake time, `sema_up` wakes the one nearest the front of the
waiter queue: the waiters before it in the queue have a lower priority and the
waiters behind it no higher one.  When the waiters blocked in `sema_down` one
after the other and their priorities have not changed since, the woken thread
is the one of the highest priority that was enqueued earliest. -/
theorem sema_up_tie_break :
    (∀ (threads : Nat → thread) (sema : semaphore), sema.waiters ≠ [] →
      ∃ t pre post, sema.waiters = pre ++ t :: post ∧
        (∀ u ∈ pre, (threads u).priority < (threads t).priority) ∧
        (∀ u ∈ post, (threads u).priority ≤ (threads t).priority) ∧
        (sema_up threads sema).1 = thread_unblock threads t) ∧
    (∀ (threads : Nat → thread) (hist : List Nat), hist ≠ [] →
      ∃ t pre post, hist = pre ++ t :: post ∧
        (∀ u ∈ pre, (threads u).priority < (threads t).priority) ∧
        (∀ u ∈ post, (threads u).priority ≤ (threads t).priority) ∧
        (sema_up (sema_down_all threads (sema_init 0) hist).1
            (sema_down_all threads (sema_init 0) hist).2).1
          = thread_unblock (sema_down_all threads (sema_init 0) hist).1 t) := by
  constructor
  · intro threads sema hne
    have hperm := list_sort_perm (sort_priority threads) sema.waiters
    have hemp : (!sema.waiters.isEmpty) = true := by
      cases hw : sema.waiters with
      | nil => exact absurd hw hne
      | cons a l => rfl
    cases hs : list_sort (sort_priority threads) sema.waiters with
    | nil =>
      rw [hs] at hperm
      exact absurd (List.Perm.eq_nil hperm.symm) hne
    | cons t rest =>
      obtain ⟨pre, post, hl, hpre, hpost⟩ := list_sort_front_most threads _ t rest hs
      refine ⟨t, pre, post, hl, hpre, hpost, ?_⟩
      unfold sema_up
      rw [if_pos hemp, hs]
  · intro threads hist hne
    obtain ⟨_, hq, hp⟩ := sema_down_all_queue threads hist threads [] (fun _ => rfl)
    have hq2 : (sema_down_all threads (sema_init 0) hist).2.waiters
        = list_sort (sort_priority threads) hist := hq
    have hless : sort_priority (sema_down_all threads (sema_init 0) hist).1
        = sort_priority threads := by
      funext a b
      have ha := hp a
      have hb := hp b
      simp only [sema_init] at ha hb ⊢
      simp only [sort_priority, ha, hb]
    have hperm := list_sort_perm (sort_priority threads) hist
    have hsorted := list_sort_sort_priority threads hist
    cases hs : list_sort (sort_priority threads) hist with
    | nil =>
      rw [hs] at hperm
      exact absurd (List.Perm.eq_nil hperm.symm) hne
    | cons t rest =>
      obtain ⟨pre, post, hl, hpre, hpost⟩ := list_sort_front_most threads hist t rest hs
      refine ⟨t, pre, post, hl, hpre, hpost, ?_⟩
      have hperm2 := list_sort_perm (sort_priority threads) (t :: rest)
      cases hs2 : list_sort (sort_priority threads) (t :: rest) with
      | nil =>
        rw [hs2] at hperm2
        exact absurd (List.Perm.eq_nil hperm2.symm) (by simp)
      | cons t2 rest2 =>
        rw [hs] at hsorted
        have hfront := list_sort_sorted_front threads (t :: rest) t2 rest2 hsorted hs2
        simp only [List.head?_cons, Option.some.injEq] at hfront
        subst hfront
        unfold sema_up
        rw [hless, hq2, hs]
        simp only [List.isEmpty_cons, Bool.not_false, if_true, hs2]

/-- Witness of C16: of the waiters 1, 2, 3 queued in this order with priorities
1, 5, 9, and of the threads 2, 5, 3 blocking in this order with priorities 5,
9, 9, `sema_up` wakes a front-most thread of the highest priority. -/
theorem sema_up_tie_break_witness :
    (∃ t pre post, [1, 2, 3] = pre ++ t :: post ∧
      (∀ u ∈ pre, ((fun i => mk_thread (nest_priority i)) u).priority
        < ((fun i => mk_thread (nest_priority i)) t).priority) ∧
      (∀ u ∈ post, ((fun i => mk_thread (nest_priority i)) u).priority
        ≤ ((fun i => mk_thread (nest_priority i)) t).priority) ∧
      (sema_up (fun i => mk_thread (nest_priority i)) { value := 0, waiters := [1, 2, 3] }).1
        = thread_unblock (fun i => mk_thread (nest_priority i)) t) ∧
    (∃ t pre post, [2, 5, 3] = pre ++ t :: post ∧
      (∀ u ∈ pre, ((fun i => mk_thread (nest_priority i)) u).priority
        < ((fun i => mk_thread (nest_priority i)) t).priority) ∧
      (∀ u ∈ post, ((fun i => mk_thread (nest_priority i)) u).priority
        ≤ ((fun i => mk_thread (nest_priority i)) t).priority) ∧
      (sema_up (sema_down_all (fun i => mk_thread (nest_priority i)) (sema_init 0) [2, 5, 3]).1
          (sema_down_all (fun i => mk_thread (nest_priority i)) (sema_init 0) [2, 5, 3]).2).1
        = thread_unblock
            (sema_down_all (fun i => mk_thread (nest_priority i)) (sema_init 0) [2, 5, 3]).1 t) :=
  ⟨sema_up_tie_break.1 (fun i => mk_thread (nest_priority i))
      { value := 0, waiters := [1, 2, 3] } (by decide),
   sema_up_tie_break.2 (fun i => mk_thread (nest_priority i)) [2, 5, 3] (by decide)⟩

/-- C16 as stated fails: thread 2 (priority 5) blocks on lock 0 first, thread 3
(priority 9) second, so the queue is 3, 2; thread 5 (priority 9) then blocks on
lock 1, which thread 2 holds, and its donation raises thread 2 to 9.  When the
owner releases lock 0, threads 2 and 3 share the highest priority, and
`sema_up` wakes thread 3, which was enqueued later. -/
theorem sema_up_tie_break_counterexample :
    (lock_run 4 (lock_sys_init (mk_kernel nest_priority 31) 31)
        [.acquire 1 0, .acquire_down 1, .acquire 2 1, .acquire_down 2,
          .acquire 2 0, .acquire_down 2]).map
      (fun s => (s.k.locks 0).semaphore.waiters) = some [2] ∧
    (lock_run 4 (lock_sys_init (mk_kernel nest_priority 31) 31)
        [.acquire 1 0, .acquire_down 1, .acquire 2 1, .acquire_down 2,
          .acquire 2 0, .acquire_down 2, .acquire 3 0, .acquire_down 3,
          .acquire 5 1, .acquire_down 5]).map
      (fun s => ((s.k.locks 0).semaphore.waiters, (s.k.threads 2).priority,
        (s.k.threads 3).priority, (s.k.threads 2).blocked, (s.k.threads 3).blocked))
      = some ([3, 2], 9, 9, true, true) ∧
    (lock_run 4 (lock_sys_init (mk_kernel nest_priority 31) 31)
        [.acquire 1 0, .acquire_down 1, .acquire 2 1, .acquire_down 2,
          .acquire 2 0, .acquire_down 2, .acquire 3 0, .acquire_down 3,
          .acquire 5 1, .acquire_down 5, .release 1 0]).map
      (fun s => ((s.k.locks 0).semaphore.waiters, (s.k.threads 2).blocked,
        (s.k.threads 3).blocked))
      = some ([2], true, false) := by
  refine ⟨?_, ?_, ?_⟩ <;> rfl

/-! ## Interrupt levels at the writes -/

theorem writes_at_refl (F : List field) (s : intr_trace) : writes_at F s s :=
  ⟨rfl, [], by simp, fun w hw => absurd hw (List.not_mem_nil w)⟩

theorem writes_at_trans (F : List field) (s s1 s2 : intr_trace)
    (h1 : writes_at F s s1) (h2 : writes_at F s1 s2) : writes_at F s s2 := by
  obtain ⟨hl1, L1, hw1, hp1⟩ := h1
  obtain ⟨hl2, L2, hw2, hp2⟩ := h2
  refine ⟨hl2.trans hl1, L1 ++ L2, by rw [hw2, hw1, List.append_assoc], ?_⟩
  intro w hw
  rcases List.mem_append.1 hw with h | h
  · exact hp1 w h
  · have := hp2 w h
    rw [hl1] at this
    exact this

theorem writes_at_mono (F G : List field) (s s1 : intr_trace) (hFG : ∀ f ∈ F, f ∈ G)
    (h : writes_at F s s1) : writes_at G s s1 := by
  obtain ⟨hl, L, hw, hp⟩ := h
  refine ⟨hl, L, hw, ?_⟩
  intro w hmem
  rcases hp w hmem with h1 | ⟨h1, h2⟩
  · exact Or.inl h1
  · exact Or.inr ⟨h1, hFG _ h2⟩

theorem writes_at_log_write (F : List field) (f : field) (s : intr_trace)
    (h : s.level = false ∨ f ∈ F) : writes_at F s (log_write f s) := by
  refine ⟨rfl, [(f, s.level)], rfl, ?_⟩
  intro w hw
  rw [List.mem_singleton] at hw
  subst hw
  rcases h with h | h
  · exact Or.inl h
  · exact Or.inr ⟨rfl, h⟩

theorem writes_at_log_writes (F : List field) (f : field) (n : Nat) :
    ∀ s : intr_trace, s.level = false ∨ f ∈ F → writes_at F s (log_writes f n s) := by
  induction n with
  | zero => intro s _; exact writes_at_refl F s
  | succ n ih =>
    intro s h
    exact writes_at_trans F s _ _ (writes_at_log_write F f s h)
      (ih (log_write f s) h)

theorem writes_at_next_lock_needed (F : List field) (n : Nat) (s : intr_trace)
    (h : s.level = false) : writes_at F s (next_lock_needed_trace n s) := by
  induction n with
  | zero => exact writes_at_refl F s
  | succ n ih =>
    have hl : (next_lock_needed_trace n s).level = false := by rw [ih.1, h]
    have a := writes_at_log_write F field.thread_current_dono (next_lock_needed_trace n s)
      (Or.inl hl)
    have b := writes_at_log_write F field.thread_priority
      (log_write field.thread_current_dono (next_lock_needed_trace n s)) (Or.inl hl)
    exact writes_at_trans F _ _ _ ih (writes_at_trans F _ _ _ a b)

theorem writes_at_sort_sem_priority (F : List field) (n : Nat) (s : intr_trace)
    (h : s.level = false ∨ field.sema_waiters ∈ F) :
    writes_at F s (sort_sem_priority_trace n s) := by
  induction n with
  | zero => exact writes_at_refl F s
  | succ n ih =>
    have hl : (sort_sem_priority_trace n s).level = false ∨ field.sema_waiters ∈ F := by
      rcases h with h | h
      · left; rw [ih.1, h]
      · exact Or.inr h
    have hl2 : (log_write field.sema_waiters (sort_sem_priority_trace n s)).level = false ∨
        field.sema_waiters ∈ F := hl
    have a := writes_at_log_write F field.sema_waiters (sort_sem_priority_trace n s) hl
    have b := writes_at_log_write F field.sema_waiters
      (log_write field.sema_waiters (sort_sem_priority_trace n s)) hl2
    exact writes_at_trans F _ _ _ ih (writes_at_trans F _ _ _ a b)

/-- A part of an operation between `intr_disable ()` and the
`intr_set_level (old_level)` that restores the level adds writes made with
interrupts disabled only. -/
theorem writes_at_guard (F : List field) (s s3 : intr_trace)
    (h : writes_at [] (intr_disable s).2 s3) :
    writes_at F s (intr_set_level (intr_disable s).1 s3) := by
  obtain ⟨_, L, hw, hp⟩ := h
  refine ⟨rfl, L, hw, ?_⟩
  intro w hmem
  rcases hp w hmem with h1 | ⟨h1, _⟩
  · exact Or.inl h1
  · exact Or.inl h1

theorem sema_down_trace_at (F : List field) (blocks : Nat) (s : intr_trace) :
    writes_at F s (sema_down_trace blocks s) := by
  unfold sema_down_trace
  apply writes_at_guard
  have h1 := writes_at_log_writes [] field.sema_waiters blocks (intr_disable s).2 (Or.inl rfl)
  refine writes_at_trans [] _ _ _ h1 ?_
  exact writes_at_log_write [] _ _ (Or.inl (by rw [h1.1]; rfl))

theorem sema_try_down_trace_at (F : List field) (success : Bool) (s : intr_trace) :
    writes_at F s (sema_try_down_trace success s) := by
  unfold sema_try_down_trace
  apply writes_at_guard
  cases success
  · exact writes_at_refl [] _
  · exact writes_at_log_write [] _ _ (Or.inl rfl)

theorem sema_up_trace_at (F : List field) (waiter : Bool) (s : intr_trace) :
    writes_at F s (sema_up_trace waiter s) := by
  unfold sema_up_trace
  apply writes_at_guard
  cases waiter
  · exact writes_at_log_write [] _ _ (Or.inl rfl)
  · have a := writes_at_log_write [] field.sema_waiters (intr_disable s).2 (Or.inl rfl)
    have b := writes_at_log_write [] field.sema_waiters
      (log_write field.sema_waiters (intr_disable s).2) (Or.inl rfl)
    have c := writes_at_log_write [] field.sema_value
      (log_write field.sema_waiters (log_write field.sema_waiters (intr_disable s).2))
      (Or.inl rfl)
    exact writes_at_trans [] _ _ _ a (writes_at_trans [] _ _ _ b c)

theorem lock_acquire_trace_at (F : List field) (free donate : Bool) (chain : Nat)
    (raise : Bool) (blocks : Nat) (s : intr_trace) :
    writes_at F s (lock_acquire_trace free donate chain raise blocks s) := by
  unfold lock_acquire_trace
  apply writes_at_guard
  have h2 : writes_at [] (intr_disable s).2
      (if free then log_write field.lock_priority (intr_disable s).2 else (intr_disable s).2) := by
    cases free
    · exact writes_at_refl [] _
    · exact writes_at_log_write [] _ _ (Or.inl rfl)
  generalize (if free then log_write field.lock_priority (intr_disable s).2
    else (intr_disable s).2) = s2 at h2
  have hl2 : s2.level = false := by rw [h2.1]; rfl
  have h3 : writes_at [] s2
      (if donate then
        (if raise then
          log_write field.lock_priority
            (next_lock_needed_trace chain
              (log_write field.lock_isntChain
                (log_write field.thread_neededLock (log_write field.thread_neededLock s2))))
        else
          next_lock_needed_trace chain
            (log_write field.lock_isntChain
              (log_write field.thread_neededLock (log_write field.thread_neededLock s2))))
      else s2) := by
    cases donate
    · exact writes_at_refl [] _
    · have d1 := writes_at_log_write [] field.thread_neededLock s2 (Or.inl hl2)
      have d2 := writes_at_log_write [] field.thread_neededLock _ (Or.inl (d1.1.trans hl2))
      have d3 := writes_at_log_write [] field.lock_isntChain _
        (Or.inl (d2.1.trans (d1.1.trans hl2)))
      have hl3 := d3.1.trans (d2.1.trans (d1.1.trans hl2))
      have d4 := writes_at_next_lock_needed [] chain _ hl3
      have d14 := writes_at_trans [] _ _ _ (writes_at_trans [] _ _ _
        (writes_at_trans [] _ _ _ d1 d2) d3) d4
      cases raise
      · exact d14
      · exact writes_at_trans [] _ _ _ d14
          (writes_at_log_write [] _ _ (Or.inl (d4.1.trans hl3)))
  generalize (if donate then
        (if raise then
          log_write field.lock_priority
            (next_lock_needed_trace chain
              (log_write field.lock_isntChain
                (log_write field.thread_neededLock (log_write field.thread_neededLock s2))))
        else
          next_lock_needed_trace chain
            (log_write field.lock_isntChain
              (log_write field.thread_neededLock (log_write field.thread_neededLock s2))))
      else s2) = s3 at h3
  have hl3 : s3.level = false := by rw [h3.1, hl2]
  have h4 := sema_down_trace_at [] blocks s3
  have hl4 := h4.1.trans hl3
  have h5 := writes_at_log_write [] field.lock_holder _ (Or.inl hl4)
  have h6 := writes_at_log_write [] field.thread_all_locks_held _ (Or.inl (h5.1.trans hl4))
  have h7 := writes_at_log_write [] field.thread_neededLock _
    (Or.inl (h6.1.trans (h5.1.trans hl4)))
  exact writes_at_trans [] _ _ _ h2 (writes_at_trans [] _ _ _ h3
    (writes_at_trans [] _ _ _ h4 (writes_at_trans [] _ _ _ h5
      (writes_at_trans [] _ _ _ h6 h7))))

theorem lock_try_acquire_trace_at (success : Bool) (s : intr_trace) :
    writes_at [field.lock_holder] s (lock_try_acquire_trace success s) := by
  unfold lock_try_acquire_trace
  have h1 := sema_try_down_trace_at [field.lock_holder] success s
  cases success
  · exact h1
  · exact writes_at_trans _ _ _ _ h1
      (writes_at_log_write _ field.lock_holder (sema_try_down_trace true s)
        (Or.inr (by simp)))

theorem lock_release_trace_at (donated empty flag0 waiter : Bool) (s : intr_trace) :
    writes_at [field.lock_holder, field.thread_all_locks_held, field.thread_priority,
      field.thread_current_dono, field.lock_isntChain] s
      (lock_release_trace donated empty flag0 waiter s) := by
  unfold lock_release_trace
  dsimp only
  have h1 := writes_at_log_write [field.lock_holder, field.thread_all_locks_held,
    field.thread_priority, field.thread_current_dono, field.lock_isntChain]
    field.lock_holder s (Or.inr (by simp))
  have h2 := writes_at_log_write [field.lock_holder, field.thread_all_locks_held,
    field.thread_priority, field.thread_current_dono, field.lock_isntChain]
    field.thread_all_locks_held (log_write field.lock_holder s) (Or.inr (by simp))
  have h12 := writes_at_trans _ _ _ _ h1 h2
  generalize log_write field.thread_all_locks_held (log_write field.lock_holder s) = s2 at h12
  have h3 : writes_at [field.lock_holder, field.thread_all_locks_held,
      field.thread_priority, field.thread_current_dono, field.lock_isntChain] s2
      (if donated then
        (if empty then log_write field.thread_current_dono (log_write field.thread_priority s2)
        else
          (if flag0 then
            log_write field.thread_priority (log_write field.thread_all_locks_held s2)
          else log_write field.thread_all_locks_held s2))
      else s2) := by
    cases donated
    · exact writes_at_refl _ _
    · cases empty
      · have a := writes_at_log_write [field.lock_holder, field.thread_all_locks_held,
          field.thread_priority, field.thread_current_dono, field.lock_isntChain]
          field.thread_all_locks_held s2 (Or.inr (by simp))
        cases flag0
        · exact a
        · exact writes_at_trans _ _ _ _ a
            (writes_at_log_write _ field.thread_priority
              (log_write field.thread_all_locks_held s2) (Or.inr (by simp)))
      · exact writes_at_trans _ _ _ _
          (writes_at_log_write _ field.thread_priority s2 (Or.inr (by simp)))
          (writes_at_log_write _ field.thread_current_dono
            (log_write field.thread_priority s2) (Or.inr (by simp)))
  generalize (if donated then
        (if empty then log_write field.thread_current_dono (log_write field.thread_priority s2)
        else
          (if flag0 then
            log_write field.thread_priority (log_write field.thread_all_locks_held s2)
          else log_write field.thread_all_locks_held s2))
      else s2) = s3 at h3
  have h4 := writes_at_log_write [field.lock_holder, field.thread_all_locks_held,
    field.thread_priority, field.thread_current_dono, field.lock_isntChain]
    field.lock_isntChain s3 (Or.inr (by simp))
  exact writes_at_trans _ _ _ _ h12 (writes_at_trans _ _ _ _ h3
    (writes_at_trans _ _ _ _ h4 (sema_up_trace_at _ waiter _)))

theorem cond_wait_trace_at (sorts : Nat) (donated empty flag0 waiter : Bool) (sleeps : Nat)
    (free donate : Bool) (chain : Nat) (raise : Bool) (blocks : Nat) (s : intr_trace) :
    writes_at [field.sema_value, field.sema_waiters, field.cond_waiters, field.lock_holder,
      field.thread_all_locks_held, field.thread_priority, field.thread_current_dono,
      field.lock_isntChain] s
      (cond_wait_trace sorts donated empty flag0 waiter sleeps free donate chain raise blocks
        s) := by
  unfold cond_wait_trace
  dsimp only
  have h1 := writes_at_log_write [field.sema_value, field.sema_waiters, field.cond_waiters,
    field.lock_holder, field.thread_all_locks_held, field.thread_priority,
    field.thread_current_dono, field.lock_isntChain] field.sema_value s (Or.inr (by simp))
  have h2 := writes_at_log_write [field.sema_value, field.sema_waiters, field.cond_waiters,
    field.lock_holder, field.thread_all_locks_held, field.thread_priority,
    field.thread_current_dono, field.lock_isntChain] field.sema_waiters
    (log_write field.sema_value s) (Or.inr (by simp))
  have h3 := writes_at_sort_sem_priority [field.sema_value, field.sema_waiters,
    field.cond_waiters, field.lock_holder, field.thread_all_locks_held, field.thread_priority,
    field.thread_current_dono, field.lock_isntChain] sorts
    (log_write field.sema_waiters (log_write field.sema_value s)) (Or.inr (by simp))
  have h4 := writes_at_log_write [field.sema_value, field.sema_waiters, field.cond_waiters,
    field.lock_holder, field.thread_all_locks_held, field.thread_priority,
    field.thread_current_dono, field.lock_isntChain] field.cond_waiters
    (sort_sem_priority_trace sorts
      (log_write field.sema_waiters (log_write field.sema_value s))) (Or.inr (by simp))
  have h14 := writes_at_trans _ _ _ _ (writes_at_trans _ _ _ _
    (writes_at_trans _ _ _ _ h1 h2) h3) h4
  generalize log_write field.cond_waiters (sort_sem_priority_trace sorts
      (log_write field.sema_waiters (log_write field.sema_value s))) = s2 at h14
  have h5 := writes_at_mono _ [field.sema_value, field.sema_waiters, field.cond_waiters,
    field.lock_holder, field.thread_all_locks_held, field.thread_priority,
    field.thread_current_dono, field.lock_isntChain] _ _ (by simp)
    (lock_release_trace_at donated empty flag0 waiter s2)
  exact writes_at_trans _ _ _ _ h14 (writes_at_trans _ _ _ _ h5
    (writes_at_trans _ _ _ _ (sema_down_trace_at _ sleeps _)
      (lock_acquire_trace_at _ free donate chain raise blocks _)))

theorem cond_signal_trace_at (cell : Bool) (sorts : Nat) (waiter : Bool) (s : intr_trace) :
    writes_at [field.cond_waiters, field.sema_waiters] s
      (cond_signal_trace cell sorts waiter s) := by
  unfold cond_signal_trace
  cases cell
  · exact writes_at_refl _ _
  · have h1 := writes_at_sort_sem_priority [field.cond_waiters, field.sema_waiters] sorts s
      (Or.inr (by simp))
    have h2 := writes_at_log_write [field.cond_waiters, field.sema_waiters]
      field.cond_waiters (sort_sem_priority_trace sorts s) (Or.inr (by simp))
    have h3 := writes_at_log_write [field.cond_waiters, field.sema_waiters]
      field.cond_waiters (log_write field.cond_waiters (sort_sem_priority_trace sorts s))
      (Or.inr (by simp))
    exact writes_at_trans _ _ _ _ h1 (writes_at_trans _ _ _ _ h2
      (writes_at_trans _ _ _ _ h3 (sema_up_trace_at _ waiter _)))

/-- The writes of a whole call made at the level `level`. -/
theorem writes_at_start (F : List field) (level : Bool) (s1 : intr_trace)
    (h : writes_at F (intr_start level) s1) :
    s1.level = level ∧ ∀ w ∈ s1.writes, w.2 = false ∨ (w.2 = level ∧ w.1 ∈ F) := by
  obtain ⟨hl, L, hw, hp⟩ := h
  refine ⟨hl, ?_⟩
  intro w hmem
  rw [hw] at hmem
  simp only [intr_start, List.nil_append] at hmem
  exact hp w hmem

/-- A write that is already in the trace stays in it. -/
theorem writes_at_mem (F : List field) (s s1 : intr_trace) (w : field × Bool)
    (h : writes_at F s s1) (hw : w ∈ s.writes) : w ∈ s1.writes := by
  obtain ⟨_, L, hw1, _⟩ := h
  rw [hw1]
  exact List.mem_append_left _ hw

theorem mem_log_write (f : field) (s : intr_trace) : (f, s.level) ∈ (log_write f s).writes := by
  simp [log_write]

theorem sort_sem_priority_trace_level (n : Nat) (s : intr_trace) :
    (sort_sem_priority_trace n s).level = s.level := by
  induction n with
  | zero => rfl
  | succ n ih => exact ih

/-- C17, amended: in `sema_down`, `sema_try_down`, `sema_up` and `lock_acquire`
every write to the followed fields is made with interrupts disabled, whatever
the interrupt level at the call.  `lock_try_acquire` writes the owner of the
lock, `lock_release` the owner and flag of the lock and the caller's priority,
donation flag and list of held locks, `cond_wait` the semaphore of its cell,
the waiter lists it re-sorts and the queue of the condition (and what its
`lock_release` writes), and `cond_signal` the queue of the condition and the
waiter lists it re-sorts, at the interrupt level of the call, so with
interrupts enabled when they are called with interrupts enabled; every other
write of these four is made with interrupts disabled. -/
theorem writes_interrupt_level :
    (∀ (level : Bool) (blocks : Nat) (w : field × Bool),
      w ∈ (sema_down_trace blocks (intr_start level)).writes → w.2 = false) ∧
    (∀ (level success : Bool) (w : field × Bool),
      w ∈ (sema_try_down_trace success (intr_start level)).writes → w.2 = false) ∧
    (∀ (level waiter : Bool) (w : field × Bool),
      w ∈ (sema_up_trace waiter (intr_start level)).writes → w.2 = false) ∧
    (∀ (level free donate : Bool) (chain : Nat) (raise : Bool) (blocks : Nat)
      (w : field × Bool),
      w ∈ (lock_acquire_trace free donate chain raise blocks (intr_start level)).writes →
        w.2 = false) ∧
    (∀ (level success : Bool) (w : field × Bool),
      w ∈ (lock_try_acquire_trace success (intr_start level)).writes →
        w.2 = false ∨ (w.2 = level ∧ w.1 ∈ [field.lock_holder])) ∧
    (∀ (level : Bool),
      (field.lock_holder, level) ∈ (lock_try_acquire_trace true (intr_start level)).writes) ∧
    (∀ (level donated empty flag0 waiter : Bool) (w : field × Bool),
      w ∈ (lock_release_trace donated empty flag0 waiter (intr_start level)).writes →
        w.2 = false ∨ (w.2 = level ∧
          w.1 ∈ [field.lock_holder, field.thread_all_locks_held, field.thread_priority,
            field.thread_current_dono, field.lock_isntChain])) ∧
    (∀ (level donated empty flag0 waiter : Bool),
      (field.lock_holder, level)
        ∈ (lock_release_trace donated empty flag0 waiter (intr_start level)).writes) ∧
    (∀ (level : Bool) (sorts : Nat) (donated empty flag0 waiter : Bool) (sleeps : Nat)
      (free donate : Bool) (chain : Nat) (raise : Bool) (blocks : Nat) (w : field × Bool),
      w ∈ (cond_wait_trace sorts donated empty flag0 waiter sleeps free donate chain raise
          blocks (intr_start level)).writes →
        w.2 = false ∨ (w.2 = level ∧
          w.1 ∈ [field.sema_value, field.sema_waiters, field.cond_waiters, field.lock_holder,
            field.thread_all_locks_held, field.thread_priority, field.thread_current_dono,
            field.lock_isntChain])) ∧
    (∀ (level : Bool) (sorts : Nat) (donated empty flag0 waiter : Bool) (sleeps : Nat)
      (free donate : Bool) (chain : Nat) (raise : Bool) (blocks : Nat),
      (field.cond_waiters, level)
        ∈ (cond_wait_trace sorts donated empty flag0 waiter sleeps free donate chain raise
          blocks (intr_start level)).writes) ∧
    (∀ (level cell : Bool) (sorts : Nat) (waiter : Bool) (w : field × Bool),
      w ∈ (cond_signal_trace cell sorts waiter (intr_start level)).writes →
        w.2 = false ∨ (w.2 = level ∧ w.1 ∈ [field.cond_waiters, field.sema_waiters])) ∧
    (∀ (level : Bool) (sorts : Nat) (waiter : Bool),
      (field.cond_waiters, level)
        ∈ (cond_signal_trace true sorts waiter (intr_start level)).writes) := by
  refine ⟨?_, ?_, ?_, ?_, ?_, ?_, ?_, ?_, ?_, ?_, ?_, ?_⟩
  · intro level blocks w hw
    rcases (writes_at_start [] level _ (sema_down_trace_at [] blocks _)).2 w hw with h | ⟨_, h⟩
    · exact h
    · exact absurd h (List.not_mem_nil _)
  · intro level success w hw
    rcases (writes_at_start [] level _ (sema_try_down_trace_at [] success _)).2 w hw with
      h | ⟨_, h⟩
    · exact h
    · exact absurd h (List.not_mem_nil _)
  · intro level waiter w hw
    rcases (writes_at_start [] level _ (sema_up_trace_at [] waiter _)).2 w hw with h | ⟨_, h⟩
    · exact h
    · exact absurd h (List.not_mem_nil _)
  · intro level free donate chain raise blocks w hw
    rcases (writes_at_start [] level _
      (lock_acquire_trace_at [] free donate chain raise blocks _)).2 w hw with h | ⟨_, h⟩
    · exact h
    · exact absurd h (List.not_mem_nil _)
  · intro level success w hw
    exact (writes_at_start _ level _ (lock_try_acquire_trace_at success _)).2 w hw
  · intro level
    cases level <;> decide
  · intro level donated empty flag0 waiter w hw
    exact (writes_at_start _ level _
      (lock_release_trace_at donated empty flag0 waiter _)).2 w hw
  · intro level donated empty flag0 waiter
    cases level <;> cases donated <;> cases empty <;> cases flag0 <;> cases waiter <;> decide
  · intro level sorts donated empty flag0 waiter sleeps free donate chain raise blocks w hw
    exact (writes_at_start _ level _
      (cond_wait_trace_at sorts donated empty flag0 waiter sleeps free donate chain raise
        blocks _)).2 w hw
  · intro level sorts donated empty flag0 waiter sleeps free donate chain raise blocks
    have h0 : (field.cond_waiters, level) ∈
        (log_write field.cond_waiters (sort_sem_priority_trace sorts
          (log_write field.sema_waiters
            (log_write field.sema_value (intr_start level))))).writes := by
      have := mem_log_write field.cond_waiters (sort_sem_priority_trace sorts
          (log_write field.sema_waiters (log_write field.sema_value (intr_start level))))
      rw [sort_sem_priority_trace_level] at this
      exact this
    have h1 := writes_at_mem _ _ _ _ (lock_release_trace_at donated empty flag0 waiter _) h0
    have h2 := writes_at_mem _ _ _ _ (sema_down_trace_at [] sleeps _) h1
    exact writes_at_mem _ _ _ _ (lock_acquire_trace_at [] free donate chain raise blocks _) h2
  · intro level cell sorts waiter w hw
    exact (writes_at_start _ level _ (cond_signal_trace_at cell sorts waiter _)).2 w hw
  · intro level sorts waiter
    have h0 : (field.cond_waiters, level) ∈
        (log_write field.cond_waiters (sort_sem_priority_trace sorts (intr_start level))).writes := by
      have := mem_log_write field.cond_waiters (sort_sem_priority_trace sorts (intr_start level))
      rw [sort_sem_priority_trace_level] at this
      exact this
    have h1 := writes_at_mem _ _ _ _
      (writes_at_log_write [field.cond_waiters] field.cond_waiters
        (log_write field.cond_waiters (sort_sem_priority_trace sorts (intr_start level)))
        (Or.inr (by simp))) h0
    exact writes_at_mem _ _ _ _ (sema_up_trace_at [] waiter _) h1

/-- Witness of C17: the decrement of `sema_down`, called with interrupts
enabled after one suspension, is made with interrupts disabled. -/
theorem writes_interrupt_level_witness :
    (field.sema_value, false) ∈ (sema_down_trace 1 (intr_start true)).writes ∧
    (field.sema_value, false).2 = false :=
  ⟨by decide, writes_interrupt_level.1 true 1 (field.sema_value, false) (by decide)⟩

/-- C17 as stated fails: `lock_release` called with interrupts enabled writes
the owner of the lock (and the caller's list of held locks) while interrupts
are enabled. -/
theorem writes_interrupt_level_counterexample :
    (field.lock_holder, true) ∈ (lock_release_trace false false false false
      (intr_start true)).writes ∧
    (field.thread_all_locks_held, true) ∈ (lock_release_trace false false false false
      (intr_start true)).writes := by
  constructor <;> decide

/-! ## Condition variable: the comparator of wait-cells -/

/-- C18, amended: on wait-cells that have a waiting thread `sort_sem_priority`
is a strict ordering by the priority of the best waiter: it is never true for
both (a, b) and (b, a), compared in the same state or one after the other, and
never true for (a, a).  Whenever the second cell has no waiting thread it is
true, also for (a, a) and for both orders of two such cells; for a first cell
with no waiting thread and a second cell with one it is false. -/
theorem sort_sem_priority_order (k : kernel) (a b : Nat) :
    ((k.cells b).semaphore.waiters = [] → (sort_sem_priority k a b).2 = true) ∧
    ((k.cells a).semaphore.waiters = [] → (k.cells b).semaphore.waiters ≠ [] →
      (sort_sem_priority k a b).2 = false) ∧
    ((k.cells a).semaphore.waiters ≠ [] → (k.cells b).semaphore.waiters ≠ [] →
      (∃ p q, cell_key k a = some p ∧ cell_key k b = some q ∧
        (sort_sem_priority k a b).2 = decide (p > q)) ∧
      ¬ ((sort_sem_priority k a b).2 = true ∧ (sort_sem_priority k b a).2 = true) ∧
      ¬ ((sort_sem_priority k a b).2 = true ∧
          (sort_sem_priority (sort_sem_priority k a b).1 b a).2 = true) ∧
      (sort_sem_priority k a a).2 = false) := by
  have hab := (sort_sem_priority_key k a b).1
  have hba := (sort_sem_priority_key k b a).1
  have haa := (sort_sem_priority_key k a a).1
  have hba2 := (sort_sem_priority_rearranged k _ b a (sort_sem_priority_key k a b).2).1
  refine ⟨?_, ?_, ?_⟩
  · intro hb
    rw [hab, (cell_key_eq_none k b).2 hb]
    cases cell_key k a <;> rfl
  · intro ha hb
    rw [hab, (cell_key_eq_none k a).2 ha]
    cases hkb : cell_key k b with
    | none => exact absurd ((cell_key_eq_none k b).1 hkb) hb
    | some q => rfl
  · intro ha hb
    cases hka : cell_key k a with
    | none => exact absurd ((cell_key_eq_none k a).1 hka) ha
    | some p =>
      cases hkb : cell_key k b with
      | none => exact absurd ((cell_key_eq_none k b).1 hkb) hb
      | some q =>
        rw [hka, hkb] at hab
        rw [hka, hkb] at hba
        rw [hka] at haa
        simp only [cell_less, hka, hkb] at hba2
        simp only [key_less] at hab hba haa hba2
        refine ⟨⟨p, q, rfl, rfl, hab⟩, ?_, ?_, ?_⟩
        · rw [hab, hba]
          simp only [decide_eq_true_eq]
          intro h
          exact lt_asymm h.1 h.2
        · rw [hab, hba2]
          simp only [decide_eq_true_eq]
          intro h
          exact lt_asymm h.1 h.2
        · rw [haa]
          simp

/-- Witness of C18: the cells 10 and 11 of the demonstration kernel, whose
waiters L and H have priorities 1 and 9. -/
theorem sort_sem_priority_order_witness :
    (∃ p q, cell_key cond_demo 10 = some p ∧ cell_key cond_demo 11 = some q ∧
      (sort_sem_priority cond_demo 10 11).2 = decide (p > q)) ∧
    ¬ ((sort_sem_priority cond_demo 10 11).2 = true ∧
        (sort_sem_priority cond_demo 11 10).2 = true) ∧
    ¬ ((sort_sem_priority cond_demo 10 11).2 = true ∧
        (sort_sem_priority (sort_sem_priority cond_demo 10 11).1 11 10).2 = true) ∧
    (sort_sem_priority cond_demo 10 10).2 = false :=
  (sort_sem_priority_order cond_demo 10 11).2.2 (by decide) (by decide)

/-- C18 as stated fails: for the cell 13 of the demonstration kernel, which has
no waiting thread (as the cell of `cond_wait` when it is inserted), the
comparator is true for (13, 13), and for the cells 13 and 14 it is true in both
orders. -/
theorem sort_sem_priority_order_counterexample :
    (cond_demo.cells 13).semaphore.waiters = [] ∧
    (cond_demo.cells 14).semaphore.waiters = [] ∧
    (sort_sem_priority cond_demo 13 13).2 = true ∧
    (sort_sem_priority cond_demo 13 14).2 = true ∧
    (sort_sem_priority cond_demo 14 13).2 = true := by
  refine ⟨?_, ?_, ?_, ?_, ?_⟩ <;> decide

/-! ## Lock: the list of held locks -/

/-- The donation walk writes no list of held locks. -/
theorem next_lock_needed_held (cur : Nat) :
    ∀ (n : Nat) (threads : Nat → thread) (lk : lock) (ts : Nat → thread),
      next_lock_needed n threads cur lk = some ts →
      ∀ t, (ts t).all_locks_held = (threads t).all_locks_held := by
  intro n
  induction n with
  | zero => intro threads lk ts h; simp [next_lock_needed] at h
  | succ n ih =>
    intro threads lk ts h t
    rw [next_lock_needed] at h
    cases hh : lk.holder with
    | none => simp [hh] at h
    | some o =>
      simp only [hh] at h
      cases hr : (if (threads o).neededLock.is_not_null = 1 then
          next_lock_needed n threads cur (threads o).neededLock else some threads) with
      | none => simp [hr] at h
      | some t1 =>
        simp only [hr, Option.some.injEq] at h
        have h1 : ∀ u, (t1 u).all_locks_held = (threads u).all_locks_held := by
          intro u
          split at hr
          · exact ih _ _ _ hr u
          · simp only [Option.some.injEq] at hr
            rw [← hr]
        rw [← h]
        by_cases ht : t = o
        · subst ht
          simp only [Function.update_same]
          exact h1 t
        · rw [Function.update_noteq ht]
          exact h1 t

/-- The donation step of `lock_acquire` writes no list of held locks. -/
theorem lock_acquire_donate_held (fuel : Nat) (k k1 : kernel) (cur l : Nat)
    (h : lock_acquire_donate fuel false k cur l = some k1) (t : Nat) :
    (k1.threads t).all_locks_held = (k.threads t).all_locks_held := by
  rcases lock_acquire_donate_cases fuel k k1 cur l h with
    ⟨_, rfl⟩ | ⟨o, _, _, _, rfl⟩ | ⟨o, threads5, _, _, _, hw, rfl⟩
  · rfl
  · rfl
  · rw [donated_threads, next_lock_needed_held cur fuel _ _ threads5 hw t]
    by_cases ht : t = cur
    · subst ht
      simp only [Function.update_same]
    · rw [Function.update_noteq ht]

theorem lock_acquire_donate_held_ok (fuel : Nat) (k k1 : kernel) (cur l : Nat)
    (h : lock_acquire_donate fuel false k cur l = some k1) (hk : held_ok k) : held_ok k1 := by
  obtain ⟨hok, hown, hnd⟩ := hk
  refine ⟨?_, ?_, ?_⟩
  · intro l1
    have := lock_acquire_donate_owner fuel k k1 cur l h l1
    unfold lock_ok
    rw [this.1, this.2]
    exact hok l1
  · intro t l1 hl1
    rw [lock_acquire_donate_held fuel k k1 cur l h t] at hl1
    rw [(lock_acquire_donate_owner fuel k k1 cur l h l1).1]
    exact hown t l1 hl1
  · intro t
    rw [lock_acquire_donate_held fuel k k1 cur l h t]
    exact hnd t

/-- The rest of `lock_acquire`: a lock is filed in the caller's list when the
caller becomes its owner. -/
theorem lock_acquire_down_held_ok (k : kernel) (cur l : Nat) (hk : held_ok k) :
    held_ok (lock_acquire_down k cur l).1 := by
  obtain ⟨hok, hown, hnd⟩ := hk
  refine ⟨lock_acquire_down_ok k cur l hok, ?_, ?_⟩
  · intro t l1
    unfold lock_acquire_down sema_down_loop lock_acquire_finish
    by_cases hv : (k.locks l).semaphore.value = 0
    · simp only [hv, if_true, Bool.false_eq_true, if_false, set_lock_locks, set_lock_threads,
        thread_block]
      intro hl1
      have hl2 : l1 ∈ (k.threads t).all_locks_held := by
        by_cases ht : t = cur
        · subst ht
          simpa using hl1
        · rw [Function.update_noteq ht] at hl1
          exact hl1
      by_cases h1 : l1 = l
      · subst h1
        simp only [Function.update_same]
        exact hown t l1 hl2
      · rw [Function.update_noteq h1]
        exact hown t l1 hl2
    · have hfree : (k.locks l).holder = none := by
        rcases hok l with ⟨h1, _⟩ | ⟨_, h2⟩
        · exact h1
        · exact absurd h2 hv
      have hnot : ∀ u, l ∉ (k.threads u).all_locks_held := by
        intro u hu
        have := hown u l hu
        rw [hfree] at this
        simp at this
      simp only [hv, if_false, if_true, set_lock_locks, set_lock_threads, set_thread_locks,
        set_thread_threads, Function.update_idem, Function.update_same]
      intro hl1
      by_cases ht : t = cur
      · subst ht
        simp only [Function.update_same] at hl1
        rcases List.mem_cons.1
          ((list_insert_ordered_perm _ l (k.threads t).all_locks_held).subset hl1) with
          rfl | hl2
        · simp
        · have hne : l1 ≠ l := fun he => hnot t (he ▸ hl2)
          rw [Function.update_noteq hne]
          exact hown t l1 hl2
      · rw [Function.update_noteq ht] at hl1
        have hne : l1 ≠ l := fun he => hnot t (he ▸ hl1)
        rw [Function.update_noteq hne]
        exact hown t l1 hl1
  · intro t
    unfold lock_acquire_down sema_down_loop lock_acquire_finish
    by_cases hv : (k.locks l).semaphore.value = 0
    · simp only [hv, if_true, Bool.false_eq_true, if_false, set_lock_threads, thread_block]
      by_cases ht : t = cur
      · subst ht
        simpa using hnd t
      · rw [Function.update_noteq ht]
        exact hnd t
    · have hfree : (k.locks l).holder = none := by
        rcases hok l with ⟨h1, _⟩ | ⟨_, h2⟩
        · exact h1
        · exact absurd h2 hv
      have hnot : l ∉ (k.threads cur).all_locks_held := by
        intro hu
        have := hown cur l hu
        rw [hfree] at this
        simp at this
      simp only [hv, if_false, if_true, set_lock_locks, set_lock_threads, set_thread_locks,
        set_thread_threads, Function.update_idem, Function.update_same]
      by_cases ht : t = cur
      · subst ht
        simp only [Function.update_same]
        exact ((list_insert_ordered_perm _ l (k.threads t).all_locks_held).nodup_iff).2
          (List.nodup_cons.2 ⟨hnot, hnd t⟩)
      · rw [Function.update_noteq ht]
        exact hnd t

/-- `lock_try_acquire` files nothing: a lock it takes was free, so in no list,
and stays in none. -/
theorem lock_try_acquire_held_ok (k : kernel) (cur l : Nat) (r : kernel × Bool)
    (h : lock_try_acquire k cur l = some r) (hk : held_ok k) : held_ok r.1 := by
  obtain ⟨hok, hown, hnd⟩ := hk
  refine ⟨lock_try_acquire_ok k cur l r h hok, ?_, ?_⟩
  · intro t l1 hl1
    unfold lock_try_acquire sema_try_down at h
    split at h
    · simp at h
    · by_cases hv : (k.locks l).semaphore.value > 0
      · simp only [hv, if_true, Option.some.injEq] at h
        subst h
        simp only [set_lock_locks, set_lock_threads, Function.update_idem] at hl1 ⊢
        have hfree : (k.locks l).holder = none := by
          rcases hok l with ⟨h1, _⟩ | ⟨_, h2⟩
          · exact h1
          · omega
        have hne : l1 ≠ l := by
          intro he
          have := hown t l (he ▸ hl1)
          rw [hfree] at this
          simp at this
        rw [Function.update_noteq hne]
        exact hown t l1 hl1
      · simp only [hv, if_false, Bool.false_eq_true, Option.some.injEq] at h
        subst h
        simp only [set_lock_locks, set_lock_threads] at hl1 ⊢
        by_cases h1 : l1 = l
        · subst h1
          simp only [Function.update_same]
          exact hown t l1 hl1
        · rw [Function.update_noteq h1]
          exact hown t l1 hl1
  · intro t
    unfold lock_try_acquire sema_try_down at h
    split at h
    · simp at h
    · by_cases hv : (k.locks l).semaphore.value > 0
      · simp only [hv, if_true, Option.some.injEq] at h
        subst h
        exact hnd t
      · simp only [hv, if_false, Bool.false_eq_true, Option.some.injEq] at h
        subst h
        exact hnd t

/-- `lock_release_priority` writes the caller's record only. -/
theorem lock_release_priority_other (k : kernel) (cur l t : Nat) (ht : t ≠ cur) :
    (lock_release_priority k cur l).threads t = k.threads t := by
  unfold lock_release_priority
  split
  · split
    · simp [Function.update_noteq ht]
    · simp only [set_thread_locks]
      split
      · split <;> simp [Function.update_noteq ht]
      · simp [Function.update_noteq ht]
  · rfl

/-- The wake of `sema_up` writes no list of held locks. -/
theorem sema_up_held (threads : Nat → thread) (sema : semaphore) (t : Nat) :
    ((sema_up threads sema).1 t).all_locks_held = (threads t).all_locks_held := by
  obtain ⟨b, hb⟩ := sema_up_thread threads sema t
  rw [hb]

/-- `lock_release` takes the lock out of the caller's list and writes no other
list of held locks. -/
theorem lock_release_held (k k1 : kernel) (cur l : Nat) (h : lock_release k cur l = some k1) :
    ((k1.threads cur).all_locks_held).Perm ((k.threads cur).all_locks_held.erase l) ∧
    ∀ t, t ≠ cur → (k1.threads t).all_locks_held = (k.threads t).all_locks_held := by
  obtain ⟨hheld, hmem⟩ := lock_release_some_mem k k1 cur l h
  constructor
  · obtain ⟨b, hb⟩ := lock_release_thread k k1 cur l h
    have hperm := lock_release_priority_held
      (set_thread (set_lock k l { k.locks l with holder := none }) cur
        { k.threads cur with all_locks_held := (k.threads cur).all_locks_held.erase l }) cur l
    simp only [set_thread_threads, Function.update_same] at hperm
    rw [hb]
    exact hperm
  · intro t ht
    rw [lock_release_eq k cur l hheld hmem] at h
    simp only [Option.some.injEq] at h
    subst h
    simp only [set_lock_threads]
    rw [sema_up_held, lock_release_priority_other _ cur l t ht]
    simp [Function.update_noteq ht]

theorem lock_release_held_ok (k k1 : kernel) (cur l : Nat) (h : lock_release k cur l = some k1)
    (hk : held_ok k) : held_ok k1 := by
  obtain ⟨hok, hown, hnd⟩ := hk
  obtain ⟨hheld, hother, _⟩ := lock_release_locks k k1 cur l h
  obtain ⟨hperm, hrest⟩ := lock_release_held k k1 cur l h
  refine ⟨lock_release_ok k k1 cur l h hok, ?_, ?_⟩
  · intro t l1 hl1
    by_cases ht : t = cur
    · subst ht
      have hl2 := hperm.subset hl1
      have hne : l1 ≠ l := fun he => (List.Nodup.not_mem_erase (hnd t)) (he ▸ hl2)
      rw [hother l1 hne]
      exact hown t l1 (List.mem_of_mem_erase hl2)
    · rw [hrest t ht] at hl1
      have hne : l1 ≠ l := by
        intro he
        have := hown t l (he ▸ hl1)
        rw [hheld] at this
        exact ht (Option.some.inj this).symm
      rw [hother l1 hne]
      exact hown t l1 hl1
  · intro t
    by_cases ht : t = cur
    · subst ht
      exact (hperm.nodup_iff).2 ((hnd t).erase l)
    · rw [hrest t ht]
      exact hnd t

theorem lock_step_held_ok (fuel : Nat) (s s1 : lock_sys) (e : lock_event)
    (h : lock_step fuel s e = some s1) (hk : held_ok s.k) : held_ok s1.k := by
  cases e with
  | acquire t l =>
    simp only [lock_step] at h
    split at h
    · simp at h
    · cases hd : lock_acquire_donate fuel false s.k t l with
      | none => simp [hd] at h
      | some k1 =>
        simp only [hd, Option.map_some', Option.some.injEq] at h
        subst h
        exact lock_acquire_donate_held_ok fuel s.k k1 t l hd hk
  | acquire_down t =>
    simp only [lock_step] at h
    split at h
    · simp at h
    · rename_i l _
      split at h
      · simp at h
      · split at h
        all_goals
          simp only [Option.some.injEq] at h
          subst h
          exact lock_acquire_down_held_ok s.k t l hk
  | try_acquire t l =>
    simp only [lock_step] at h
    split at h
    · simp at h
    · cases hd : lock_try_acquire s.k t l with
      | none => simp [hd] at h
      | some r =>
        simp only [hd, Option.map_some', Option.some.injEq] at h
        subst h
        exact lock_try_acquire_held_ok s.k t l r hd hk
  | release t l =>
    simp only [lock_step] at h
    split at h
    · simp at h
    · cases hd : lock_release s.k t l with
      | none => simp [hd] at h
      | some k1 =>
        simp only [hd, Option.map_some', Option.some.injEq] at h
        subst h
        exact lock_release_held_ok s.k k1 t l hd hk

theorem lock_run_held_ok (fuel : Nat) (evs : List lock_event) :
    ∀ s s1 : lock_sys, held_ok s.k → lock_run fuel s evs = some s1 → held_ok s1.k := by
  induction evs with
  | nil =>
    intro s s1 hi h
    simp only [lock_run, Option.some.injEq] at h
    subst h
    exact hi
  | cons e es ih =>
    intro s s1 hi h
    simp only [lock_run] at h
    cases hstep : lock_step fuel s e with
    | none => simp [hstep] at h
    | some s2 =>
      simp only [hstep, Option.some_bind] at h
      exact ih s2 s1 (lock_step_held_ok fuel s s2 e hstep hi) h

/-- In every state reached from `lock_init`, with the lists of held locks
empty at the start, through `lock_acquire`, `lock_try_acquire` and
`lock_release` calls, a lock that is in a thread's list of held locks is owned
by that thread, and is in the list once: the `lock_elem` of an owned lock is in
its owner's list or in none. -/
theorem held_list_owner (k0 : kernel) (PRI_DEFAULT : Int) (fuel : Nat)
    (evs : List lock_event) (s : lock_sys)
    (hinit : ∀ t, (k0.threads t).all_locks_held = [])
    (h : lock_run fuel (lock_sys_init k0 PRI_DEFAULT) evs = some s) :
    (∀ t l, l ∈ (s.k.threads t).all_locks_held → (s.k.locks l).holder = some t) ∧
    ∀ t, ((s.k.threads t).all_locks_held).Nodup := by
  have h0 : held_ok (lock_sys_init k0 PRI_DEFAULT).k := by
    refine ⟨fun l1 => Or.inl ⟨rfl, rfl⟩, ?_, ?_⟩
    · intro t l hl
      have : l ∈ (k0.threads t).all_locks_held := hl
      rw [hinit t] at this
      exact absurd this (List.not_mem_nil l)
    · intro t
      have : (((lock_sys_init k0 PRI_DEFAULT).k.threads t).all_locks_held)
          = (k0.threads t).all_locks_held := rfl
      rw [this, hinit t]
      exact List.nodup_nil
  exact (lock_run_held_ok fuel evs _ s h0 h).2

/-- C19 fails on the code: thread 1 takes the fresh lock 0 with
`lock_try_acquire`.  It is the owner, yet the lock is not in its list of held
locks, where `lock_acquire` would have put it.  A `lock_release` by thread 1
then passes its assertion and finds no lock to take out of the list: it does
not get past `list_remove`, where after `lock_acquire` it returns with the lock
taken out of the list. -/
theorem try_acquire_skips_held_list :
    (lock_run 4 (lock_sys_init (mk_kernel lmh_priority 31) 31) [.try_acquire 1 0]).map
      (fun s => ((s.k.locks 0).holder, lock_held_by_current_thread s.k 1 0,
        (s.k.threads 1).all_locks_held)) = some (some 1, true, []) ∧
    (lock_run 4 (lock_sys_init (mk_kernel lmh_priority 31) 31)
        [.acquire 1 0, .acquire_down 1]).map
      (fun s => ((s.k.locks 0).holder, lock_held_by_current_thread s.k 1 0,
        (s.k.threads 1).all_locks_held)) = some (some 1, true, [0]) ∧
    (lock_run 4 (lock_sys_init (mk_kernel lmh_priority 31) 31) [.try_acquire 1 0]).map
      (fun s => (list_remove 0 (s.k.threads 1).all_locks_held,
        (lock_release s.k 1 0).isSome)) = some (none, false) ∧
    (lock_run 4 (lock_sys_init (mk_kernel lmh_priority 31) 31)
        [.acquire 1 0, .acquire_down 1, .release 1 0]).map
      (fun s => ((s.k.locks 0).holder, (s.k.threads 1).all_locks_held))
      = some (none, []) := by
  refine ⟨?_, ?_, ?_, ?_⟩ <;> rfl

/-! ## The sorted linked list -/

namespace linkedlist

theorem list_sort_loop_equal (before : List Int) (num : Int) (rest : List Int) :
    ∀ fuel, list_sort_loop fuel before num num rest = none := by
  intro fuel
  induction fuel with
  | zero => rfl
  | succ fuel ih =>
    unfold list_sort_loop
    simp only [lt_self_iff_false, if_false]
    exact ih

theorem list_sort_loop_ascending :
    ∀ (rest before : List Int) (curr next : Int) (fuel : Nat),
      (curr :: next :: rest).Sorted (· < ·) → rest.length + 1 ≤ fuel →
      list_sort_loop fuel before curr next rest = some (before ++ curr :: next :: rest) := by
  intro rest
  induction rest with
  | nil =>
    intro before curr next fuel hs hf
    obtain ⟨fuel, rfl⟩ : ∃ f, fuel = f + 1 := ⟨fuel - 1, by simp at hf; omega⟩
    have hlt : curr < next := List.rel_of_sorted_cons hs next (List.mem_cons_self _ _)
    simp [list_sort_loop, hlt]
  | cons next2 rest2 ih =>
    intro before curr next fuel hs hf
    obtain ⟨fuel, rfl⟩ : ∃ f, fuel = f + 1 := ⟨fuel - 1, by simp at hf; omega⟩
    have hlt : curr < next := List.rel_of_sorted_cons hs next (List.mem_cons_self _ _)
    have hs2 : (next :: next2 :: rest2).Sorted (· < ·) := List.Sorted.of_cons hs
    have hf2 : rest2.length + 1 ≤ fuel := by simp at hf; omega
    simp [list_sort_loop, hlt, ih (before ++ [curr]) next next2 fuel hs2 hf2]

theorem list_sort_loop_insert (num : Int) :
    ∀ (rest before : List Int) (next : Int) (fuel : Nat),
      (next :: rest).Sorted (· < ·) → num ∉ next :: rest → 2 * (rest.length + 1) ≤ fuel →
      list_sort_loop fuel before num next rest
        = some (before ++ (next :: rest).orderedInsert (· ≤ ·) num) := by
  intro rest
  induction rest with
  | nil =>
    intro before next fuel hs hn hf
    obtain ⟨fuel, rfl⟩ : ∃ f, fuel = f + 2 := ⟨fuel - 2, by simp at hf; omega⟩
    have hne : num ≠ next := fun h => hn (h ▸ List.mem_cons_self _ _)
    by_cases hlt : num < next
    · simp [list_sort_loop, hlt, le_of_lt hlt]
    · have hgt : next < num := lt_of_le_of_ne (not_lt.1 hlt) (Ne.symm hne)
      simp [list_sort_loop, hlt, hgt, not_le.2 hgt]
  | cons next2 rest2 ih =>
    intro before next fuel hs hn hf
    obtain ⟨fuel, rfl⟩ : ∃ f, fuel = f + 2 := ⟨fuel - 2, by simp at hf; omega⟩
    have hne : num ≠ next := fun h => hn (h ▸ List.mem_cons_self _ _)
    have hn2 : num ∉ next2 :: rest2 := fun h => hn (List.mem_cons_of_mem _ h)
    have hs2 : (next2 :: rest2).Sorted (· < ·) := List.Sorted.of_cons hs
    by_cases hlt : num < next
    · have hs3 : (num :: next :: next2 :: rest2).Sorted (· < ·) := by
        refine List.sorted_cons.2 ⟨?_, hs⟩
        intro b hb
        rcases List.mem_cons.1 hb with rfl | hb
        · exact hlt
        · exact lt_trans hlt (List.rel_of_sorted_cons hs b hb)
      have hf3 : (next2 :: rest2).length + 1 ≤ fuel + 2 := by simp at hf ⊢; omega
      rw [list_sort_loop_ascending (next2 :: rest2) before num next (fuel + 2) hs3 hf3]
      simp [List.orderedInsert, le_of_lt hlt]
    · have hgt : next < num := lt_of_le_of_ne (not_lt.1 hlt) (Ne.symm hne)
      have hf2 : 2 * (rest2.length + 1) ≤ fuel := by simp at hf; omega
      have h := ih (before ++ [next]) next2 fuel hs2 hn2 hf2
      rw [list_sort_loop]
      simp only [hlt, if_false]
      rw [list_sort_loop]
      simp only [hgt, if_true]
      rw [h]
      simp [List.orderedInsert, not_le.2 hgt]

/-- C20 fails on the code: `list_add` of a number equal to the data of the first
node never returns, whatever the fuel, as `list_sort` swaps the two equal data
for ever; so `list_add (1)` on the list that holds 1.  On a list in strictly
ascending order that does not hold the number, `list_add` returns with the
number inserted at its place, the list again in strictly ascending order; so
the adds of `main`, of distinct numbers, give 1 2 3 4 5. -/
theorem list_add_equal_never_returns :
    (∀ fuel, list_add fuel 1 [1] = none) ∧
    (∀ (fuel : Nat) (num : Int) (rest : List Int), list_add fuel num (num :: rest) = none) ∧
    (∀ (num : Int) (head : List Int) (fuel : Nat), head.Sorted (· < ·) → num ∉ head →
      2 * head.length ≤ fuel →
      list_add fuel num head = some (head.orderedInsert (· ≤ ·) num) ∧
      (head.orderedInsert (· ≤ ·) num).Sorted (· < ·) ∧
      (head.orderedInsert (· ≤ ·) num).Perm (num :: head)) ∧
    main_adds 8 = some [1, 2, 3, 4, 5] := by
  refine ⟨?_, ?_, ?_, by decide⟩
  · intro fuel
    exact list_sort_loop_equal [] 1 [] fuel
  · intro fuel num rest
    exact list_sort_loop_equal [] num rest fuel
  · intro num head fuel hs hn hf
    have hperm : (head.orderedInsert (· ≤ ·) num).Perm (num :: head) :=
      List.perm_orderedInsert _ num head
    have hle : head.Sorted (· ≤ ·) := hs.le_of_lt
    have hnd : (num :: head).Nodup := List.nodup_cons.2 ⟨hn, hs.nodup⟩
    refine ⟨?_, (hle.orderedInsert num head).lt_of_le (hperm.nodup_iff.2 hnd), hperm⟩
    cases head with
    | nil => rfl
    | cons next rest =>
      have h := list_sort_loop_insert num rest [] next fuel hs hn (by simpa using hf)
      simpa [list_add, list_sort] using h

end linkedlist

end Synch
